import Mathlib

/-!
# go-shopify: the GraphQL query engine, shop names and resource services

A shallow embedding of `GraphQLCost.RetryAfterSeconds` and of the retry loop of
`GraphQLServiceOp.Query` (`graphql.go`), of `ShopFullName`, `ShopShortName` and `OnlyDate`
(`util.go`) and of the list and get operations of the resource services. The pagination
parser, the error classifier and `ResponseError.Error` are declared outside the files at
hand; their definitions are marked as modelled from the spec.

Reading of the numbers:
* `float64` quantities are read as exact rationals (`ℚ`); the IEEE special values that a
  zero `RestoreRate` produces are outside this reading;
* `math.Ceil` followed by a conversion to a 64-bit integer type is the exact ceiling
  when that lies in the range of `int64`, and the smallest `int64` otherwise;
* `time.Duration` is a count of nanoseconds in an `int64`, so the product with
  `time.Second` wraps around modulo `2^64`;
* a Go `string` is a Lean `String`; the functions of packages `strings` and `time` that
  the code calls work on its characters.

The request executor `Client.Post` lives outside `graphql.go`; it is a parameter of the
model: the answer it gives to each successive call.
-/

namespace GoShopify

/-! ## Data model -/

/-- The status of the shop's rate limit points (`GraphQLThrottleStatus`). -/
structure GraphQLThrottleStatus where
  MaximumAvailable : ℚ
  CurrentlyAvailable : ℚ
  RestoreRate : ℚ
deriving DecidableEq

/-- The cost of a graphql query (`GraphQLCost`); `ActualQueryCost` is a nullable pointer. -/
structure GraphQLCost where
  RequestedQueryCost : Int
  ActualQueryCost : Option Int
  ThrottleStatus : GraphQLThrottleStatus
deriving DecidableEq

/-- The `extensions` object of a response (`graphQLExtensions`). -/
structure graphQLExtensions where
  Cost : GraphQLCost
deriving DecidableEq

/-- The `extensions` object of one error (`graphQLErrorExtensions`). -/
structure graphQLErrorExtensions where
  Code : String
  Documentation : String
deriving DecidableEq

/-- A source location of an error (`graphQLErrorLocation`). -/
structure graphQLErrorLocation where
  Line : Int
  Column : Int
deriving DecidableEq

/-- One entry of the `errors` list (`graphQLError`). -/
structure graphQLError where
  Message : String
  Extensions : Option graphQLErrorExtensions
  Locations : List graphQLErrorLocation
deriving DecidableEq

/-- The decoded envelope (`graphQLResponse`); `Data` stands for the decode target. -/
structure graphQLResponse where
  Data : String
  Errors : List graphQLError
  Extensions : Option graphQLExtensions
deriving DecidableEq

/-- The extension code of a throttled error (`graphQLErrorCodeThrottled`). -/
def graphQLErrorCodeThrottled : String := "THROTTLED"

/-- Modelled from the spec: the type `ResponseError` is declared outside `graphql.go`;
its fields are the ones `Query` and the tests write: a status, a message and the list
of individual messages. -/
structure ResponseError where
  Status : Int
  Message : String
  Errors : List String
deriving DecidableEq

/-- Modelled from the spec: the type `RateLimitError` is declared outside `graphql.go`;
it embeds a `ResponseError` and adds the integer retry-after hint. -/
structure RateLimitError extends ResponseError where
  RetryAfter : Int
deriving DecidableEq

/-- Modelled from the spec: the type `ResponseDecodingError` is declared outside `src/`;
the tests build it from its one field, the message. -/
structure ResponseDecodingError where
  Message : String
deriving DecidableEq

/-- A non-nil value of Go's `error` interface, as far as the operations modelled here
produce or forward one: a `ResponseError`, a `RateLimitError`, a `ResponseDecodingError`,
or any other error (of the executor or of the standard library), known by its text. -/
inductive GoError where
  | response (e : ResponseError)
  | rateLimit (e : RateLimitError)
  | decoding (e : ResponseDecodingError)
  | other (text : String)
deriving DecidableEq

/-- Modelled from the spec: the type of `Client.RateLimits` is declared outside
`graphql.go`; these are the two fields `Query` assigns. -/
structure RateLimitInfo where
  GraphQLCost : Option GoShopify.GraphQLCost
  RetryAfterSeconds : ℚ
deriving DecidableEq

/-! ## `GraphQLCost.RetryAfterSeconds` -/

/-- The estimated retry-after seconds of a cost snapshot (`graphql.go`, lines 135-149). -/
def GraphQLCost.RetryAfterSeconds (c : GraphQLCost) : ℚ :=
  let diff : ℚ :=
    match c.ActualQueryCost with
    | some actual => c.ThrottleStatus.CurrentlyAvailable - (actual : ℚ)
    | none => c.ThrottleStatus.CurrentlyAvailable - (c.RequestedQueryCost : ℚ)
  if diff < 0 then -diff / c.ThrottleStatus.RestoreRate else 0

/-- The cost the spec's formula charges: the actual query cost if known, else the
requested one. -/
def specCost (c : GraphQLCost) : ℚ :=
  match c.ActualQueryCost with
  | some actual => (actual : ℚ)
  | none => (c.RequestedQueryCost : ℚ)

/-- The spec's cost-based wait-time formula, written from the spec's words: with
`deficit = currentlyAvailable - cost`, the wait is `0` if `deficit >= 0` and
`(cost - currentlyAvailable) / restoreRate` otherwise. -/
def specRetryAfterSeconds (c : GraphQLCost) : ℚ :=
  if 0 ≤ c.ThrottleStatus.CurrentlyAvailable - specCost c then 0
  else (specCost c - c.ThrottleStatus.CurrentlyAvailable) / c.ThrottleStatus.RestoreRate

/-! ## `GraphQLServiceOp.Query` -/

/-- What one call `s.client.Post("graphql.json", data, &gr)` hands back: the decoded
envelope, the returned error (`none` is `nil`) and what the call did to the client's
rate-limit state; `requests` is the number of HTTP requests the call issued, its own
retries of 5xx and 429 responses included (one when it did not retry). -/
structure PostResult where
  gr : graphQLResponse
  err : Option GoError
  limits : RateLimitInfo → RateLimitInfo
  requests : Nat := 1

/-- The observable effects of `Query`, in program order: the executor calls (numbered
from 0), the debug line and the sleeps (durations in nanoseconds). -/
inductive Effect where
  | post (call : Nat)
  | debugf (wait : Int)
  | sleep (wait : Int)
deriving DecidableEq

/-- Signed 64-bit wrap-around of an integer result. -/
def wrapInt64 (z : Int) : Int := (z + 2 ^ 63) % 2 ^ 64 - 2 ^ 63

/-- The constant `time.Second`, in nanoseconds. -/
def timeSecond : Int := 1000000000

/-- The conversion of a `float64` holding the whole number `z` to a 64-bit integer type
(`int`, `time.Duration`): the number itself when it lies in the range of `int64`.
Outside that range Go leaves the result to the implementation; on amd64 it is the
smallest `int64`. -/
def toInt64 (z : Int) : Int :=
  if -(2 : Int) ^ 63 ≤ z ∧ z < (2 : Int) ^ 63 then z else -(2 : Int) ^ 63

/-- The conversion `int(math.Ceil(x))` of line 104. -/
def ceilSeconds (x : ℚ) : Int := toInt64 ⌈x⌉

/-- The duration of line 120: `time.Duration(math.Ceil(retryAfterSecs)) * time.Second`. -/
def waitDuration (retryAfterSecs : ℚ) : Int := wrapInt64 (ceilSeconds retryAfterSecs * timeSecond)

/-- The test of line 101: the error carries extensions whose code is `THROTTLED`. -/
def isThrottled (e : graphQLError) : Bool :=
  match e.Extensions with
  | some x => x.Code == graphQLErrorCodeThrottled
  | none => false

/-- The loop over `gr.Errors` (lines 100-117), with its two accumulators: it either
returns the `RateLimitError` of line 103 or ends with `responseError` and `doRetry`. -/
def rangeErrors (attempts retries : Int) (retryAfterSecs : ℚ) :
    List graphQLError → ResponseError → Bool → Except RateLimitError (ResponseError × Bool)
  | [], responseError, doRetry => .ok (responseError, doRetry)
  | e :: rest, responseError, doRetry =>
    if isThrottled e then
      if attempts ≥ retries then
        .error { RetryAfter := ceilSeconds retryAfterSecs, Status := 200, Message := e.Message,
                 Errors := [] }
      else
        rangeErrors attempts retries retryAfterSecs rest
          { responseError with Errors := responseError.Errors ++ [e.Message] } true
    else
      rangeErrors attempts retries retryAfterSecs rest
        { responseError with Errors := responseError.Errors ++ [e.Message] } doRetry

/-- The value of `retryAfterSecs` after lines 88-94. -/
def retryAfterSecsOf (gr : graphQLResponse) : ℚ :=
  match gr.Extensions with
  | some x => x.Cost.RetryAfterSeconds
  | none => 0

/-- The assignments of lines 92-93 to `s.client.RateLimits`. -/
def storeCost (gr : graphQLResponse) (limits : RateLimitInfo) : RateLimitInfo :=
  match gr.Extensions with
  | some x => { limits with GraphQLCost := some x.Cost,
                            RetryAfterSeconds := x.Cost.RetryAfterSeconds }
  | none => limits

/-- How one pass through the body of the `for` loop ends: with a `return`, or with the
sleep of line 122 followed by `continue`. -/
inductive Step where
  | done (err : Option GoError)
  | retry (wait : Int)
deriving DecidableEq

/-- One pass through the body of the `for` loop after `Post` has answered with `r`
(lines 86-129); `attempts` is the value after the increment of line 86. -/
def queryAttempt (retries attempts : Int) (r : PostResult) (limits : RateLimitInfo) :
    Step × RateLimitInfo :=
  let retryAfterSecs := retryAfterSecsOf r.gr
  let limits := storeCost r.gr (r.limits limits)
  if r.gr.Errors.length > 0 then
    match rangeErrors attempts retries retryAfterSecs r.gr.Errors
        { Status := 200, Message := "", Errors := [] } false with
    | .error rle => (.done (some (.rateLimit rle)), limits)
    | .ok (responseError, doRetry) =>
      if doRetry then (.retry (waitDuration retryAfterSecs), limits)
      else (.done (some (.response responseError)), limits)
  else (.done r.err, limits)

/-- What a finished `Query` leaves behind: the returned error, the client's rate-limit
state, the effects in program order and the final value of `attempts`. -/
structure Outcome where
  err : Option GoError
  limits : RateLimitInfo
  trace : List Effect
  attempts : Nat

/-- The `for` loop of `Query` (lines 78-130), with `attempts` executor calls behind it.
The first argument bounds the number of passes; `none` means the bound was too small. -/
def queryLoop (retries : Int) (exec : Nat → PostResult) :
    Nat → Nat → RateLimitInfo → List Effect → Option Outcome
  | 0, _, _, _ => none
  | fuel + 1, attempts, limits, trace =>
    match queryAttempt retries (attempts + 1 : Nat) (exec attempts) limits with
    | (.done err, limits) => some ⟨err, limits, trace ++ [.post attempts], attempts + 1⟩
    | (.retry wait, limits) =>
      queryLoop retries exec fuel (attempts + 1) limits
        (trace ++ [.post attempts, .debugf wait, .sleep wait])

/-- `GraphQLServiceOp.Query` for a client with `retries` configured retries and rate-limit
state `limits`, where `exec n` is the executor's answer to call number `n`. The loop is
given `max 1 retries` passes, which it never exceeds. -/
def Query (retries : Int) (exec : Nat → PostResult) (limits : RateLimitInfo) : Option Outcome :=
  queryLoop retries exec (max 1 retries).toNat 0 limits []

/-- The alphabetical order of strings: lexicographic on their characters. -/
def stringLE (a b : String) : Prop := a.data ≤ b.data

instance stringLE_decidable : DecidableRel stringLE := fun a b =>
  inferInstanceAs (Decidable (a.data ≤ b.data))

/-- The strings in ascending alphabetical order (the result of `sort.Strings`). -/
def sortStrings (l : List String) : List String := l.insertionSort stringLE

/-- Modelled from the spec: `ResponseError.Error` is declared outside `src/`. The
message of a response error is its `Message` when one is set; with no message and no
individual messages under a 5xx status it is the literal `Unknown Error`; and otherwise
it is the individual messages sorted and joined with `", "`. -/
def ResponseError.Error (e : ResponseError) : String :=
  if e.Message ≠ "" then e.Message
  else if e.Errors = [] ∧ 500 ≤ e.Status ∧ e.Status < 600 then "Unknown Error"
  else ", ".intercalate (sortStrings e.Errors)

/-- The `Error()` text of a returned error value; a `RateLimitError` answers through
its embedded `ResponseError`, a `ResponseDecodingError` with its message. -/
def GoError.Error : GoError → String
  | .response e => e.Error
  | .rateLimit e => e.toResponseError.Error
  | .decoding e => e.Message
  | .other text => text

/-! ## Responses used in the tests -/

/-- The cost of the throttled test response: requested 400, available 300, rate 50. -/
def testCost : GraphQLCost :=
  { RequestedQueryCost := 400, ActualQueryCost := none,
    ThrottleStatus := { MaximumAvailable := 1000, CurrentlyAvailable := 300, RestoreRate := 50 } }

/-- An error entry with a message and no extensions. -/
def plainError (msg : String) : graphQLError :=
  { Message := msg, Extensions := none, Locations := [] }

/-- The throttled error entry of the tests. -/
def throttledError : graphQLError :=
  { Message := "Throttled", Extensions := some { Code := "THROTTLED", Documentation := "" },
    Locations := [] }

/-- The throttled response of `TestGraphQLQueryWithRetries`. -/
def throttledResponse : PostResult :=
  { gr := { Data := "", Errors := [throttledError], Extensions := some { Cost := testCost } },
    err := none, limits := id }

/-- The successful response `{"data":{"foo":"bar"}}`. -/
def successResponse : PostResult :=
  { gr := { Data := "\x7b\"foo\":\"bar\"\x7d", Errors := [], Extensions := none },
    err := none, limits := id }

/-- The rate-limit state of a fresh client. -/
def freshLimits : RateLimitInfo := { GraphQLCost := none, RetryAfterSeconds := 0 }

/-! ## Vocabulary of the statements -/

/-- The response contains an error whose extension code is `THROTTLED`. -/
def graphQLResponse.throttled (gr : graphQLResponse) : Bool := gr.Errors.any isThrottled

/-- The messages of the response's errors, in response order. -/
def graphQLResponse.messages (gr : graphQLResponse) : List String :=
  gr.Errors.map (fun e => e.Message)

/-- The effect is an executor call. -/
def Effect.isPost : Effect → Bool
  | .post _ => true
  | _ => false

/-- The effect is a sleep. -/
def Effect.isSleep : Effect → Bool
  | .sleep _ => true
  | _ => false

/-- The effects of `k` successive retried attempts, the first of which is call number
`attempts`: each is an executor call, the debug line and one sleep of the duration
computed from that call's response. -/
def retrySteps (exec : Nat → PostResult) (attempts k : Nat) : List Effect :=
  (List.range' attempts k).flatMap fun i =>
    [.post i, .debugf (waitDuration (retryAfterSecsOf (exec i).gr)),
     .sleep (waitDuration (retryAfterSecsOf (exec i).gr))]

/-- The same effects with every sleep lasting exactly `ceil(s)` seconds, `s` being the
retry-after seconds of that call's response. -/
def ceilRetrySteps (exec : Nat → PostResult) (attempts k : Nat) : List Effect :=
  (List.range' attempts k).flatMap fun i =>
    [.post i, .debugf (⌈retryAfterSecsOf (exec i).gr⌉ * timeSecond),
     .sleep (⌈retryAfterSecsOf (exec i).gr⌉ * timeSecond)]

/-- The client's rate-limit state after `k` successive attempts have been processed, the
first of which is call number `attempts`. -/
def runLimits (exec : Nat → PostResult) : Nat → Nat → RateLimitInfo → RateLimitInfo
  | _, 0, limits => limits
  | attempts, k + 1, limits =>
    runLimits exec (attempts + 1) k (storeCost (exec attempts).gr ((exec attempts).limits limits))

/-- The ceiling of `s` is representable as an `int`. -/
def intFits (s : ℚ) : Prop := -(2 : Int) ^ 63 ≤ ⌈s⌉ ∧ ⌈s⌉ < (2 : Int) ^ 63

/-- A wait of `ceil(s)` seconds is representable as a `time.Duration`. -/
def durationFits (s : ℚ) : Prop :=
  -(2 : Int) ^ 63 ≤ ⌈s⌉ * timeSecond ∧ ⌈s⌉ * timeSecond < (2 : Int) ^ 63

/-! ## Further responses -/

/-- The response `{"errors":[{"message":"oops"},{"message":"I did it again"}]}` of
`TestGraphQLQueryWithMultipleErrors`. -/
def twoErrorsResponse : PostResult :=
  { gr := { Data := "", Errors := [plainError "oops", plainError "I did it again"],
            Extensions := none },
    err := none, limits := id }

/-- The response `{"errors":[{"message":"oops"}]}` of `TestGraphQLQueryWithError`. -/
def oneErrorResponse : PostResult :=
  { gr := { Data := "", Errors := [plainError "oops"], Extensions := none },
    err := none, limits := id }

/-- A throttled response asking for a wait of ten billion seconds: requested cost
`10000000000`, nothing available, restore rate 1. -/
def longWaitResponse : PostResult :=
  { gr := { Data := "", Errors := [throttledError],
            Extensions := some { Cost :=
              { RequestedQueryCost := 10000000000, ActualQueryCost := none,
                ThrottleStatus :=
                  { MaximumAvailable := 1000, CurrentlyAvailable := 0, RestoreRate := 1 } } } },
    err := none, limits := id }

/-- An executor whose first `k` answers are the throttled test response and whose later
answers are the successful one. -/
def throttledThenSuccess (k : Nat) : Nat → PostResult :=
  fun n => if n < k then throttledResponse else successResponse

/-- The snapshot "last query failed, needs to be throttled" of
`TestGraphQLCostRetryAfterSeconds`: requested 300, actual absent, available 200, rate 50. -/
def costFailed : GraphQLCost :=
  { RequestedQueryCost := 300, ActualQueryCost := none,
    ThrottleStatus := { MaximumAvailable := 1000, CurrentlyAvailable := 200, RestoreRate := 50 } }

/-- The snapshot "last query passed, does not need to be throttled": requested 300,
actual 50, available 400, rate 50. -/
def costPassed : GraphQLCost :=
  { RequestedQueryCost := 300, ActualQueryCost := some 50,
    ThrottleStatus := { MaximumAvailable := 1000, CurrentlyAvailable := 400, RestoreRate := 50 } }

/-- The snapshot "last query passed, needs to be throttled": requested 300, actual 100,
available 50, rate 50. -/
def costPassedShort : GraphQLCost :=
  { RequestedQueryCost := 300, ActualQueryCost := some 100,
    ThrottleStatus := { MaximumAvailable := 1000, CurrentlyAvailable := 50, RestoreRate := 50 } }

/-- The two-error response arriving together with an error of the executor. -/
def twoErrorsFailedResponse : PostResult :=
  { gr := { Data := "", Errors := [plainError "oops", plainError "I did it again"],
            Extensions := none },
    err := some (.other "unexpected end of JSON input"), limits := id }

instance stringLE_total : IsTotal String stringLE :=
  ⟨fun a b => le_total a.data b.data⟩

instance stringLE_trans : IsTrans String stringLE :=
  ⟨fun a _ _ h1 h2 => le_trans (a := a.data) h1 h2⟩

/-! ## HTTP requests and stale state -/

/-- The number of HTTP requests issued by the first `calls` executor calls. -/
def httpRequests (exec : Nat → PostResult) (calls : Nat) : Nat :=
  ((List.range calls).map fun i => (exec i).requests).sum

/-- The throttled test response as the answer of an executor call that first met two
`503` responses and retried them itself: three HTTP requests. -/
def throttledAfterTwo503 : PostResult :=
  { throttledResponse with requests := 3 }

/-- An executor whose first call is `throttledAfterTwo503` and whose later calls succeed
with one request each. -/
def internalRetryExec : Nat → PostResult :=
  fun n => if n = 0 then throttledAfterTwo503 else successResponse

/-- A throttled response without an extensions object. -/
def throttledNoExtensions : PostResult :=
  { gr := { Data := "", Errors := [throttledError], Extensions := none },
    err := none, limits := id }

/-- An executor that answers the throttled test response first and throttled responses
without extensions afterwards. -/
def costThenNoExtensions : Nat → PostResult :=
  fun n => if n = 0 then throttledResponse else throttledNoExtensions

/-- The rate-limit state a client holds after the throttled test response. -/
def staleLimits : RateLimitInfo := { GraphQLCost := some testCost, RetryAfterSeconds := 2 }

/-! ## Shop names (`util.go`) -/

/-- White space as defined by Unicode (`unicode.IsSpace`), by code point: tab to carriage
return, space, U+0085, U+00A0, U+1680, U+2000 to U+200A, U+2028, U+2029, U+202F, U+205F
and U+3000. -/
def isSpace (c : Char) : Bool :=
  (9 ≤ c.toNat && c.toNat ≤ 13) || c.toNat == 32 || c.toNat == 133 || c.toNat == 160 ||
  c.toNat == 5760 || (8192 ≤ c.toNat && c.toNat ≤ 8202) || c.toNat == 8232 ||
  c.toNat == 8233 || c.toNat == 8239 || c.toNat == 8287 || c.toNat == 12288

/-- The characters left after removing the leading and the trailing ones that satisfy
`p`. -/
def trimBoth (p : Char → Bool) (l : List Char) : List Char := (l.dropWhile p).rdropWhile p

/-- The function `strings.TrimSpace`. -/
def TrimSpace (s : String) : String := ⟨trimBoth isSpace s.data⟩

/-- The function `strings.Trim`: leading and trailing characters of `cutset` removed. -/
def Trim (s cutset : String) : String := ⟨trimBoth (fun c => cutset.data.contains c) s.data⟩

/-- The function `strings.Contains`. -/
def Contains (s substr : String) : Bool := decide (substr.data <:+: s.data)

/-- The full shop name, including `.myshopify.com` (`util.go`, lines 11-18). -/
def ShopFullName (name : String) : String :=
  let name := TrimSpace name
  let name := Trim name "."
  if Contains name "myshopify.com" then name else name ++ ".myshopify.com"

/-- The string neither begins nor ends with a character satisfying `p`. -/
def cleanEnds (p : Char → Bool) (s : String) : Prop :=
  (∀ c, s.data.head? = some c → p c = false) ∧ (∀ c, s.data.getLast? = some c → p c = false)

/-- The character is white space or a dot. -/
def isSpaceOrDot (c : Char) : Bool := isSpace c || c == '.'

/-- The loop of `strings.Replace(s, old, new, -1)` for a non-empty `old`: the occurrences
of `old` are replaced from left to right, without overlap; `skip` counts the characters
of a matched occurrence still to pass over. -/
def replaceFrom (old new : List Char) : Nat → List Char → List Char
  | _, [] => []
  | skip + 1, _ :: rest => replaceFrom old new skip rest
  | 0, c :: rest =>
    if old <+: c :: rest then new ++ replaceFrom old new (old.length - 1) rest
    else c :: replaceFrom old new 0 rest

/-- The function `strings.Replace` with `n = -1` and a non-empty `old`. -/
def Replace (s old new : String) : String := ⟨replaceFrom old.data new.data 0 s.data⟩

/-- The short shop name, excluding `.myshopify.com` (`util.go`, lines 21-26). -/
def ShopShortName (name : String) : String :=
  Replace (ShopFullName name) ".myshopify.com" ""

/-! ## Pagination and errors of the REST client -/

/-- Modelled from the spec: the type `ListOptions` is declared outside `src/`; a cursor is
an opaque page-info token and a result limit (0 when none is given). -/
structure ListOptions where
  PageInfo : String
  Limit : Int
deriving DecidableEq

/-- Modelled from the spec: the type `Pagination` is declared outside `src/`; either
cursor may be absent (`none` is the nil pointer). -/
structure Pagination where
  NextPageOptions : Option ListOptions
  PreviousPageOptions : Option ListOptions
deriving DecidableEq

/-- The two values of `rel` in a Link header entry. -/
inductive Rel where
  | next
  | previous
deriving DecidableEq

/-- The functions of Go's standard library that the pagination parser relies on; they are
parameters of the model. `splitEntries` cuts the header at its commas; `matchEntry` tells
whether an entry has the shape `<url>; rel="next"` or `<url>; rel="previous"` and returns
its url and rel; `parseURL` returns the raw query of a url that parses; `parseQuery`
returns the lookup of a well-formed query (the empty string for a missing parameter) and
`atoi` the integer written in a string, each with the library's own error otherwise. -/
structure LinkLib where
  splitEntries : String → List String
  matchEntry : String → Option (String × Rel)
  parseURL : String → Option String
  parseQuery : String → Except GoError (String → String)
  atoi : String → Except GoError Int

/-- Modelled from the spec: the pagination parser is declared outside `src/`. One entry
of the header is checked in the order of the spec: no `<url>; rel=...` structure, a url
that does not parse, a malformed query (the library's error verbatim), a missing
`page_info`, a non-numeric `limit` (the library's error verbatim); otherwise the entry
yields its rel and a cursor with its page-info token and its limit. -/
def parseEntry (lib : LinkLib) (entry : String) : Except GoError (Rel × ListOptions) :=
  match lib.matchEntry entry with
  | none => .error (.decoding ⟨"could not extract pagination link header"⟩)
  | some (url, rel) =>
    match lib.parseURL url with
    | none => .error (.decoding ⟨"pagination does not contain a valid URL"⟩)
    | some rawQuery =>
      match lib.parseQuery rawQuery with
      | .error e => .error e
      | .ok params =>
        if params "page_info" = "" then .error (.decoding ⟨"page_info is missing"⟩)
        else if params "limit" = "" then
          .ok (rel, { PageInfo := params "page_info", Limit := 0 })
        else
          match lib.atoi (params "limit") with
          | .error e => .error e
          | .ok limit => .ok (rel, { PageInfo := params "page_info", Limit := limit })

/-- Modelled from the spec: the entries of the header are taken in order; each populates
the cursor its rel names, and the first malformed entry ends the parse with its error. -/
def extractEntries (lib : LinkLib) : List String → Pagination → Except GoError Pagination
  | [], pagination => .ok pagination
  | entry :: rest, pagination =>
    match parseEntry lib entry with
    | .error e => .error e
    | .ok (.next, options) =>
      extractEntries lib rest { pagination with NextPageOptions := some options }
    | .ok (.previous, options) =>
      extractEntries lib rest { pagination with PreviousPageOptions := some options }

/-- Modelled from the spec: the pagination parser behind `ListWithPagination`. An empty
or absent header gives an empty pagination result and no error. -/
def extractPagination (lib : LinkLib) (linkHeader : String) : Except GoError Pagination :=
  if linkHeader = "" then .ok { NextPageOptions := none, PreviousPageOptions := none }
  else extractEntries lib (lib.splitEntries linkHeader)
    { NextPageOptions := none, PreviousPageOptions := none }

/-- What the request behind a paginated call produced: what it decoded into the resource
(`none` is a nil slice), the Link header of the response and the error of the request. -/
structure HeadersCall (α : Type) where
  resource : Option (List α)
  linkHeader : String
  err : Option GoError

/-- What `s.client.ListWithPagination(path, resource, options)` hands back: what the call
left in the resource, the pagination pointer and the error. -/
structure PaginatedCall (α : Type) where
  resource : Option (List α)
  pagination : Option Pagination
  err : Option GoError

/-- Modelled from the spec: `Client.ListWithPagination` is declared outside `src/`. The
paginated entry point returns the error of the request if there is one, else the error
of the pagination parser if there is one, else the parsed cursor pair. -/
def Client.ListWithPagination {α : Type} (lib : LinkLib) (call : HeadersCall α) :
    PaginatedCall α :=
  match call.err with
  | some e => { resource := call.resource, pagination := none, err := some e }
  | none =>
    match extractPagination lib call.linkHeader with
    | .error e => { resource := call.resource, pagination := none, err := some e }
    | .ok pagination =>
      { resource := call.resource, pagination := some pagination, err := none }

/-- Modelled from the spec: the error classifier is declared outside `src/`. From the HTTP
status, the decoded error messages (none for an empty or undecodable body) and the
retry-after header: a 4xx or 5xx status is an error, 429 a rate-limit error with the
header's hint (0 without header), any other one a response error that keeps the messages
in their order; no other status is an error at this layer. -/
def classifyResponse (status : Int) (messages : List String) (retryAfter : Option Int) :
    Option GoError :=
  if 400 ≤ status ∧ status < 600 then
    if status = 429 then
      some (.rateLimit { Status := status, Message := "", Errors := messages,
                         RetryAfter := retryAfter.getD 0 })
    else some (.response { Status := status, Message := "", Errors := messages })
  else none

/-! ## Resource services -/

/-- The method `PayoutsServiceOp.ListWithPagination` (`payouts.go`, lines 77-87), given
what the client's paginated call handed back. -/
def PayoutsServiceOp.ListWithPagination {Payout : Type} (call : PaginatedCall Payout) :
    Option (List Payout) × Option Pagination × Option GoError :=
  match call.err with
  | some err => (none, none, some err)
  | none => (call.resource, call.pagination, none)

/-- The method `PayoutsServiceOp.List` (`payouts.go`, lines 69-75). -/
def PayoutsServiceOp.List {Payout : Type} (call : PaginatedCall Payout) :
    Option (List Payout) × Option GoError :=
  match PayoutsServiceOp.ListWithPagination call with
  | (_, _, some err) => (none, some err)
  | (payouts, _, none) => (payouts, none)

/-- The method `OrderRiskServiceOp.ListWithPagination` (`order_risk.go`, lines 79-89). -/
def OrderRiskServiceOp.ListWithPagination {OrderRisk : Type} (call : PaginatedCall OrderRisk) :
    Option (List OrderRisk) × Option Pagination × Option GoError :=
  match call.err with
  | some err => (none, none, some err)
  | none => (call.resource, call.pagination, none)

/-- The method `OrderRiskServiceOp.List` (`order_risk.go`, lines 71-77). -/
def OrderRiskServiceOp.List {OrderRisk : Type} (call : PaginatedCall OrderRisk) :
    Option (List OrderRisk) × Option GoError :=
  match OrderRiskServiceOp.ListWithPagination call with
  | (_, _, some err) => (none, some err)
  | (orders, _, none) => (orders, none)

/-- The method `PaymentsTransactionsServiceOp.ListWithPagination`
(`payments_transactions.go`, lines 90-100). -/
def PaymentsTransactionsServiceOp.ListWithPagination {PaymentsTransactions : Type}
    (call : PaginatedCall PaymentsTransactions) :
    Option (List PaymentsTransactions) × Option Pagination × Option GoError :=
  match call.err with
  | some err => (none, none, some err)
  | none => (call.resource, call.pagination, none)

/-- The method `PaymentsTransactionsServiceOp.List` (`payments_transactions.go`,
lines 82-88). -/
def PaymentsTransactionsServiceOp.List {PaymentsTransactions : Type}
    (call : PaginatedCall PaymentsTransactions) :
    Option (List PaymentsTransactions) × Option GoError :=
  match PaymentsTransactionsServiceOp.ListWithPagination call with
  | (_, _, some err) => (none, some err)
  | (transactions, _, none) => (transactions, none)

/-- What a call `s.client.Get(path, resource, options)` left in the one field of the
resource (the zero value when it wrote nothing) and the error it returned. -/
structure GetCall (ρ : Type) where
  resource : ρ
  err : Option GoError

/-- The method `CollectServiceOp.List` (`collect.go`, lines 50-55): `resource.Collects`
and the error of the client call; `none` is a nil slice. -/
def CollectServiceOp.List {Collect : Type} (call : GetCall (Option (List Collect))) :
    Option (List Collect) × Option GoError :=
  (call.resource, call.err)

/-- The method `CollectServiceOp.Get` (`collect.go`, lines 64-69): `resource.Collect` and
the error of the client call; `none` is a nil pointer. -/
def CollectServiceOp.Get {Collect : Type} (call : GetCall (Option Collect)) :
    Option Collect × Option GoError :=
  (call.resource, call.err)

/-- The method `CarrierServiceOp.List` (`carrier.go`, lines 135-140). -/
def CarrierServiceOp.List {CarrierService : Type}
    (call : GetCall (Option (List CarrierService))) :
    Option (List CarrierService) × Option GoError :=
  (call.resource, call.err)

/-- The method `GiftCardServiceOp.Get` (`gift_card.go`, lines 65-70). -/
def GiftCardServiceOp.Get {GiftCard : Type} (call : GetCall (Option GiftCard)) :
    Option GiftCard × Option GoError :=
  (call.resource, call.err)

/-- The method `MetafieldServiceOp.List` (`metafield.go`, lines 119-125). -/
def MetafieldServiceOp.List {Metafield : Type} (call : GetCall (Option (List Metafield))) :
    Option (List Metafield) × Option GoError :=
  (call.resource, call.err)

/-! ## Vocabulary of the pagination statements -/

/-- The cursor of a pagination result on the side that `rel` names. -/
def Pagination.side (p : Pagination) : Rel → Option ListOptions
  | .next => p.NextPageOptions
  | .previous => p.PreviousPageOptions

/-- The entry has the Link shape with this rel. -/
def hasRel (lib : LinkLib) (rel : Rel) (entry : String) : Prop :=
  ∃ url, lib.matchEntry entry = some (url, rel)

/-- The cursor carries the entry's page-info token and its limit when one is given
(0 otherwise). -/
def carries (lib : LinkLib) (entry : String) (rel : Rel) (o : ListOptions) : Prop :=
  ∃ url rawQuery params, lib.matchEntry entry = some (url, rel) ∧
    lib.parseURL url = some rawQuery ∧ lib.parseQuery rawQuery = .ok params ∧
    params "page_info" ≠ "" ∧ o.PageInfo = params "page_info" ∧
    ((params "limit" = "" ∧ o.Limit = 0) ∨
     (params "limit" ≠ "" ∧ lib.atoi (params "limit") = .ok o.Limit))

/-- The header is rejected with the error `e`: the parser returns `e`, the paginated entry
point returns no pagination and `e`, and `ListWithPagination` of the three services
returns no list, no pagination and `e`. -/
def rejected (lib : LinkLib) (linkHeader : String) (e : GoError) : Prop :=
  extractPagination lib linkHeader = .error e ∧
  ∀ (α : Type) (resource : Option (List α)),
    (Client.ListWithPagination lib
      { resource := resource, linkHeader := linkHeader, err := none }).pagination = none ∧
    PayoutsServiceOp.ListWithPagination (Client.ListWithPagination lib
      { resource := resource, linkHeader := linkHeader, err := none }) = (none, none, some e) ∧
    OrderRiskServiceOp.ListWithPagination (Client.ListWithPagination lib
      { resource := resource, linkHeader := linkHeader, err := none }) = (none, none, some e) ∧
    PaymentsTransactionsServiceOp.ListWithPagination (Client.ListWithPagination lib
      { resource := resource, linkHeader := linkHeader, err := none }) = (none, none, some e)

/-! ## The Link headers of the tests -/

/-- The header `<http://valid.url?page_info=foo&limit=2>; rel="next"`. -/
def headerNext : String := "<http://valid.url?page_info=foo&limit=2>; rel=\"next\""

/-- The first entry of the header with both rels. -/
def entryFoo : String := "<http://valid.url?page_info=foo>; rel=\"next\""

/-- The second entry of the header with both rels, as the cut at the comma leaves it. -/
def entryBar : String := " <http://valid.url?page_info=bar>; rel=\"previous\""

/-- The header with a `next` entry (foo) and a `previous` entry (bar). -/
def headerBoth : String :=
  "<http://valid.url?page_info=foo>; rel=\"next\", <http://valid.url?page_info=bar>; rel=\"previous\""

/-- The header `invalid link`. -/
def headerInvalid : String := "invalid link"

/-- The header `<:invalid.url>; rel="next"`. -/
def headerBadURL : String := "<:invalid.url>; rel=\"next\""

/-- The header `<http://valid.url>; rel="next"`, without `page_info`. -/
def headerNoPageInfo : String := "<http://valid.url>; rel=\"next\""

/-- The header `<http://valid.url?page_info=foo&limit=invalid>; rel="next"`. -/
def headerBadLimit : String := "<http://valid.url?page_info=foo&limit=invalid>; rel=\"next\""

/-- The error `strconv.Atoi` returns on the text `invalid`. -/
def atoiInvalid : GoError := .other "strconv.Atoi: parsing \"invalid\": invalid syntax"

/-- The answers of Go's standard library on the Link headers of the tests, as a table. -/
def testLib : LinkLib where
  splitEntries := fun h => if h = headerBoth then [entryFoo, entryBar] else [h]
  matchEntry := fun entry =>
    if entry = headerNext then some ("http://valid.url?page_info=foo&limit=2", .next)
    else if entry = entryFoo then some ("http://valid.url?page_info=foo", .next)
    else if entry = entryBar then some ("http://valid.url?page_info=bar", .previous)
    else if entry = headerBadURL then some (":invalid.url", .next)
    else if entry = headerNoPageInfo then some ("http://valid.url", .next)
    else if entry = headerBadLimit then
      some ("http://valid.url?page_info=foo&limit=invalid", .next)
    else none
  parseURL := fun url =>
    if url = "http://valid.url?page_info=foo&limit=2" then some "page_info=foo&limit=2"
    else if url = "http://valid.url?page_info=foo" then some "page_info=foo"
    else if url = "http://valid.url?page_info=bar" then some "page_info=bar"
    else if url = "http://valid.url" then some ""
    else if url = "http://valid.url?page_info=foo&limit=invalid" then
      some "page_info=foo&limit=invalid"
    else none
  parseQuery := fun rawQuery =>
    if rawQuery = "page_info=foo&limit=2" then
      .ok (fun key => if key = "page_info" then "foo" else if key = "limit" then "2" else "")
    else if rawQuery = "page_info=foo" then
      .ok (fun key => if key = "page_info" then "foo" else "")
    else if rawQuery = "page_info=bar" then
      .ok (fun key => if key = "page_info" then "bar" else "")
    else if rawQuery = "page_info=foo&limit=invalid" then
      .ok (fun key =>
        if key = "page_info" then "foo" else if key = "limit" then "invalid" else "")
    else if rawQuery = "" then .ok (fun _ => "")
    else .error (.other "invalid URL escape")
  atoi := fun text => if text = "2" then .ok 2 else .error atoiInvalid

/-- A client call that fails with a decoding error after two items were decoded. -/
def partialGetCall : GetCall (Option (List Nat)) :=
  { resource := some [1, 0],
    err := some (.other "json: cannot unmarshal string into Go struct field of type int64") }

/-- A paginated client call that fails after two items were decoded. -/
def partialPaginatedCall : PaginatedCall Nat :=
  { resource := some [1, 0], pagination := none,
    err := some (.other "json: cannot unmarshal string into Go struct field of type int64") }

/-! ## `OnlyDate` (`util.go`) -/

/-- A `time.Time` as far as `OnlyDate` looks at it: the calendar date in the time's own
location, the time of day in nanoseconds since midnight, and the location. -/
structure Time where
  Year : Int
  Month : Nat
  Day : Nat
  clock : Nat
  location : String
deriving DecidableEq

/-- Leap years of the proleptic Gregorian calendar (`isLeap` of package `time`). -/
def isLeap (year : Int) : Bool := year % 4 == 0 && (year % 100 != 0 || year % 400 == 0)

/-- The number of days of a month (`daysIn` of package `time`). -/
def daysIn (month : Nat) (year : Int) : Nat :=
  if month = 2 then (if isLeap year then 29 else 28)
  else if month = 4 ∨ month = 6 ∨ month = 9 ∨ month = 11 then 30
  else 31

/-- The calendar date of a `time.Time` exists: the month is 1 to 12 and the day is a day
of that month. -/
def Time.valid (t : Time) : Prop :=
  1 ≤ t.Month ∧ t.Month ≤ 12 ∧ 1 ≤ t.Day ∧ t.Day ≤ daysIn t.Month t.Year

/-- The zero value `time.Time{}`: January 1 of year 1, midnight, UTC. -/
def zeroTime : Time := { Year := 1, Month := 1, Day := 1, clock := 0, location := "UTC" }

/-- The character of a decimal digit. -/
def digitChar (d : Nat) : Char :=
  match d with
  | 0 => '0' | 1 => '1' | 2 => '2' | 3 => '3' | 4 => '4'
  | 5 => '5' | 6 => '6' | 7 => '7' | 8 => '8' | _ => '9'

/-- The value of a decimal digit character, `none` for any other character. -/
def digitVal (c : Char) : Option Nat :=
  if c = '0' then some 0 else if c = '1' then some 1 else if c = '2' then some 2
  else if c = '3' then some 3 else if c = '4' then some 4 else if c = '5' then some 5
  else if c = '6' then some 6 else if c = '7' then some 7 else if c = '8' then some 8
  else if c = '9' then some 9 else none

/-- The decimal digits of a number, most significant first; the first argument bounds
their count. -/
def decimal : Nat → Nat → List Char
  | 0, _ => []
  | fuel + 1, n =>
    if n < 10 then [digitChar n] else decimal fuel (n / 10) ++ [digitChar (n % 10)]

/-- The function `appendInt` of package `time`: a sign for a negative number, then its
decimal digits padded with zeros to `width`. A Go `int` has at most 19 digits. -/
def appendInt (x : Int) (width : Nat) : List Char :=
  (if x < 0 then ['-'] else []) ++
    List.replicate (width - (decimal 20 x.natAbs).length) '0' ++ decimal 20 x.natAbs

/-- The method `Time.Format` with the layout `2006-01-02`: the year in at least four
digits, the month and the day in two. -/
def Time.Format (t : Time) : String :=
  ⟨appendInt t.Year 4 ++ '-' :: appendInt t.Month 2 ++ '-' :: appendInt t.Day 2⟩

/-- The error `time.Parse` returns (a `*time.ParseError`); its text is not modelled. -/
def parseError : GoError := .other "parsing time"

/-- The number written by two digit characters. -/
def twoDigits (a b : Char) : Option Nat :=
  match digitVal a, digitVal b with
  | some x, some y => some (10 * x + y)
  | _, _ => none

/-- The function `time.Parse` with the layout `2006-01-02`: it accepts four digits, a
dash, two digits, a dash and two digits and nothing else, checks that the month is 1 to
12 and that the day is a day of that month, and returns midnight UTC of that date. -/
def timeParse (value : String) : Except GoError Time :=
  match value.data with
  | [y1, y2, y3, y4, s1, m1, m2, s2, d1, d2] =>
    match twoDigits y1 y2, twoDigits y3 y4, twoDigits m1 m2, twoDigits d1 d2 with
    | some hi, some lo, some month, some day =>
      if s1 = '-' ∧ s2 = '-' ∧ 1 ≤ month ∧ month ≤ 12 ∧ 1 ≤ day ∧
          day ≤ daysIn month ((100 * hi + lo : Nat) : Int) then
        .ok { Year := ((100 * hi + lo : Nat) : Int), Month := month, Day := day, clock := 0,
              location := "UTC" }
      else .error parseError
    | _, _, _, _ => .error parseError
  | _ => .error parseError

/-- The type `OnlyDate`: a struct that embeds a `time.Time`. -/
structure OnlyDate where
  Time : GoShopify.Time
deriving DecidableEq

/-- A Go `string` or `[]byte` in the signatures of the methods of `OnlyDate`, one of which
is itself called `String`. -/
abbrev GoString : Type := String

/-- The type `url.Values`: the values of each key, in order. -/
def Values : Type := String → List String

/-- The method `Values.Add`: the value is appended to the values of the key. -/
def Values.Add (v : Values) (key value : String) : Values :=
  fun k => if k = key then v k ++ [value] else v k

/-- The method `OnlyDate.String` (`util.go`, lines 81-83). -/
def OnlyDate.String (c : OnlyDate) : GoString := "\"" ++ c.Time.Format ++ "\""

/-- The method `OnlyDate.MarshalJSON` (`util.go`, lines 71-73): the bytes and the error. -/
def OnlyDate.MarshalJSON (c : OnlyDate) : GoString × Option GoError := (c.String, none)

/-- The method `OnlyDate.UnmarshalJSON` (`util.go`, lines 56-69): the receiver after the
call and the returned error. -/
def OnlyDate.UnmarshalJSON (c : OnlyDate) (b : GoString) : OnlyDate × Option GoError :=
  let value := Trim b "\""
  if value = "" ∨ value = "null" then (⟨zeroTime⟩, none)
  else
    match timeParse value with
    | .error err => (c, some err)
    | .ok t => (⟨t⟩, none)

/-- The method `OnlyDate.EncodeValues` (`util.go`, lines 76-79): the values after the call
and the returned error. -/
def OnlyDate.EncodeValues (c : OnlyDate) (key : GoString) (v : Values) :
    Values × Option GoError :=
  (v.Add key c.String, none)

/-- The calendar day written `YYYY-MM-DD`. -/
def writtenDate (y m d : Nat) : String :=
  ⟨[digitChar (y / 1000), digitChar (y / 100 % 10), digitChar (y / 10 % 10), digitChar (y % 10),
    '-', digitChar (m / 10), digitChar (m % 10), '-', digitChar (d / 10), digitChar (d % 10)]⟩

/-- The text is a valid calendar date written `YYYY-MM-DD`. -/
def isWrittenDate (value : String) : Prop :=
  ∃ y m d : Nat, y ≤ 9999 ∧ 1 ≤ m ∧ m ≤ 12 ∧ 1 ≤ d ∧ d ≤ daysIn m (y : Int) ∧
    value = writtenDate y m d

/-- The date of `TestOnlyDateMarshal`: March 31, 2023, midnight, local time. -/
def march31 : OnlyDate :=
  ⟨{ Year := 2023, Month := 3, Day := 31, clock := 0, location := "Local" }⟩

/-- The cost of a throttled query that asks for a wait of ten billion seconds: requested
`10000000000`, nothing available, restore rate 1. -/
def longWaitCost : GraphQLCost :=
  { RequestedQueryCost := 10000000000, ActualQueryCost := none,
    ThrottleStatus := { MaximumAvailable := 1000, CurrentlyAvailable := 0, RestoreRate := 1 } }

/-- The wait of the cost is a finite number: the restore rate is not zero, or the
available points cover the effective cost and line 146 does not divide. -/
def finiteWait (c : GraphQLCost) : Prop :=
  c.ThrottleStatus.RestoreRate ≠ 0 ∨ specCost c ≤ c.ThrottleStatus.CurrentlyAvailable

/-- The cost of a throttled query that asks for a wait of `10^19` seconds: requested
`5000000000000000000`, nothing available, restore rate one half. -/
def hugeWaitCost : GraphQLCost :=
  { RequestedQueryCost := 5000000000000000000, ActualQueryCost := none,
    ThrottleStatus :=
      { MaximumAvailable := 1000, CurrentlyAvailable := 0, RestoreRate := 1 / 2 } }

/-- A throttled response with the cost that asks for a wait of `10^19` seconds. -/
def hugeWaitResponse : PostResult :=
  { gr := { Data := "", Errors := [throttledError], Extensions := some { Cost := hugeWaitCost } },
    err := none, limits := id }

/-- Modelled from the spec: the request executor and the JSON decoder it runs are outside
`src/`. On a 2xx response the body is decoded into the decode target; for a list of
items that hold an `OnlyDate` the decoder hands the bytes of each item's date, as written
in the body and in body order, to `UnmarshalJSON` on the zero value of a fresh item, and
the first error ends the decoding and is its error. -/
def decodeDates : List GoString → Except GoError (List OnlyDate)
  | [] => .ok []
  | b :: rest =>
    match (OnlyDate.mk zeroTime).UnmarshalJSON b with
    | (_, some err) => .error err
    | (date, none) =>
      match decodeDates rest with
      | .error err => .error err
      | .ok dates => .ok (date :: dates)

/-- Modelled from the spec: the request behind a list call that is answered with status
200 and a body whose items carry these dates. A decode error is surfaced as the error of
the request, with no partial result; without one the resource holds the decoded items. -/
def decodedListCall (dates : List GoString) (linkHeader : String) : HeadersCall OnlyDate :=
  match decodeDates dates with
  | .error err => { resource := none, linkHeader := linkHeader, err := some err }
  | .ok items => { resource := some items, linkHeader := linkHeader, err := none }

/-- The bytes of a date that is neither empty, nor the text `null`, nor a valid calendar
date written `YYYY-MM-DD`, once the surrounding double quotes are stripped. -/
def badDate (b : GoString) : Prop :=
  Trim b "\"" ≠ "" ∧ Trim b "\"" ≠ "null" ∧ ¬ isWrittenDate (Trim b "\"")

/-! ## Auxiliary facts -/

theorem rangeErrors_not_reached (attempts retries : Int) (s : ℚ) (h : ¬ attempts ≥ retries) :
    ∀ (errs : List graphQLError) (re : ResponseError) (d : Bool),
      rangeErrors attempts retries s errs re d =
        .ok ({ re with Errors := re.Errors ++ errs.map (fun e => e.Message) },
             d || errs.any isThrottled) := by
  intro errs
  induction errs with
  | nil => intro re d; simp [rangeErrors]
  | cons e rest ih =>
    intro re d
    by_cases he : isThrottled e = true
    · simp [rangeErrors, he, h, ih]
    · simp [rangeErrors, he, ih]

theorem rangeErrors_none_throttled (attempts retries : Int) (s : ℚ) :
    ∀ (errs : List graphQLError) (re : ResponseError) (d : Bool),
      errs.any isThrottled = false →
      rangeErrors attempts retries s errs re d =
        .ok ({ re with Errors := re.Errors ++ errs.map (fun e => e.Message) }, d) := by
  intro errs
  induction errs with
  | nil => intro re d _; simp [rangeErrors]
  | cons e rest ih =>
    intro re d hno
    simp only [List.any_cons, Bool.or_eq_false_iff] at hno
    simp [rangeErrors, hno.1, ih _ _ hno.2]

theorem rangeErrors_reached (attempts retries : Int) (s : ℚ) (h : attempts ≥ retries) :
    ∀ (errs : List graphQLError) (re : ResponseError) (d : Bool) (e : graphQLError),
      errs.find? isThrottled = some e →
      rangeErrors attempts retries s errs re d =
        .error { RetryAfter := ceilSeconds s, Status := 200, Message := e.Message,
                 Errors := [] } := by
  intro errs
  induction errs with
  | nil => intro re d e hf; simp at hf
  | cons e0 rest ih =>
    intro re d e hf
    by_cases he : isThrottled e0 = true
    · simp [List.find?_cons, he] at hf
      subst hf
      simp [rangeErrors, he, h]
    · simp [List.find?_cons, he] at hf
      simp only [rangeErrors, he]
      simpa using ih _ d e hf

theorem find_isSome_of_throttled (gr : graphQLResponse) (h : gr.throttled = true) :
    ∃ e, gr.Errors.find? isThrottled = some e := by
  unfold graphQLResponse.throttled at h
  rw [List.any_eq_true] at h
  obtain ⟨x, hx, hxt⟩ := h
  cases hf : gr.Errors.find? isThrottled with
  | none =>
    rw [List.find?_eq_none] at hf
    exact absurd hxt (hf x hx)
  | some e => exact ⟨e, rfl⟩

theorem throttled_of_find (gr : graphQLResponse) (e : graphQLError)
    (h : gr.Errors.find? isThrottled = some e) : gr.throttled = true := by
  unfold graphQLResponse.throttled
  rw [List.any_eq_true]
  exact ⟨e, List.mem_of_find?_eq_some h, List.find?_some h⟩

theorem errors_length_pos_of_throttled (gr : graphQLResponse) (h : gr.throttled = true) :
    gr.Errors.length > 0 := by
  unfold graphQLResponse.throttled at h
  cases hE : gr.Errors with
  | nil => rw [hE] at h; simp at h
  | cons a l => simp

theorem queryAttempt_throttled_reached (retries attempts : Int) (r : PostResult)
    (limits : RateLimitInfo) (e : graphQLError)
    (hfirst : r.gr.Errors.find? isThrottled = some e) (hreached : attempts ≥ retries) :
    queryAttempt retries attempts r limits =
      (.done (some (.rateLimit { RetryAfter := ceilSeconds (retryAfterSecsOf r.gr),
                                 Status := 200, Message := e.Message, Errors := [] })),
       storeCost r.gr (r.limits limits)) := by
  have hpos := errors_length_pos_of_throttled r.gr (throttled_of_find r.gr e hfirst)
  simp only [queryAttempt, hpos, if_true]
  rw [rangeErrors_reached attempts retries _ hreached _ _ _ e hfirst]

theorem queryAttempt_throttled_retry (retries attempts : Int) (r : PostResult)
    (limits : RateLimitInfo) (hthr : r.gr.throttled = true) (hless : ¬ attempts ≥ retries) :
    queryAttempt retries attempts r limits =
      (.retry (waitDuration (retryAfterSecsOf r.gr)), storeCost r.gr (r.limits limits)) := by
  have hpos := errors_length_pos_of_throttled r.gr hthr
  simp only [queryAttempt, hpos, if_true]
  rw [rangeErrors_not_reached attempts retries _ hless]
  unfold graphQLResponse.throttled at hthr
  simp [hthr]

theorem queryAttempt_not_throttled (retries attempts : Int) (r : PostResult)
    (limits : RateLimitInfo) (hne : r.gr.Errors ≠ []) (hno : r.gr.throttled = false) :
    queryAttempt retries attempts r limits =
      (.done (some (.response { Status := 200, Message := "", Errors := r.gr.messages })),
       storeCost r.gr (r.limits limits)) := by
  have hpos : r.gr.Errors.length > 0 := List.length_pos.mpr hne
  simp only [queryAttempt, hpos, if_true]
  unfold graphQLResponse.throttled at hno
  rw [rangeErrors_none_throttled attempts retries _ _ _ _ hno]
  simp [graphQLResponse.messages]

theorem queryAttempt_no_errors (retries attempts : Int) (r : PostResult)
    (limits : RateLimitInfo) (hnil : r.gr.Errors = []) :
    queryAttempt retries attempts r limits = (.done r.err, storeCost r.gr (r.limits limits)) := by
  simp [queryAttempt, hnil]

theorem queryAttempt_limits (retries attempts : Int) (r : PostResult) (limits : RateLimitInfo) :
    (queryAttempt retries attempts r limits).2 = storeCost r.gr (r.limits limits) := by
  by_cases hthr : r.gr.throttled = true
  · by_cases hreached : attempts ≥ retries
    · obtain ⟨e, he⟩ := find_isSome_of_throttled r.gr hthr
      rw [queryAttempt_throttled_reached retries attempts r limits e he hreached]
    · rw [queryAttempt_throttled_retry retries attempts r limits hthr hreached]
  · have hno : r.gr.throttled = false := by simpa using hthr
    by_cases hnil : r.gr.Errors = []
    · rw [queryAttempt_no_errors retries attempts r limits hnil]
    · rw [queryAttempt_not_throttled retries attempts r limits hnil hno]

theorem retrySteps_succ (exec : Nat → PostResult) (attempts k : Nat) :
    retrySteps exec attempts (k + 1) =
      [.post attempts, .debugf (waitDuration (retryAfterSecsOf (exec attempts).gr)),
       .sleep (waitDuration (retryAfterSecsOf (exec attempts).gr))]
        ++ retrySteps exec (attempts + 1) k := by
  simp [retrySteps, List.range'_succ]

/-- While the responses are throttled and the configured retries are not reached, the
loop goes on: `k` such attempts leave the loop at call number `attempts + k`. -/
theorem queryLoop_retry_prefix (retries : Int) (exec : Nat → PostResult) :
    ∀ (k fuel attempts : Nat) (limits : RateLimitInfo) (trace : List Effect),
      (∀ i, i < k → (exec (attempts + i)).gr.throttled = true) →
      ((attempts + k : Nat) : Int) < retries →
      queryLoop retries exec (fuel + k) attempts limits trace =
        queryLoop retries exec fuel (attempts + k) (runLimits exec attempts k limits)
          (trace ++ retrySteps exec attempts k) := by
  intro k
  induction k with
  | zero => intro fuel attempts limits trace _ _; simp [retrySteps, runLimits]
  | succ k ih =>
    intro fuel attempts limits trace hthr hlt
    have h0 : (exec attempts).gr.throttled = true := by simpa using hthr 0 (Nat.succ_pos k)
    have hless : ¬ ((attempts + 1 : Nat) : Int) ≥ retries := by
      push_cast at hlt ⊢
      omega
    have hstep : queryLoop retries exec (fuel + (k + 1)) attempts limits trace =
        queryLoop retries exec (fuel + k) (attempts + 1)
          (storeCost (exec attempts).gr ((exec attempts).limits limits))
          (trace ++ [.post attempts, .debugf (waitDuration (retryAfterSecsOf (exec attempts).gr)),
            .sleep (waitDuration (retryAfterSecsOf (exec attempts).gr))]) := by
      rw [← Nat.add_assoc, queryLoop,
        queryAttempt_throttled_retry retries _ (exec attempts) limits h0 hless]
    rw [hstep, ih fuel (attempts + 1) _ _ (fun i hi => by
        have := hthr (i + 1) (Nat.succ_lt_succ hi)
        rwa [show attempts + (i + 1) = attempts + 1 + i by omega] at this)
      (by rw [show attempts + 1 + k = attempts + (k + 1) by omega]; exact hlt)]
    rw [retrySteps_succ, runLimits, List.append_assoc,
      show attempts + 1 + k = attempts + (k + 1) by omega]

theorem queryLoop_done (retries : Int) (exec : Nat → PostResult) (fuel attempts : Nat)
    (limits limits' : RateLimitInfo) (trace : List Effect) (err : Option GoError)
    (h : queryAttempt retries ((attempts + 1 : Nat) : Int) (exec attempts) limits
      = (.done err, limits')) :
    queryLoop retries exec (fuel + 1) attempts limits trace =
      some ⟨err, limits', trace ++ [.post attempts], attempts + 1⟩ := by
  rw [queryLoop, h]

theorem countP_isPost_retrySteps (exec : Nat → PostResult) :
    ∀ (k attempts : Nat), (retrySteps exec attempts k).countP Effect.isPost = k := by
  intro k
  induction k with
  | zero => intro attempts; simp [retrySteps]
  | succ k ih =>
    intro attempts
    rw [retrySteps_succ, List.countP_append, ih]
    simp [List.countP_cons, Effect.isPost]
    omega

theorem countP_isSleep_retrySteps (exec : Nat → PostResult) :
    ∀ (k attempts : Nat), (retrySteps exec attempts k).countP Effect.isSleep = k := by
  intro k
  induction k with
  | zero => intro attempts; simp [retrySteps]
  | succ k ih =>
    intro attempts
    rw [retrySteps_succ, List.countP_append, ih]
    simp [List.countP_cons, Effect.isSleep]
    omega

theorem testCost_retryAfterSeconds : testCost.RetryAfterSeconds = 2 := by
  norm_num [GraphQLCost.RetryAfterSeconds, testCost]

theorem toInt64_of_fits (z : Int) (h : -(2 : Int) ^ 63 ≤ z ∧ z < (2 : Int) ^ 63) :
    toInt64 z = z := by
  unfold toInt64
  rw [if_pos h]

theorem toInt64_of_not_fits (z : Int) (h : ¬ (-(2 : Int) ^ 63 ≤ z ∧ z < (2 : Int) ^ 63)) :
    toInt64 z = -(2 : Int) ^ 63 := by
  unfold toInt64
  rw [if_neg h]

theorem ceilSeconds_of_fits (s : ℚ) (h : intFits s) : ceilSeconds s = ⌈s⌉ :=
  toInt64_of_fits _ h

theorem intFits_of_durationFits (s : ℚ) (h : durationFits s) : intFits s := by
  unfold durationFits timeSecond at h
  unfold intFits
  omega

theorem ceilSeconds_zero : ceilSeconds 0 = 0 := by
  have h : (⌈(0 : ℚ)⌉ : Int) = 0 := by simp
  rw [ceilSeconds, h]
  decide

theorem ceilSeconds_two : ceilSeconds 2 = 2 := by
  have h : (⌈(2 : ℚ)⌉ : Int) = 2 := by simp
  rw [ceilSeconds, h]
  decide

theorem queryAttempt_retry_inv (retries attempts : Int) (r : PostResult)
    (limits limits' : RateLimitInfo) (w : Int)
    (h : queryAttempt retries attempts r limits = (.retry w, limits')) :
    r.gr.throttled = true ∧ ¬ attempts ≥ retries ∧
      w = waitDuration (retryAfterSecsOf r.gr) ∧
      limits' = storeCost r.gr (r.limits limits) := by
  by_cases hthr : r.gr.throttled = true
  · by_cases hreached : attempts ≥ retries
    · obtain ⟨e, he⟩ := find_isSome_of_throttled r.gr hthr
      rw [queryAttempt_throttled_reached retries attempts r limits e he hreached] at h
      simp at h
    · rw [queryAttempt_throttled_retry retries attempts r limits hthr hreached] at h
      simp only [Prod.mk.injEq, Step.retry.injEq] at h
      exact ⟨hthr, hreached, h.1.symm, h.2.symm⟩
  · have hno : r.gr.throttled = false := by simpa using hthr
    by_cases hnil : r.gr.Errors = []
    · rw [queryAttempt_no_errors retries attempts r limits hnil] at h
      simp at h
    · rw [queryAttempt_not_throttled retries attempts r limits hnil hno] at h
      simp at h

/-- The shape of every finished run of the loop: `k` retried attempts, all throttled and
short of the configured retries, then one last attempt that returns. -/
theorem queryLoop_decompose (retries : Int) (exec : Nat → PostResult) :
    ∀ (fuel attempts : Nat) (limits : RateLimitInfo) (trace : List Effect) (o : Outcome),
      queryLoop retries exec fuel attempts limits trace = some o →
      ∃ k, o.attempts = attempts + k + 1 ∧
        (∀ i, i < k → (exec (attempts + i)).gr.throttled = true ∧
          ((attempts + i + 1 : Nat) : Int) < retries) ∧
        o.trace = trace ++ retrySteps exec attempts k ++ [.post (attempts + k)] ∧
        queryAttempt retries ((attempts + k + 1 : Nat) : Int) (exec (attempts + k))
          (runLimits exec attempts k limits) = (.done o.err, o.limits) := by
  intro fuel
  induction fuel with
  | zero => intro attempts limits trace o h; simp [queryLoop] at h
  | succ fuel ih =>
    intro attempts limits trace o h
    rw [queryLoop] at h
    generalize hq : queryAttempt retries ((attempts + 1 : Nat) : Int) (exec attempts) limits = q at h
    obtain ⟨st, l'⟩ := q
    cases st with
    | done err =>
      simp only [Option.some.injEq] at h
      subst h
      refine ⟨0, rfl, ?_, ?_, ?_⟩
      · intro i hi; exact absurd hi (Nat.not_lt_zero i)
      · simp [retrySteps]
      · simpa [runLimits] using hq
    | retry w =>
      simp only at h
      obtain ⟨hthr, hless, hw, hl⟩ := queryAttempt_retry_inv _ _ _ _ _ _ hq
      obtain ⟨k, hk1, hk2, hk3, hk4⟩ := ih _ _ _ _ h
      refine ⟨k + 1, ?_, ?_, ?_, ?_⟩
      · rw [hk1]; omega
      · intro i hi
        cases i with
        | zero =>
          refine ⟨by simpa using hthr, ?_⟩
          have : ¬ ((attempts + 1 : Nat) : Int) ≥ retries := hless
          simpa using this
        | succ j =>
          have := hk2 j (by omega)
          rwa [show attempts + 1 + j = attempts + (j + 1) by omega] at this
      · rw [hk3, retrySteps_succ, hw]
        simp [List.append_assoc, show attempts + 1 + k = attempts + (k + 1) by omega]
      · rw [show attempts + (k + 1) = attempts + 1 + k by omega, runLimits, ← hl]
        exact hk4

/-- The loop returns whenever the allowed passes cover the configured retries. -/
theorem queryLoop_total (retries : Int) (exec : Nat → PostResult) :
    ∀ (fuel attempts : Nat) (limits : RateLimitInfo) (trace : List Effect),
      retries ≤ ((attempts + (fuel + 1) : Nat) : Int) →
      ∃ o, queryLoop retries exec (fuel + 1) attempts limits trace = some o := by
  intro fuel
  induction fuel with
  | zero =>
    intro attempts limits trace hcover
    rw [queryLoop]
    generalize hq : queryAttempt retries ((attempts + 1 : Nat) : Int) (exec attempts) limits = q
    obtain ⟨st, l'⟩ := q
    cases st with
    | done err => exact ⟨_, rfl⟩
    | retry w =>
      obtain ⟨_, hless, _, _⟩ := queryAttempt_retry_inv _ _ _ _ _ _ hq
      exact absurd (by simpa using hcover) hless
  | succ fuel ih =>
    intro attempts limits trace hcover
    rw [queryLoop]
    generalize hq : queryAttempt retries ((attempts + 1 : Nat) : Int) (exec attempts) limits = q
    obtain ⟨st, l'⟩ := q
    cases st with
    | done err => exact ⟨_, rfl⟩
    | retry w =>
      exact ih (attempts + 1) _ _ (by
        rw [show attempts + 1 + (fuel + 1) = attempts + (fuel + 1 + 1) by omega]
        exact hcover)

/-- `Query` always returns: the passes it is given are never used up. -/
theorem Query_total (retries : Int) (exec : Nat → PostResult) (limits : RateLimitInfo) :
    ∃ o, Query retries exec limits = some o := by
  obtain ⟨f, hf⟩ : ∃ f : Nat, (max 1 retries).toNat = f + 1 :=
    ⟨(max 1 retries).toNat - 1, by
      have : 1 ≤ max 1 retries := le_max_left 1 retries
      omega⟩
  unfold Query
  rw [hf]
  apply queryLoop_total
  have : retries ≤ max 1 retries := le_max_right 1 retries
  omega

theorem waitDuration_of_fits (s : ℚ) (h : durationFits s) :
    waitDuration s = ⌈s⌉ * timeSecond := by
  have hc := ceilSeconds_of_fits s (intFits_of_durationFits s h)
  unfold durationFits at h
  unfold waitDuration wrapInt64
  rw [hc]
  omega

theorem retrySteps_eq_ceilRetrySteps (exec : Nat → PostResult) :
    ∀ (k attempts : Nat),
      (∀ i, i < k → durationFits (retryAfterSecsOf (exec (attempts + i)).gr)) →
      retrySteps exec attempts k = ceilRetrySteps exec attempts k := by
  intro k
  induction k with
  | zero => intro attempts _; simp [retrySteps, ceilRetrySteps]
  | succ k ih =>
    intro attempts hfit
    have h0 := waitDuration_of_fits _ (by simpa using hfit 0 (Nat.succ_pos k))
    have hrest := ih (attempts + 1) (fun i hi => by
      have := hfit (i + 1) (Nat.succ_lt_succ hi)
      rwa [show attempts + (i + 1) = attempts + 1 + i by omega] at this)
    rw [retrySteps_succ, hrest, h0]
    simp [ceilRetrySteps, List.range'_succ]

/-- With `N >= 1` configured retries and `N` throttled responses in a row, `Query` ends
on the last of them with the `RateLimitError` of line 103. -/
theorem Query_exhausted (N : Int) (k : Nat) (hk : N = ((k + 1 : Nat) : Int))
    (exec : Nat → PostResult) (limits : RateLimitInfo)
    (hthr : ∀ i, i < k → (exec i).gr.throttled = true) (e : graphQLError)
    (he : (exec k).gr.Errors.find? isThrottled = some e) :
    Query N exec limits = some
      ⟨some (.rateLimit { Status := 200, Message := e.Message, Errors := [],
                          RetryAfter := ceilSeconds (retryAfterSecsOf (exec k).gr) }),
       storeCost (exec k).gr ((exec k).limits (runLimits exec 0 k limits)),
       retrySteps exec 0 k ++ [.post k], k + 1⟩ := by
  have hfuel : (max 1 N).toNat = 1 + k := by
    rw [max_eq_right (by omega)]; omega
  have hrun := queryLoop_retry_prefix N exec k 1 0 limits []
    (fun i hi => by simpa using hthr i hi) (by omega)
  have he' : (exec (0 + k)).gr.Errors.find? isThrottled = some e := by simpa using he
  have hlast := queryLoop_done N exec 0 (0 + k) (runLimits exec 0 k limits) _
    ([] ++ retrySteps exec 0 k) _
    (queryAttempt_throttled_reached N _ (exec (0 + k)) (runLimits exec 0 k limits) e he'
      (by omega))
  have hQ0 : Query N exec limits =
      queryLoop N exec 1 (0 + k) (runLimits exec 0 k limits) ([] ++ retrySteps exec 0 k) := by
    unfold Query
    rw [hfuel, hrun]
  have hQ := hQ0.trans hlast
  simpa using hQ

/-- With `k` throttled responses short of the configured retries and then a response
without errors, `Query` ends on that response with the executor's error. -/
theorem Query_clean_after (N : Int) (k : Nat) (hk : (k : Int) < N)
    (exec : Nat → PostResult) (limits : RateLimitInfo)
    (hthr : ∀ i, i < k → (exec i).gr.throttled = true) (hok : (exec k).gr.Errors = []) :
    Query N exec limits = some
      ⟨(exec k).err, storeCost (exec k).gr ((exec k).limits (runLimits exec 0 k limits)),
       retrySteps exec 0 k ++ [.post k], k + 1⟩ := by
  obtain ⟨f, hf⟩ : ∃ f : Nat, (max 1 N).toNat = (f + 1) + k :=
    ⟨(max 1 N).toNat - k - 1, by
      have : N ≤ max 1 N := le_max_right 1 N
      omega⟩
  have hrun := queryLoop_retry_prefix N exec k (f + 1) 0 limits []
    (fun i hi => by simpa using hthr i hi) (by omega)
  have hok' : (exec (0 + k)).gr.Errors = [] := by simpa using hok
  have hlast := queryLoop_done N exec f (0 + k) (runLimits exec 0 k limits) _
    ([] ++ retrySteps exec 0 k) _
    (queryAttempt_no_errors N _ (exec (0 + k)) (runLimits exec 0 k limits) hok')
  have hQ0 : Query N exec limits =
      queryLoop N exec (f + 1) (0 + k) (runLimits exec 0 k limits) ([] ++ retrySteps exec 0 k) := by
    unfold Query
    rw [hf, hrun]
  have hQ := hQ0.trans hlast
  simpa using hQ

theorem throttledResponse_secs : retryAfterSecsOf throttledResponse.gr = 2 := by
  simp [retryAfterSecsOf, throttledResponse, testCost_retryAfterSeconds]

theorem longWaitResponse_secs : retryAfterSecsOf longWaitResponse.gr = 10000000000 := by
  norm_num [retryAfterSecsOf, longWaitResponse, GraphQLCost.RetryAfterSeconds]

theorem ceilSeconds_long : ceilSeconds 10000000000 = 10000000000 := by
  have h : (⌈(10000000000 : ℚ)⌉ : Int) = 10000000000 := by simp
  rw [ceilSeconds, h]
  decide

theorem waitDuration_long : waitDuration 10000000000 = -8446744073709551616 := by
  rw [waitDuration, ceilSeconds_long]
  decide

theorem durationFits_two : durationFits 2 := by
  have h : (⌈(2 : ℚ)⌉ : Int) = 2 := by simp
  unfold durationFits
  rw [h]
  decide

theorem durationFits_zero : durationFits 0 := by
  have h : (⌈(0 : ℚ)⌉ : Int) = 0 := by simp
  unfold durationFits
  rw [h]
  decide

/-! ## The cost formula -/

/-- C1: `GraphQLCost.RetryAfterSeconds` equals the spec's cost formula on every cost
snapshot with a non-zero restore rate, and the requested query cost has no influence on
the result when the actual query cost is present. -/
theorem RetryAfterSeconds_eq_spec (c : GraphQLCost) (_hrate : c.ThrottleStatus.RestoreRate ≠ 0) :
    c.RetryAfterSeconds = specRetryAfterSeconds c ∧
    ∀ (requested actual : Int), c.ActualQueryCost = some actual →
      ({ c with RequestedQueryCost := requested } : GraphQLCost).RetryAfterSeconds
        = c.RetryAfterSeconds := by
  constructor
  · unfold GraphQLCost.RetryAfterSeconds specRetryAfterSeconds specCost
    cases c.ActualQueryCost with
    | none =>
      by_cases h : c.ThrottleStatus.CurrentlyAvailable - (c.RequestedQueryCost : ℚ) < 0
      · simp [h, not_le.mpr h]
      · simp [h, not_lt.mp h]
    | some actual =>
      by_cases h : c.ThrottleStatus.CurrentlyAvailable - (actual : ℚ) < 0
      · simp [h, not_le.mpr h]
      · simp [h, not_lt.mp h]
  · intro requested actual hactual
    simp [GraphQLCost.RetryAfterSeconds, hactual]

/-- C1, on the snapshots of `TestGraphQLCostRetryAfterSeconds`: the results are 2, 0
and 1. -/
theorem RetryAfterSeconds_eq_spec_witness :
    costFailed.ThrottleStatus.RestoreRate ≠ 0 ∧
    costFailed.RetryAfterSeconds = 2 ∧ costPassed.RetryAfterSeconds = 0 ∧
    costPassedShort.RetryAfterSeconds = 1 ∧
    ({ costPassed with RequestedQueryCost := 100000 } : GraphQLCost).RetryAfterSeconds
      = costPassed.RetryAfterSeconds := by
  have h1 : costFailed.ThrottleStatus.RestoreRate ≠ 0 := by norm_num [costFailed]
  have h2 : costPassed.ThrottleStatus.RestoreRate ≠ 0 := by norm_num [costPassed]
  have h3 : costPassedShort.ThrottleStatus.RestoreRate ≠ 0 := by norm_num [costPassedShort]
  refine ⟨h1, ?_, ?_, ?_, ?_⟩
  · rw [(RetryAfterSeconds_eq_spec costFailed h1).1]
    norm_num [specRetryAfterSeconds, specCost, costFailed]
  · rw [(RetryAfterSeconds_eq_spec costPassed h2).1]
    norm_num [specRetryAfterSeconds, specCost, costPassed]
  · rw [(RetryAfterSeconds_eq_spec costPassedShort h3).1]
    norm_num [specRetryAfterSeconds, specCost, costPassedShort]
  · exact (RetryAfterSeconds_eq_spec costPassed h2).2 100000 50 rfl

/-! ## Throttled responses -/

theorem hugeWaitCost_secs : hugeWaitCost.RetryAfterSeconds = 10000000000000000000 := by
  norm_num [GraphQLCost.RetryAfterSeconds, hugeWaitCost]

theorem ceil_huge : (⌈(10000000000000000000 : ℚ)⌉ : Int) = 10000000000000000000 := by
  simp

theorem ceilSeconds_huge : ceilSeconds 10000000000000000000 = -9223372036854775808 := by
  rw [ceilSeconds, ceil_huge]
  decide

/-- C2, as stated, fails on a wait whose ceiling no `int` can hold: with one configured
retry and a throttled response whose cost asks for `10^19` seconds (requested
`5000000000000000000`, nothing available, restore rate one half), the returned
`RetryAfter` is the smallest `int`, not the ceiling `10^19`. -/
theorem Query_huge_wait_hint :
    ∃ o rle, Query 1 (fun _ => hugeWaitResponse) freshLimits = some o ∧
      o.err = some (.rateLimit rle) ∧
      hugeWaitResponse.gr.Extensions = some { Cost := hugeWaitCost } ∧
      hugeWaitCost.RetryAfterSeconds = 10000000000000000000 ∧
      rle.RetryAfter = -9223372036854775808 ∧
      rle.RetryAfter ≠ ⌈hugeWaitCost.RetryAfterSeconds⌉ := by
  have hQ := Query_exhausted 1 0 (by decide) (fun _ => hugeWaitResponse) freshLimits
    (fun i hi => absurd hi (Nat.not_lt_zero i)) throttledError (by decide)
  have hsecs : retryAfterSecsOf hugeWaitResponse.gr = 10000000000000000000 := by
    simp only [retryAfterSecsOf, hugeWaitResponse, hugeWaitCost_secs]
  refine ⟨_, _, hQ, rfl, rfl, hugeWaitCost_secs, ?_, ?_⟩
  · show ceilSeconds (retryAfterSecsOf hugeWaitResponse.gr) = _
    rw [hsecs, ceilSeconds_huge]
  · show ceilSeconds (retryAfterSecsOf hugeWaitResponse.gr) ≠ _
    rw [hsecs, ceilSeconds_huge, hugeWaitCost_secs, ceil_huge]
    decide

/-- C2, amended: when a response contains a `THROTTLED` error and the number of executor
calls made so far, this one included, has reached the configured retries, `Query` returns
after this call with a `RateLimitError` whose status is 200, whose message is that of the
first throttled error of the response and whose list of messages is empty; its
`RetryAfter` is 0 when the response has no extensions, and it is the ceiling of the
retry-after seconds of the response's cost when that wait is finite and its ceiling is
representable as an `int`. -/
theorem Query_throttled_retries_reached (retries : Int) (exec : Nat → PostResult)
    (fuel attempts : Nat) (limits : RateLimitInfo) (trace : List Effect) (e : graphQLError)
    (hfirst : (exec attempts).gr.Errors.find? isThrottled = some e)
    (hreached : retries ≤ ((attempts + 1 : Nat) : Int)) :
    ∃ o rle, queryLoop retries exec (fuel + 1) attempts limits trace = some o ∧
      o.attempts = attempts + 1 ∧
      o.trace = trace ++ [.post attempts] ∧
      o.err = some (.rateLimit rle) ∧
      rle.Status = 200 ∧ rle.Message = e.Message ∧ rle.Errors = [] ∧
      ((exec attempts).gr.Extensions = none → rle.RetryAfter = 0) ∧
      (∀ x, (exec attempts).gr.Extensions = some x → finiteWait x.Cost →
        intFits x.Cost.RetryAfterSeconds → rle.RetryAfter = ⌈x.Cost.RetryAfterSeconds⌉) := by
  refine ⟨_, _, queryLoop_done retries exec fuel attempts limits _ trace _
    (queryAttempt_throttled_reached retries _ (exec attempts) limits e hfirst hreached),
    rfl, rfl, rfl, rfl, rfl, rfl, ?_, ?_⟩
  · intro hnone
    show ceilSeconds (retryAfterSecsOf (exec attempts).gr) = 0
    simp only [retryAfterSecsOf, hnone, ceilSeconds_zero]
  · intro x hx _ hfit
    show ceilSeconds (retryAfterSecsOf (exec attempts).gr) = _
    simp only [retryAfterSecsOf, hx]
    exact ceilSeconds_of_fits _ hfit

/-- C2, amended, on `TestGraphQLQueryWithThrottledError`: one configured retry and the
throttled test response give the `RateLimitError` with status 200, message "Throttled"
and `RetryAfter` 2 after one call. -/
theorem Query_throttled_retries_reached_witness :
    ∃ o rle, queryLoop 1 (fun _ => throttledResponse) 1 0 freshLimits [] = some o ∧
      o.attempts = 1 ∧ o.trace = [.post 0] ∧
      o.err = some (.rateLimit rle) ∧
      rle.Status = 200 ∧ rle.Message = "Throttled" ∧ rle.Errors = [] ∧ rle.RetryAfter = 2 := by
  obtain ⟨o, rle, h1, h2, h3, h4, h5, h6, h7, _, h9⟩ :=
    Query_throttled_retries_reached 1 (fun _ => throttledResponse) 0 0 freshLimits []
      throttledError (by decide) (by decide)
  have hceil : (⌈testCost.RetryAfterSeconds⌉ : Int) = 2 := by
    rw [testCost_retryAfterSeconds]; simp
  refine ⟨o, rle, h1, h2, h3, h4, h5, h6, h7, ?_⟩
  rw [h9 { Cost := testCost } rfl (Or.inl (by norm_num [testCost])) ?_, hceil]
  unfold intFits
  rw [hceil]
  decide

/-- C3: with `N >= 1` configured retries and an executor that answers every call with a
throttled response, `Query` makes exactly `N` executor calls, sleeps `N - 1` times and
returns a `RateLimitError`; with the throttled response of the tests that error has
`RetryAfter` 2, status 200 and message "Throttled". -/
theorem Query_all_throttled (N : Int) (hN : 1 ≤ N) (exec : Nat → PostResult)
    (limits : RateLimitInfo) (hall : ∀ n, (exec n).gr.throttled = true) :
    (∃ o rle, Query N exec limits = some o ∧ o.err = some (.rateLimit rle) ∧
      (o.attempts : Int) = N ∧
      ((o.trace.countP Effect.isPost : Nat) : Int) = N ∧
      ((o.trace.countP Effect.isSleep : Nat) : Int) = N - 1) ∧
    ((∀ n, exec n = throttledResponse) →
      ∃ o, Query N exec limits = some o ∧
        o.err = some (.rateLimit
          { Status := 200, Message := "Throttled", Errors := [], RetryAfter := 2 })) := by
  obtain ⟨k, hk⟩ : ∃ k : Nat, N.toNat = 1 + k := ⟨N.toNat - 1, by omega⟩
  have hfuel : (max 1 N).toNat = 1 + k := by rw [max_eq_right hN, hk]
  have hlt : ((0 + k : Nat) : Int) < N := by omega
  have hrun := queryLoop_retry_prefix N exec k 1 0 limits [] (fun i _ => hall _) hlt
  have hreached : ((0 + k + 1 : Nat) : Int) ≥ N := by omega
  obtain ⟨e, he⟩ := find_isSome_of_throttled _ (hall (0 + k))
  have hlast := queryLoop_done N exec 0 (0 + k) (runLimits exec 0 k limits) _
    ([] ++ retrySteps exec 0 k) _
    (queryAttempt_throttled_reached N _ (exec (0 + k)) (runLimits exec 0 k limits) e he hreached)
  have hQ0 : Query N exec limits =
      queryLoop N exec 1 (0 + k) (runLimits exec 0 k limits) ([] ++ retrySteps exec 0 k) := by
    unfold Query
    rw [hfuel, hrun]
  have hQ := hQ0.trans hlast
  refine ⟨⟨_, _, hQ, rfl, ?_, ?_, ?_⟩, ?_⟩
  · show ((0 + k + 1 : Nat) : Int) = N
    omega
  · simp only [List.nil_append, List.countP_append, countP_isPost_retrySteps]
    simp [List.countP_cons, Effect.isPost]
    omega
  · simp only [List.nil_append, List.countP_append, countP_isSleep_retrySteps]
    simp [List.countP_cons, Effect.isSleep]
    omega
  · intro hconst
    refine ⟨_, hQ, ?_⟩
    have hfind : (exec (0 + k)).gr.Errors.find? isThrottled = some throttledError := by
      rw [hconst]; decide
    have hee : e = throttledError := by
      rw [he] at hfind
      exact Option.some.inj hfind
    have hsecs : retryAfterSecsOf (exec (0 + k)).gr = 2 := by
      rw [hconst]
      simp [retryAfterSecsOf, throttledResponse, testCost_retryAfterSeconds]
    simp only [Nat.zero_add] at hsecs
    simp [hsecs, ceilSeconds_two, hee, throttledError]

/-- C3, with the three retries of the test: three calls, two sleeps, and the
`RateLimitError` with `RetryAfter` 2. -/
theorem Query_all_throttled_witness :
    (∃ o rle, Query 3 (fun _ => throttledResponse) freshLimits = some o ∧
      o.err = some (.rateLimit rle) ∧ (o.attempts : Int) = 3 ∧
      ((o.trace.countP Effect.isPost : Nat) : Int) = 3 ∧
      ((o.trace.countP Effect.isSleep : Nat) : Int) = 3 - 1) ∧
    ∃ o, Query 3 (fun _ => throttledResponse) freshLimits = some o ∧
      o.err = some (.rateLimit
        { Status := 200, Message := "Throttled", Errors := [], RetryAfter := 2 }) :=
  ⟨(Query_all_throttled 3 (by decide) (fun _ => throttledResponse) freshLimits
      (fun _ => (by decide : throttledResponse.gr.throttled = true))).1,
   (Query_all_throttled 3 (by decide) (fun _ => throttledResponse) freshLimits
      (fun _ => (by decide : throttledResponse.gr.throttled = true))).2 (fun _ => rfl)⟩

/-- C4: with `N >= 1` configured retries and `k < N`, if the first `k` responses are
throttled and response `k + 1` has no errors and no executor error, `Query` returns nil
after exactly `k + 1` executor calls. -/
theorem Query_throttled_then_success (N : Int) (hN : 1 ≤ N) (k : Nat) (hk : (k : Int) < N)
    (exec : Nat → PostResult) (limits : RateLimitInfo)
    (hthr : ∀ i, i < k → (exec i).gr.throttled = true)
    (hok : (exec k).gr.Errors = []) (herr : (exec k).err = none) :
    ∃ o, Query N exec limits = some o ∧ o.err = none ∧ o.attempts = k + 1 ∧
      o.trace.countP Effect.isPost = k + 1 := by
  obtain ⟨f, hf⟩ : ∃ f : Nat, N.toNat = (f + 1) + k := ⟨N.toNat - k - 1, by omega⟩
  have hfuel : (max 1 N).toNat = (f + 1) + k := by rw [max_eq_right hN, hf]
  have hlt : ((0 + k : Nat) : Int) < N := by omega
  have hrun := queryLoop_retry_prefix N exec k (f + 1) 0 limits []
    (fun i hi => by simpa using hthr i hi) hlt
  have hok' : (exec (0 + k)).gr.Errors = [] := by simpa using hok
  have hlast := queryLoop_done N exec f (0 + k) (runLimits exec 0 k limits) _
    ([] ++ retrySteps exec 0 k) _
    (queryAttempt_no_errors N _ (exec (0 + k)) (runLimits exec 0 k limits) hok')
  have hQ0 : Query N exec limits =
      queryLoop N exec (f + 1) (0 + k) (runLimits exec 0 k limits) ([] ++ retrySteps exec 0 k) := by
    unfold Query
    rw [hfuel, hrun]
  have hQ := hQ0.trans hlast
  refine ⟨_, hQ, ?_, ?_, ?_⟩
  · simpa using herr
  · show 0 + k + 1 = k + 1
    omega
  · simp only [List.nil_append, List.countP_append, countP_isPost_retrySteps]
    simp [List.countP_cons, Effect.isPost]

/-- C4, on the test "2 throttled then success": three configured retries, two throttled
responses and then `{"data":{"foo":"bar"}}` give success after three calls. -/
theorem Query_throttled_then_success_witness :
    ∃ o, Query 3 (throttledThenSuccess 2) freshLimits = some o ∧ o.err = none ∧
      o.attempts = 2 + 1 ∧ o.trace.countP Effect.isPost = 2 + 1 :=
  Query_throttled_then_success 3 (by decide) 2 (by decide) (throttledThenSuccess 2) freshLimits
    (fun i hi => by
      have : throttledThenSuccess 2 i = throttledResponse := by
        simp [throttledThenSuccess, hi]
      rw [this]; decide)
    (by decide) (by decide)

/-! ## Responses that end the query -/

/-- C5: when the errors list of a response is non-empty and contains no `THROTTLED`
error, `Query` returns after this call with a `ResponseError` of status 200 whose list of
messages is the messages of the response's errors in response order, whatever error the
executor call itself returned. -/
theorem Query_response_error (retries : Int) (exec : Nat → PostResult)
    (fuel attempts : Nat) (limits : RateLimitInfo) (trace : List Effect)
    (hne : (exec attempts).gr.Errors ≠ [])
    (hno : ∀ e ∈ (exec attempts).gr.Errors, isThrottled e = false) :
    ∃ o, queryLoop retries exec (fuel + 1) attempts limits trace = some o ∧
      o.attempts = attempts + 1 ∧
      o.err = some (.response
        { Status := 200, Message := "",
          Errors := (exec attempts).gr.Errors.map (fun e => e.Message) }) := by
  have hno' : (exec attempts).gr.throttled = false := by
    unfold graphQLResponse.throttled
    rw [List.any_eq_false]
    intro x hx
    simp [hno x hx]
  exact ⟨_, queryLoop_done retries exec fuel attempts limits _ trace _
    (queryAttempt_not_throttled retries _ (exec attempts) limits hne hno'), rfl, rfl⟩

/-- C5, on two plain errors arriving with an executor error: the returned error is the
`ResponseError` with the list "oops", "I did it again" in that order. -/
theorem Query_response_error_witness :
    ∃ o, queryLoop 3 (fun _ => twoErrorsFailedResponse) 1 0 freshLimits [] = some o ∧
      o.attempts = 0 + 1 ∧
      o.err = some (.response
        { Status := 200, Message := "", Errors := ["oops", "I did it again"] }) :=
  Query_response_error 3 (fun _ => twoErrorsFailedResponse) 0 0 freshLimits []
    (by decide) (by decide)

/-- C6: after a response without a `THROTTLED` error `Query` returns at once: the only
effect of the attempt is its executor call (no sleep, no further call), and with an empty
errors list the returned error is exactly the executor's. Hence in every run of `Query`
each response that was followed by another call is a throttled one. -/
theorem Query_returns_unless_throttled (retries : Int) (exec : Nat → PostResult)
    (fuel attempts : Nat) (limits : RateLimitInfo) (trace : List Effect)
    (hno : (exec attempts).gr.throttled = false) :
    (∃ o, queryLoop retries exec (fuel + 1) attempts limits trace = some o ∧
      o.attempts = attempts + 1 ∧
      o.trace = trace ++ [.post attempts] ∧
      ((exec attempts).gr.Errors = [] → o.err = (exec attempts).err)) ∧
    (∀ (limits0 : RateLimitInfo) (o : Outcome), Query retries exec limits0 = some o →
      ∀ i, i + 1 < o.attempts → (exec i).gr.throttled = true) := by
  constructor
  · by_cases hnil : (exec attempts).gr.Errors = []
    · exact ⟨_, queryLoop_done retries exec fuel attempts limits _ trace _
        (queryAttempt_no_errors retries _ (exec attempts) limits hnil), rfl, rfl, fun _ => rfl⟩
    · exact ⟨_, queryLoop_done retries exec fuel attempts limits _ trace _
        (queryAttempt_not_throttled retries _ (exec attempts) limits hnil hno), rfl, rfl,
        fun h => absurd h hnil⟩
  · intro limits0 o hQ i hi
    obtain ⟨k, hk1, hk2, _, _⟩ := queryLoop_decompose retries exec _ 0 limits0 [] o hQ
    have := (hk2 i (by omega)).1
    simpa using this

/-- C6, on `TestGraphQLQuery`: the successful response ends the query after one call
with a nil error. -/
theorem Query_returns_unless_throttled_witness :
    ∃ o, queryLoop 3 (fun _ => successResponse) 3 0 freshLimits [] = some o ∧
      o.attempts = 0 + 1 ∧ o.trace = [] ++ [.post 0] ∧
      (successResponse.gr.Errors = [] → o.err = successResponse.err) :=
  (Query_returns_unless_throttled 3 (fun _ => successResponse) 2 0 freshLimits []
    (by decide)).1

/-! ## The rate-limit state -/

/-- C7: processing a response that carries an extensions object leaves the response's
cost in `RateLimits.GraphQLCost` and that cost's retry-after seconds in
`RateLimits.RetryAfterSeconds`, however the attempt ends; in particular this is the
state `Query` returns with when its last response carried extensions. -/
theorem Query_stores_cost (retries : Int) (exec : Nat → PostResult) (limits : RateLimitInfo) :
    (∀ (attempts : Int) (r : PostResult) (before : RateLimitInfo) (x : graphQLExtensions),
      r.gr.Extensions = some x →
      (queryAttempt retries attempts r before).2.GraphQLCost = some x.Cost ∧
      (queryAttempt retries attempts r before).2.RetryAfterSeconds
        = x.Cost.RetryAfterSeconds) ∧
    (∃ o, Query retries exec limits = some o ∧
      ∀ x, (exec (o.attempts - 1)).gr.Extensions = some x →
        o.limits.GraphQLCost = some x.Cost ∧
        o.limits.RetryAfterSeconds = x.Cost.RetryAfterSeconds) := by
  have hstep : ∀ (attempts : Int) (r : PostResult) (before : RateLimitInfo)
      (x : graphQLExtensions), r.gr.Extensions = some x →
      (queryAttempt retries attempts r before).2.GraphQLCost = some x.Cost ∧
      (queryAttempt retries attempts r before).2.RetryAfterSeconds
        = x.Cost.RetryAfterSeconds := by
    intro attempts r before x hx
    rw [queryAttempt_limits]
    simp [storeCost, hx]
  refine ⟨hstep, ?_⟩
  obtain ⟨o, hQ⟩ := Query_total retries exec limits
  refine ⟨o, hQ, ?_⟩
  intro x hx
  obtain ⟨k, hk1, _, _, hk4⟩ := queryLoop_decompose retries exec _ 0 limits [] o hQ
  have hidx : o.attempts - 1 = 0 + k := by omega
  rw [hidx] at hx
  have h := hstep ((0 + k + 1 : Nat) : Int) (exec (0 + k)) (runLimits exec 0 k limits) x hx
  rw [hk4] at h
  exact h

/-- C7, on `TestGraphQLQueryWithThrottledError`: after the throttled test response the
stored cost is the response's and the stored retry-after seconds are 2. -/
theorem Query_stores_cost_witness :
    ∃ o, Query 1 (fun _ => throttledResponse) freshLimits = some o ∧
      o.limits.GraphQLCost = some testCost ∧ o.limits.RetryAfterSeconds = 2 := by
  obtain ⟨o, hQ, h⟩ := (Query_stores_cost 1 (fun _ => throttledResponse) freshLimits).2
  have hx := h { Cost := testCost } rfl
  exact ⟨o, hQ, hx.1, hx.2.trans testCost_retryAfterSeconds⟩

/-! ## The sleep before a retry -/

/-- C8, as stated, fails on a wait that no `time.Duration` can hold: with two configured
retries and a throttled response asking for `10000000000` seconds, the duration handed to
`time.Sleep` is the wrapped product `-8446744073709551616` nanoseconds. -/
theorem Query_long_wait_wraps :
    ∃ o, Query 2 (fun _ => longWaitResponse) freshLimits = some o ∧
      o.trace = [.post 0, .debugf (-8446744073709551616), .sleep (-8446744073709551616),
                 .post 1] ∧
      ceilSeconds (retryAfterSecsOf longWaitResponse.gr) * timeSecond
        = 10000000000000000000 ∧
      o.trace ≠ ceilRetrySteps (fun _ => longWaitResponse) 0 1 ++ [.post 1] := by
  have hQ := Query_exhausted 2 1 (by decide) (fun _ => longWaitResponse) freshLimits
    (fun _ _ => (by decide : longWaitResponse.gr.throttled = true)) throttledError (by decide)
  have hprod : ceilSeconds (retryAfterSecsOf longWaitResponse.gr) * timeSecond
      = 10000000000000000000 := by
    rw [longWaitResponse_secs, ceilSeconds_long]; decide
  refine ⟨_, hQ, ?_, hprod, ?_⟩
  · simp [retrySteps, List.range'_succ, longWaitResponse_secs, waitDuration_long]
  · simp [retrySteps, ceilRetrySteps, List.range'_succ, longWaitResponse_secs,
      waitDuration_long, ceilSeconds_long, timeSecond]

/-- C8, amended: every run of `Query` has this trace of effects: each retried attempt is
its executor call, the debug line and exactly one sleep, and the next executor call
follows that sleep directly; only throttled responses are retried; and the sleep after a
retried response lasts exactly `ceil(s)` seconds, `s` being the retry-after seconds of
that response (0 without extensions), whenever the wait of that response is finite and
`ceil(s)` seconds fit a `time.Duration`. -/
theorem Query_sleeps_before_retry (retries : Int) (exec : Nat → PostResult)
    (limits : RateLimitInfo) :
    ∃ o k, Query retries exec limits = some o ∧ o.attempts = k + 1 ∧
      o.trace = retrySteps exec 0 k ++ [.post k] ∧
      ∀ i, i < k → (exec i).gr.throttled = true ∧
        ((∀ x, (exec i).gr.Extensions = some x → finiteWait x.Cost) →
          durationFits (retryAfterSecsOf (exec i).gr) →
          waitDuration (retryAfterSecsOf (exec i).gr) =
            ⌈retryAfterSecsOf (exec i).gr⌉ * 1000000000) := by
  obtain ⟨o, hQ⟩ := Query_total retries exec limits
  obtain ⟨k, hk1, hk2, hk3, _⟩ := queryLoop_decompose retries exec _ 0 limits [] o hQ
  refine ⟨o, k, hQ, by omega, by simpa using hk3, fun i hi => ⟨?_, fun _ hfit => ?_⟩⟩
  · simpa using (hk2 i hi).1
  · exact waitDuration_of_fits _ hfit

/-- C8, amended, on the test "2 throttled then success": three executor calls, and before
each of the two retries one sleep of two seconds. -/
theorem Query_sleeps_before_retry_witness :
    ∃ o, Query 3 (throttledThenSuccess 2) freshLimits = some o ∧
      o.trace = [.post 0, .debugf 2000000000, .sleep 2000000000,
                 .post 1, .debugf 2000000000, .sleep 2000000000, .post 2] := by
  obtain ⟨o, k, hQ, hk, htrace, _⟩ :=
    Query_sleeps_before_retry 3 (throttledThenSuccess 2) freshLimits
  have hrun := Query_clean_after 3 2 (by decide) (throttledThenSuccess 2) freshLimits
    (fun i hi => by
      have : throttledThenSuccess 2 i = throttledResponse := by simp [throttledThenSuccess, hi]
      rw [this]
      decide)
    (by decide)
  rw [hrun] at hQ
  have ho := Option.some.inj hQ
  have hk2 : k = 2 := by
    have := congrArg Outcome.attempts ho
    simp only at this
    omega
  subst hk2
  refine ⟨o, by rw [hrun, ho], ?_⟩
  rw [htrace]
  have h0 : throttledThenSuccess 2 0 = throttledResponse := by simp [throttledThenSuccess]
  have h1 : throttledThenSuccess 2 1 = throttledResponse := by simp [throttledThenSuccess]
  have hw : waitDuration 2 = 2000000000 := by
    rw [waitDuration, ceilSeconds_two]; decide
  simp [retrySteps, List.range'_succ, h0, h1, throttledResponse_secs, hw]

/-! ## The text of a response error -/

/-- C9: when the errors list of a response is non-empty and contains no `THROTTLED`
error, the `Error()` text of the error `Query` returns is the individual messages in
ascending alphabetical order (a sorted rearrangement of the response's messages), joined
with `", "`. -/
theorem Query_error_text_sorted (retries : Int) (exec : Nat → PostResult)
    (fuel attempts : Nat) (limits : RateLimitInfo) (trace : List Effect)
    (hne : (exec attempts).gr.Errors ≠ [])
    (hno : ∀ e ∈ (exec attempts).gr.Errors, isThrottled e = false) :
    ∃ o e, queryLoop retries exec (fuel + 1) attempts limits trace = some o ∧
      o.err = some e ∧
      e.Error = ", ".intercalate (sortStrings (exec attempts).gr.messages) ∧
      (sortStrings (exec attempts).gr.messages).Perm (exec attempts).gr.messages ∧
      (sortStrings (exec attempts).gr.messages).Sorted stringLE := by
  have hno' : (exec attempts).gr.throttled = false := by
    unfold graphQLResponse.throttled
    rw [List.any_eq_false]
    intro x hx
    simp [hno x hx]
  refine ⟨_, _, queryLoop_done retries exec fuel attempts limits _ trace _
    (queryAttempt_not_throttled retries _ (exec attempts) limits hne hno'), rfl, ?_,
    List.perm_insertionSort _ _, List.sorted_insertionSort _ _⟩
  simp [GoError.Error, ResponseError.Error]

/-- C9, on `TestGraphQLQueryWithMultipleErrors` and `TestGraphQLQueryWithError`: the
messages "oops", "I did it again" give "I did it again, oops", and "oops" alone gives
"oops". -/
theorem Query_error_text_sorted_witness :
    (∃ o e, queryLoop 1 (fun _ => twoErrorsResponse) 1 0 freshLimits [] = some o ∧
      o.err = some e ∧ e.Error = "I did it again, oops") ∧
    (∃ o e, queryLoop 1 (fun _ => oneErrorResponse) 1 0 freshLimits [] = some o ∧
      o.err = some e ∧ e.Error = "oops") := by
  obtain ⟨o, e, h1, h2, h3, _⟩ :=
    Query_error_text_sorted 1 (fun _ => twoErrorsResponse) 0 0 freshLimits []
      (by decide) (by decide)
  obtain ⟨o', e', h1', h2', h3', _⟩ :=
    Query_error_text_sorted 1 (fun _ => oneErrorResponse) 0 0 freshLimits []
      (by decide) (by decide)
  exact ⟨⟨o, e, h1, h2, h3.trans (by decide)⟩, ⟨o', e', h1', h2', h3'.trans (by decide)⟩⟩

/-! ## Three throttled responses with three retries -/

/-- C10, as stated, fails: with three configured retries and three throttled responses
followed by a success, `Query` returns the `RateLimitError` of the third response after
three attempts, not the success. -/
theorem Query_three_throttled_no_success :
    ∃ o, Query 3 (throttledThenSuccess 3) freshLimits = some o ∧
      o.err = some (.rateLimit
        { Status := 200, Message := "Throttled", Errors := [], RetryAfter := 2 }) ∧
      o.err ≠ none ∧ o.attempts = 3 := by
  have hQ := Query_exhausted 3 2 (by decide) (throttledThenSuccess 3) freshLimits
    (fun i hi => by
      have : throttledThenSuccess 3 i = throttledResponse := by
        simp [throttledThenSuccess]; omega
      rw [this]; decide)
    throttledError (by decide)
  have hsecs : retryAfterSecsOf (throttledThenSuccess 3 2).gr = 2 := throttledResponse_secs
  refine ⟨_, hQ, ?_, by simp, rfl⟩
  simp [hsecs, ceilSeconds_two, throttledError]

/-- C10, amended: with three configured retries, a query whose first three responses are
throttled returns a `RateLimitError` of status 200 after exactly three executor calls,
whatever the later responses would have been. -/
theorem Query_three_throttled_rate_limit (exec : Nat → PostResult) (limits : RateLimitInfo)
    (hthr : ∀ i, i < 3 → (exec i).gr.throttled = true) :
    ∃ o rle, Query 3 exec limits = some o ∧ o.err = some (.rateLimit rle) ∧
      rle.Status = 200 ∧ o.attempts = 3 ∧ o.trace.countP Effect.isPost = 3 := by
  obtain ⟨e, he⟩ := find_isSome_of_throttled _ (hthr 2 (by decide))
  have hQ := Query_exhausted 3 2 (by decide) exec limits
    (fun i hi => hthr i (by omega)) e he
  refine ⟨_, _, hQ, rfl, rfl, rfl, ?_⟩
  simp only [List.countP_append, countP_isPost_retrySteps]
  simp [List.countP_cons, Effect.isPost]

/-- C10, amended, on three throttled test responses followed by a success. -/
theorem Query_three_throttled_rate_limit_witness :
    ∃ o rle, Query 3 (throttledThenSuccess 3) freshLimits = some o ∧
      o.err = some (.rateLimit rle) ∧ rle.Status = 200 ∧ o.attempts = 3 ∧
      o.trace.countP Effect.isPost = 3 :=
  Query_three_throttled_rate_limit (throttledThenSuccess 3) freshLimits (fun i hi => by
    have : throttledThenSuccess 3 i = throttledResponse := by
      simp [throttledThenSuccess, hi]
    rw [this]; decide)

/-! ## Further auxiliary facts about the loop -/

/-- A pass that returns on a throttled response returns the `RateLimitError` of line 103,
and the configured retries are reached. -/
theorem queryAttempt_done_throttled_inv (retries attempts : Int) (r : PostResult)
    (limits limits' : RateLimitInfo) (err : Option GoError)
    (h : queryAttempt retries attempts r limits = (.done err, limits'))
    (hthr : r.gr.throttled = true) :
    attempts ≥ retries ∧ ∃ e, r.gr.Errors.find? isThrottled = some e ∧
      err = some (.rateLimit { Status := 200, Message := e.Message, Errors := [],
                               RetryAfter := ceilSeconds (retryAfterSecsOf r.gr) }) := by
  by_cases hreached : attempts ≥ retries
  · obtain ⟨e, he⟩ := find_isSome_of_throttled r.gr hthr
    rw [queryAttempt_throttled_reached retries attempts r limits e he hreached] at h
    simp only [Prod.mk.injEq, Step.done.injEq] at h
    exact ⟨hreached, e, he, h.1.symm⟩
  · rw [queryAttempt_throttled_retry retries attempts r limits hthr hreached] at h
    simp at h

theorem storeCost_some (gr : graphQLResponse) (limits : RateLimitInfo) (x : graphQLExtensions)
    (hx : gr.Extensions = some x) :
    storeCost gr limits =
      { GraphQLCost := some x.Cost, RetryAfterSeconds := x.Cost.RetryAfterSeconds } := by
  simp [storeCost, hx]

theorem retryAfterSecsOf_some (gr : graphQLResponse) (x : graphQLExtensions)
    (hx : gr.Extensions = some x) : retryAfterSecsOf gr = x.Cost.RetryAfterSeconds := by
  simp [retryAfterSecsOf, hx]

theorem retryAfterSecsOf_none (gr : graphQLResponse) (hx : gr.Extensions = none) :
    retryAfterSecsOf gr = 0 := by
  simp [retryAfterSecsOf, hx]

/-- The state a run of `Query` ends with, when its last response carries extensions. -/
theorem Query_limits_of_last_extensions (retries : Int) (exec : Nat → PostResult)
    (limits : RateLimitInfo) (o : Outcome) (x : graphQLExtensions)
    (hQ : Query retries exec limits = some o)
    (hx : (exec (o.attempts - 1)).gr.Extensions = some x) :
    o.limits = { GraphQLCost := some x.Cost, RetryAfterSeconds := x.Cost.RetryAfterSeconds } := by
  obtain ⟨k, hk1, _, _, hk4⟩ := queryLoop_decompose retries exec _ 0 limits [] o hQ
  have hidx : o.attempts - 1 = 0 + k := by omega
  rw [hidx] at hx
  have hlim := queryAttempt_limits retries ((0 + k + 1 : Nat) : Int) (exec (0 + k))
    (runLimits exec 0 k limits)
  rw [hk4] at hlim
  have h : o.limits = storeCost (exec (0 + k)).gr
      ((exec (0 + k)).limits (runLimits exec 0 k limits)) := hlim
  rw [h, storeCost_some _ _ x hx]

/-! ## Executor retries and the attempt total -/

/-- C11: the attempt counter grows by one per executor call, not by the HTTP requests the
call issued. With three configured retries, a first call that issues three requests (two
`503` answers retried by the executor, then a throttled one) and a second call that
succeeds, `Query` returns nil with `attempts` 2 after four HTTP requests. -/
theorem Query_counts_calls_not_requests :
    ∃ o, Query 3 internalRetryExec freshLimits = some o ∧ o.err = none ∧ o.attempts = 2 ∧
      (internalRetryExec 0).requests = 3 ∧
      httpRequests internalRetryExec o.attempts = 4 ∧
      ¬ ((httpRequests internalRetryExec o.attempts : Int) ≤ 3) := by
  have hQ := Query_clean_after 3 1 (by decide) internalRetryExec freshLimits
    (fun i hi => by
      have : i = 0 := by omega
      subst this
      decide)
    (by decide)
  exact ⟨_, hQ, by decide, rfl, by decide, by decide, by decide⟩

/-! ## The retry-after hint of the final error -/

/-- C12, as stated, fails when the final throttled response has no extensions object:
with two configured retries, the throttled test response and then a throttled response
without extensions, the returned `RetryAfter` is 0 while the stored
`RateLimits.RetryAfterSeconds` is 2. -/
theorem Query_hint_not_last_known :
    ∃ o rle, Query 2 costThenNoExtensions freshLimits = some o ∧
      o.err = some (.rateLimit rle) ∧ rle.RetryAfter = 0 ∧
      o.limits.RetryAfterSeconds = 2 ∧
      rle.RetryAfter ≠ ⌈o.limits.RetryAfterSeconds⌉ := by
  have hQ := Query_exhausted 2 1 (by decide) costThenNoExtensions freshLimits
    (fun i hi => by
      have : i = 0 := by omega
      subst this
      decide)
    throttledError (by decide)
  have hsecs : retryAfterSecsOf (costThenNoExtensions 1).gr = 0 := by
    simp [retryAfterSecsOf, costThenNoExtensions, throttledNoExtensions]
  have hstored : (storeCost (costThenNoExtensions 1).gr
      ((costThenNoExtensions 1).limits (runLimits costThenNoExtensions 0 1 freshLimits))
      ).RetryAfterSeconds = 2 := by
    simp [storeCost, runLimits, costThenNoExtensions, throttledNoExtensions,
      throttledResponse, testCost_retryAfterSeconds]
  refine ⟨_, _, hQ, rfl, ?_, hstored, ?_⟩
  · simp [hsecs, ceilSeconds_zero]
  · simp [hsecs, ceilSeconds_zero, hstored]

/-- C12, amended: when `Query` returns on a throttled response, the error is a
`RateLimitError` whose `RetryAfter` comes from that response's own cost: when the
response carries an extensions object whose wait is finite and has a ceiling that is
representable as an `int`, it is the ceiling of the retry-after seconds of that cost,
which is the ceiling of the stored `RateLimits.RetryAfterSeconds`; and it is 0 when the
response carries no extensions object. -/
theorem Query_hint_of_final_response (retries : Int) (exec : Nat → PostResult)
    (limits : RateLimitInfo) (o : Outcome)
    (hQ : Query retries exec limits = some o)
    (hthr : (exec (o.attempts - 1)).gr.throttled = true) :
    ∃ rle, o.err = some (.rateLimit rle) ∧
      (∀ x, (exec (o.attempts - 1)).gr.Extensions = some x → finiteWait x.Cost →
        intFits x.Cost.RetryAfterSeconds →
        rle.RetryAfter = ⌈x.Cost.RetryAfterSeconds⌉ ∧
        rle.RetryAfter = ⌈o.limits.RetryAfterSeconds⌉) ∧
      ((exec (o.attempts - 1)).gr.Extensions = none → rle.RetryAfter = 0) := by
  obtain ⟨k, hk1, _, _, hk4⟩ := queryLoop_decompose retries exec _ 0 limits [] o hQ
  have hidx : o.attempts - 1 = 0 + k := by omega
  rw [hidx] at hthr ⊢
  obtain ⟨_, e, _, herr⟩ := queryAttempt_done_throttled_inv _ _ _ _ _ _ hk4 hthr
  refine ⟨_, herr, ?_, ?_⟩
  · intro x hx _ hfit
    have hstored : o.limits.RetryAfterSeconds = x.Cost.RetryAfterSeconds := by
      rw [Query_limits_of_last_extensions retries exec limits o x hQ (by rw [hidx]; exact hx)]
    simp only [retryAfterSecsOf_some _ x hx, hstored, ceilSeconds_of_fits _ hfit, and_self]
  · intro hnone
    simp only [retryAfterSecsOf_none _ hnone, ceilSeconds_zero]

/-- C12, amended, on `TestGraphQLQueryWithThrottledError`: the returned `RetryAfter` is
the ceiling of the stored retry-after seconds. -/
theorem Query_hint_of_final_response_witness :
    ∃ o rle, Query 1 (fun _ => throttledResponse) freshLimits = some o ∧
      o.err = some (.rateLimit rle) ∧
      rle.RetryAfter = ⌈o.limits.RetryAfterSeconds⌉ := by
  obtain ⟨o, hQ⟩ := Query_total 1 (fun _ => throttledResponse) freshLimits
  obtain ⟨rle, herr, hsome, _⟩ :=
    Query_hint_of_final_response 1 (fun _ => throttledResponse) freshLimits o hQ
      (show throttledResponse.gr.throttled = true by decide)
  have hceil : (⌈testCost.RetryAfterSeconds⌉ : Int) = 2 := by
    rw [testCost_retryAfterSeconds]; simp
  have hfit : intFits testCost.RetryAfterSeconds := by
    unfold intFits
    rw [hceil]
    decide
  exact ⟨o, rle, hQ, herr,
    (hsome { Cost := testCost } rfl (Or.inl (by norm_num [testCost])) hfit).2⟩

/-! ## What the rate-limit state reflects -/

/-- C13, as stated, fails on a response without an extensions object: two runs on the same
successful response that start from different rate-limit states end with different
states. -/
theorem Query_state_keeps_history :
    ∃ o1 o2, Query 1 (fun _ => successResponse) freshLimits = some o1 ∧
      Query 1 (fun _ => successResponse) staleLimits = some o2 ∧
      o1.limits.GraphQLCost = none ∧ o2.limits.GraphQLCost = some testCost ∧
      o1.limits.RetryAfterSeconds = 0 ∧ o2.limits.RetryAfterSeconds = 2 ∧
      o1.limits ≠ o2.limits := by
  have h1 := Query_clean_after 1 0 (by decide) (fun _ => successResponse) freshLimits
    (fun i hi => absurd hi (Nat.not_lt_zero i)) rfl
  have h2 := Query_clean_after 1 0 (by decide) (fun _ => successResponse) staleLimits
    (fun i hi => absurd hi (Nat.not_lt_zero i)) rfl
  refine ⟨_, _, h1, h2, rfl, rfl, rfl, rfl, ?_⟩
  intro h
  have hc := congrArg RateLimitInfo.GraphQLCost h
  simp [storeCost, runLimits, successResponse, freshLimits, staleLimits] at hc

/-- C13, amended: when the last response of a run carries an extensions object, the
`RateLimits.GraphQLCost` and `RateLimits.RetryAfterSeconds` the run ends with are
determined by that object alone: two runs whose last responses carry the same extensions
end with the same two values, whatever the earlier responses, the configured retries and
the states held before the calls. A response without an extensions object is not written
to the state by `Query`: the pass that processes it leaves the state as the executor's
call left it, and so does a run that ends on such a response. -/
theorem Query_state_of_last_extensions :
    (∀ (retries1 retries2 : Int) (exec1 exec2 : Nat → PostResult)
      (limits1 limits2 : RateLimitInfo) (o1 o2 : Outcome) (x : graphQLExtensions),
      Query retries1 exec1 limits1 = some o1 →
      Query retries2 exec2 limits2 = some o2 →
      (exec1 (o1.attempts - 1)).gr.Extensions = some x →
      (exec2 (o2.attempts - 1)).gr.Extensions = some x →
      o1.limits.GraphQLCost = o2.limits.GraphQLCost ∧
      o1.limits.RetryAfterSeconds = o2.limits.RetryAfterSeconds ∧
      o1.limits.GraphQLCost = some x.Cost ∧
      o1.limits.RetryAfterSeconds = x.Cost.RetryAfterSeconds) ∧
    (∀ (retries attempts : Int) (r : PostResult) (before : RateLimitInfo),
      r.gr.Extensions = none →
      (queryAttempt retries attempts r before).2 = r.limits before) ∧
    (∀ (retries : Int) (exec : Nat → PostResult) (limits : RateLimitInfo) (o : Outcome),
      Query retries exec limits = some o →
      (exec (o.attempts - 1)).gr.Extensions = none →
      o.limits =
        (exec (o.attempts - 1)).limits (runLimits exec 0 (o.attempts - 1) limits)) := by
  have key : ∀ (x : graphQLExtensions) (retries : Int) (exec : Nat → PostResult)
      (limits : RateLimitInfo) (o : Outcome), Query retries exec limits = some o →
      (exec (o.attempts - 1)).gr.Extensions = some x →
      o.limits.GraphQLCost = some x.Cost ∧
      o.limits.RetryAfterSeconds = x.Cost.RetryAfterSeconds := by
    intro x retries exec limits o hQ hx
    rw [Query_limits_of_last_extensions retries exec limits o x hQ hx]
    exact ⟨rfl, rfl⟩
  have pass : ∀ (retries attempts : Int) (r : PostResult) (before : RateLimitInfo),
      r.gr.Extensions = none →
      (queryAttempt retries attempts r before).2 = r.limits before := by
    intro retries attempts r before hnone
    rw [queryAttempt_limits]
    simp only [storeCost, hnone]
  refine ⟨?_, pass, ?_⟩
  · intro retries1 retries2 exec1 exec2 limits1 limits2 o1 o2 x hQ1 hQ2 hx1 hx2
    obtain ⟨a1, b1⟩ := key x retries1 exec1 limits1 o1 hQ1 hx1
    obtain ⟨a2, b2⟩ := key x retries2 exec2 limits2 o2 hQ2 hx2
    exact ⟨a1.trans a2.symm, b1.trans b2.symm, a1, b1⟩
  · intro retries exec limits o hQ hnone
    obtain ⟨k, hk1, _, _, hk4⟩ := queryLoop_decompose retries exec _ 0 limits [] o hQ
    have hidx : o.attempts - 1 = k := by omega
    rw [hidx] at hnone ⊢
    simp only [Nat.zero_add] at hk4
    have h := pass retries ((k + 1 : Nat) : Int) (exec k) (runLimits exec 0 k limits) hnone
    rw [hk4] at h
    exact h

/-- C13, amended, on two runs that end on the throttled test response (three retries from
a fresh state, one retry from a stale state), and on a run from the stale state that ends
on the successful test response, which has no extensions. -/
theorem Query_state_of_last_extensions_witness :
    (∃ o1 o2, Query 3 (fun _ => throttledResponse) freshLimits = some o1 ∧
      Query 1 (fun _ => throttledResponse) staleLimits = some o2 ∧
      o1.limits.GraphQLCost = o2.limits.GraphQLCost ∧
      o1.limits.RetryAfterSeconds = o2.limits.RetryAfterSeconds) ∧
    (queryAttempt 1 1 successResponse staleLimits).2 = staleLimits := by
  obtain ⟨o1, h1⟩ := Query_total 3 (fun _ => throttledResponse) freshLimits
  obtain ⟨o2, h2⟩ := Query_total 1 (fun _ => throttledResponse) staleLimits
  have h := Query_state_of_last_extensions.1 3 1 (fun _ => throttledResponse)
    (fun _ => throttledResponse) freshLimits staleLimits o1 o2 { Cost := testCost }
    h1 h2 rfl rfl
  exact ⟨⟨o1, o2, h1, h2, h.1, h.2.1⟩,
    Query_state_of_last_extensions.2.1 1 1 successResponse staleLimits rfl⟩

/-! ## Auxiliary facts about trimming -/

theorem dropWhile_leading (p : Char → Bool) (a l : List Char)
    (ha : ∀ x ∈ a, p x = true) (hl : ∀ c, l.head? = some c → p c = false) :
    (a ++ l).dropWhile p = l := by
  induction a with
  | nil =>
    cases l with
    | nil => rfl
    | cons c t => simp [List.dropWhile_cons, hl c rfl]
  | cons x a ih =>
    have hx : p x = true := ha x (List.mem_cons_self x a)
    simp only [List.cons_append, List.dropWhile_cons, hx, if_true]
    exact ih (fun y hy => ha y (List.mem_cons_of_mem x hy))

theorem rdropWhile_trailing (p : Char → Bool) (l b : List Char)
    (hb : ∀ x ∈ b, p x = true) (hl : ∀ c, l.getLast? = some c → p c = false) :
    (l ++ b).rdropWhile p = l := by
  unfold List.rdropWhile
  rw [List.reverse_append, dropWhile_leading p b.reverse l.reverse
    (fun x hx => hb x (List.mem_reverse.mp hx))
    (fun c hc => hl c (by rwa [List.head?_reverse] at hc)), List.reverse_reverse]

theorem trimBoth_sandwich (p : Char → Bool) (a m b : List Char)
    (ha : ∀ x ∈ a, p x = true) (hb : ∀ x ∈ b, p x = true)
    (hhead : ∀ c, m.head? = some c → p c = false)
    (hlast : ∀ c, m.getLast? = some c → p c = false) :
    trimBoth p (a ++ m ++ b) = m := by
  unfold trimBoth
  cases m with
  | nil =>
    have : (a ++ [] ++ b).dropWhile p = [] := by
      rw [List.dropWhile_eq_nil_iff]
      intro x hx
      simp only [List.append_nil, List.mem_append] at hx
      exact hx.elim (ha x) (hb x)
    rw [this]; rfl
  | cons c t =>
    rw [List.append_assoc, dropWhile_leading p a (c :: t ++ b) ha
      (fun c' hc' => hhead c' (by simpa using hc'))]
    exact rdropWhile_trailing p (c :: t) b hb hlast

theorem head_clean_sandwich (q : Char → Bool) (d1 n d2 : List Char)
    (hd1 : ∀ c ∈ d1, q c = false) (hd2 : ∀ c ∈ d2, q c = false)
    (hn : ∀ c, n.head? = some c → q c = false) :
    ∀ c, (d1 ++ n ++ d2).head? = some c → q c = false := by
  intro c hc
  cases d1 with
  | cons x t =>
    simp only [List.cons_append, List.head?_cons, Option.some.injEq] at hc
    exact hc ▸ hd1 x (List.mem_cons_self x t)
  | nil =>
    cases n with
    | cons y t =>
      simp only [List.nil_append, List.cons_append, List.head?_cons, Option.some.injEq] at hc
      exact hn c (by simp [hc])
    | nil =>
      cases d2 with
      | nil => simp at hc
      | cons z t =>
        simp only [List.nil_append, List.head?_cons, Option.some.injEq] at hc
        exact hc ▸ hd2 z (List.mem_cons_self z t)

theorem last_clean_sandwich (q : Char → Bool) (d1 n d2 : List Char)
    (hd1 : ∀ c ∈ d1, q c = false) (hd2 : ∀ c ∈ d2, q c = false)
    (hn : ∀ c, n.getLast? = some c → q c = false) :
    ∀ c, (d1 ++ n ++ d2).getLast? = some c → q c = false := by
  intro c hc
  rw [← List.head?_reverse] at hc
  simp only [List.reverse_append, ← List.append_assoc] at hc
  exact head_clean_sandwich q d2.reverse n.reverse d1.reverse
    (fun x hx => hd2 x (List.mem_reverse.mp hx)) (fun x hx => hd1 x (List.mem_reverse.mp hx))
    (fun x hx => hn x (by rwa [List.head?_reverse] at hx)) c hc

theorem isSpace_dot : isSpace '.' = false := by decide

theorem cutset_dot (c : Char) : (".".data.contains c) = (c == '.') := by
  cases h : c == '.' <;> simp [List.contains, List.elem, h]

theorem isSpaceOrDot_false (c : Char) (h : isSpaceOrDot c = false) :
    isSpace c = false ∧ (c == '.') = false := by
  unfold isSpaceOrDot at h
  simpa [Bool.or_eq_false_iff] using h

theorem ShopFullName_sandwich (n w1 d1 d2 w2 : String)
    (hn : cleanEnds isSpaceOrDot n) (hc : Contains n "myshopify.com" = false)
    (hw1 : ∀ c ∈ w1.data, isSpace c = true) (hw2 : ∀ c ∈ w2.data, isSpace c = true)
    (hd1 : ∀ c ∈ d1.data, c = '.') (hd2 : ∀ c ∈ d2.data, c = '.') :
    ShopFullName (w1 ++ d1 ++ n ++ d2 ++ w2) = n ++ ".myshopify.com" := by
  have hdata : (w1 ++ d1 ++ n ++ d2 ++ w2).data
      = w1.data ++ (d1.data ++ n.data ++ d2.data) ++ w2.data := by
    simp [String.data_append, List.append_assoc]
  have hsp1 : ∀ c ∈ d1.data, isSpace c = false := fun c h => by rw [hd1 c h]; exact isSpace_dot
  have hsp2 : ∀ c ∈ d2.data, isSpace c = false := fun c h => by rw [hd2 c h]; exact isSpace_dot
  have hspace : TrimSpace (w1 ++ d1 ++ n ++ d2 ++ w2) = ⟨d1.data ++ n.data ++ d2.data⟩ := by
    unfold TrimSpace
    rw [hdata, trimBoth_sandwich isSpace _ _ _ hw1 hw2
      (head_clean_sandwich isSpace _ _ _ hsp1 hsp2 (fun c h => (isSpaceOrDot_false c (hn.1 c h)).1))
      (last_clean_sandwich isSpace _ _ _ hsp1 hsp2 (fun c h => (isSpaceOrDot_false c (hn.2 c h)).1))]
  have hdots : Trim ⟨d1.data ++ n.data ++ d2.data⟩ "." = n := by
    unfold Trim
    have := trimBoth_sandwich (fun c => ".".data.contains c) d1.data n.data d2.data
      (fun c h => by show ".".data.contains c = true; rw [cutset_dot, hd1 c h]; rfl)
      (fun c h => by show ".".data.contains c = true; rw [cutset_dot, hd2 c h]; rfl)
      (fun c h => by
        show ".".data.contains c = false
        rw [cutset_dot]; exact (isSpaceOrDot_false c (hn.1 c h)).2)
      (fun c h => by
        show ".".data.contains c = false
        rw [cutset_dot]; exact (isSpaceOrDot_false c (hn.2 c h)).2)
    simp only [this]
  unfold ShopFullName
  simp only [hspace, hdots, hc]
  rfl

theorem ShopFullName_fixed (y : String) (hy : cleanEnds isSpaceOrDot y)
    (hc : Contains y "myshopify.com" = true) : ShopFullName y = y := by
  have h := trimBoth_sandwich isSpace [] y.data [] (by simp) (by simp)
    (fun c h => (isSpaceOrDot_false c (hy.1 c h)).1)
    (fun c h => (isSpaceOrDot_false c (hy.2 c h)).1)
  have h' := trimBoth_sandwich (fun c => ".".data.contains c) [] y.data [] (by simp) (by simp)
    (fun c h => by
      show ".".data.contains c = false
      rw [cutset_dot]; exact (isSpaceOrDot_false c (hy.1 c h)).2)
    (fun c h => by
      show ".".data.contains c = false
      rw [cutset_dot]; exact (isSpaceOrDot_false c (hy.2 c h)).2)
  simp only [List.nil_append, List.append_nil] at h h'
  have hspace : TrimSpace y = y := by unfold TrimSpace; rw [h]
  have hdots : Trim y "." = y := by unfold Trim; rw [h']
  unfold ShopFullName
  simp only [hspace, hdots, hc, if_true]

theorem ShopFullName_contains (x : String) :
    Contains (ShopFullName x) "myshopify.com" = true := by
  unfold ShopFullName
  by_cases h : Contains (Trim (TrimSpace x) ".") "myshopify.com" = true
  · simp only [h, if_true]
  · simp only [h]
    unfold Contains
    rw [decide_eq_true_iff]
    exact ⟨(Trim (TrimSpace x) ".").data ++ ".".data, [], by simp [String.data_append]⟩

theorem cleanEnds_of_check (p : Char → Bool) (s : String)
    (hh : s.data.head?.all (fun c => !p c) = true)
    (hl : s.data.getLast?.all (fun c => !p c) = true) : cleanEnds p s := by
  constructor
  · intro c hc
    rw [hc] at hh
    simpa using hh
  · intro c hc
    rw [hc] at hl
    simpa using hl


/-! ## Shop names -/

/-- C19: `ShopFullName` ignores surrounding white space and dots: for a name `n` that
neither begins nor ends with white space or a dot and does not contain `myshopify.com`,
white-space strings `w1`, `w2` and strings of dots `d1`, `d2`,
`ShopFullName (w1 ++ d1 ++ n ++ d2 ++ w2) = n ++ ".myshopify.com"`. -/
theorem ShopFullName_ignores_space_and_dots (n w1 d1 d2 w2 : String)
    (hn : cleanEnds isSpaceOrDot n) (hc : Contains n "myshopify.com" = false)
    (hw1 : ∀ c ∈ w1.data, isSpace c = true) (hw2 : ∀ c ∈ w2.data, isSpace c = true)
    (hd1 : ∀ c ∈ d1.data, c = '.') (hd2 : ∀ c ∈ d2.data, c = '.') :
    ShopFullName (w1 ++ d1 ++ n ++ d2 ++ w2) = n ++ ".myshopify.com" :=
  ShopFullName_sandwich n w1 d1 d2 w2 hn hc hw1 hw2 hd1 hd2

/-- C19, on the inputs of `TestShopFullName`: "myshop.", " myshop" and "myshop \n" all
give "myshop.myshopify.com". -/
theorem ShopFullName_ignores_space_and_dots_witness :
    ShopFullName ("" ++ "" ++ "myshop" ++ "." ++ "") = "myshop" ++ ".myshopify.com" ∧
    ShopFullName (" " ++ "" ++ "myshop" ++ "" ++ "") = "myshop" ++ ".myshopify.com" ∧
    ShopFullName ("" ++ "" ++ "myshop" ++ "" ++ " \n") = "myshop" ++ ".myshopify.com" ∧
    ShopFullName "myshop." = "myshop.myshopify.com" ∧
    ShopFullName " myshop" = "myshop.myshopify.com" ∧
    ShopFullName "myshop \n" = "myshop.myshopify.com" :=
  ⟨ShopFullName_ignores_space_and_dots "myshop" "" "" "." ""
      (cleanEnds_of_check _ _ (by decide) (by decide)) (by decide) (by decide) (by decide)
      (by decide) (by decide),
   ShopFullName_ignores_space_and_dots "myshop" " " "" "" ""
      (cleanEnds_of_check _ _ (by decide) (by decide)) (by decide) (by decide) (by decide)
      (by decide) (by decide),
   ShopFullName_ignores_space_and_dots "myshop" "" "" "" " \n"
      (cleanEnds_of_check _ _ (by decide) (by decide)) (by decide) (by decide) (by decide)
      (by decide) (by decide),
   by decide, by decide, by decide⟩

/-- C20, as stated, fails: `ShopFullName` is not idempotent. On ". myshopify.com" the
first application leaves a leading space that the second removes, and on the empty
string the first application yields a leading dot that the second removes. -/
theorem ShopFullName_not_idempotent :
    ShopFullName ". myshopify.com" = " myshopify.com" ∧
    ShopFullName (ShopFullName ". myshopify.com") = "myshopify.com" ∧
    ShopFullName (ShopFullName ". myshopify.com") ≠ ShopFullName ". myshopify.com" ∧
    ShopFullName "" = ".myshopify.com" ∧
    ShopFullName (ShopFullName "") = "myshopify.com" ∧
    ShopFullName (ShopFullName "") ≠ ShopFullName "" := by
  decide

/-- C20, amended: a name already in full form is returned unchanged: every string that
contains `myshopify.com` and neither begins nor ends with white space or a dot is mapped
to itself; hence `ShopFullName (ShopFullName x) = ShopFullName x` for every `x` whose
full name neither begins nor ends with white space or a dot. -/
theorem ShopFullName_full_form_unchanged :
    (∀ y : String, cleanEnds isSpaceOrDot y → Contains y "myshopify.com" = true →
      ShopFullName y = y) ∧
    (∀ x : String, cleanEnds isSpaceOrDot (ShopFullName x) →
      ShopFullName (ShopFullName x) = ShopFullName x) :=
  ⟨fun y hy hc => ShopFullName_fixed y hy hc,
   fun x hx => ShopFullName_fixed (ShopFullName x) hx (ShopFullName_contains x)⟩

/-- C20, amended, on `TestShopFullName`: "myshop.myshopify.com" maps to itself, and
applying `ShopFullName` twice to " myshop." gives the same as applying it once. -/
theorem ShopFullName_full_form_unchanged_witness :
    ShopFullName "myshop.myshopify.com" = "myshop.myshopify.com" ∧
    ShopFullName (ShopFullName " myshop.") = ShopFullName " myshop." :=
  ⟨ShopFullName_full_form_unchanged.1 "myshop.myshopify.com"
      (cleanEnds_of_check _ _ (by decide) (by decide)) (by decide),
   ShopFullName_full_form_unchanged.2 " myshop."
      (cleanEnds_of_check _ _ (by decide) (by decide))⟩

/-! ## Auxiliary facts about the pagination parser -/

theorem parseEntry_ok_inv (lib : LinkLib) (entry : String) (rel : Rel) (o : ListOptions)
    (h : parseEntry lib entry = .ok (rel, o)) : carries lib entry rel o := by
  unfold parseEntry at h
  cases hm : lib.matchEntry entry with
  | none => rw [hm] at h; simp at h
  | some ur =>
    obtain ⟨url, rel'⟩ := ur
    rw [hm] at h
    simp only at h
    cases hu : lib.parseURL url with
    | none => rw [hu] at h; simp at h
    | some rawQuery =>
      rw [hu] at h
      simp only at h
      cases hq : lib.parseQuery rawQuery with
      | error e => rw [hq] at h; simp at h
      | ok params =>
        rw [hq] at h
        simp only at h
        by_cases hp : params "page_info" = ""
        · simp [hp] at h
        · by_cases hl : params "limit" = ""
          · simp only [hp, hl, if_false, if_true, Except.ok.injEq, Prod.mk.injEq] at h
            obtain ⟨hr, ho⟩ := h
            subst hr; subst ho
            exact ⟨url, rawQuery, params, hm, hu, hq, hp, rfl, Or.inl ⟨hl, rfl⟩⟩
          · simp only [hp, hl, if_false] at h
            cases ha : lib.atoi (params "limit") with
            | error e => rw [ha] at h; simp at h
            | ok limit =>
              rw [ha] at h
              simp only [Except.ok.injEq, Prod.mk.injEq] at h
              obtain ⟨hr, ho⟩ := h
              subst hr; subst ho
              exact ⟨url, rawQuery, params, hm, hu, hq, hp, rfl, Or.inr ⟨hl, ha⟩⟩

theorem hasRel_of_carries (lib : LinkLib) (entry : String) (rel : Rel) (o : ListOptions)
    (h : carries lib entry rel o) : hasRel lib rel entry := by
  obtain ⟨url, _, _, hm, _⟩ := h
  exact ⟨url, hm⟩

theorem hasRel_unique (lib : LinkLib) (entry : String) (r1 r2 : Rel)
    (h1 : hasRel lib r1 entry) (h2 : hasRel lib r2 entry) : r1 = r2 := by
  obtain ⟨u1, h1⟩ := h1
  obtain ⟨u2, h2⟩ := h2
  rw [h1] at h2
  simp only [Option.some.injEq, Prod.mk.injEq] at h2
  exact h2.2

theorem extractEntries_cons_ok (lib : LinkLib) (entry : String) (rest : List String)
    (acc p : Pagination) (h : extractEntries lib (entry :: rest) acc = .ok p) :
    ∃ rel o, parseEntry lib entry = .ok (rel, o) ∧
      ∃ acc', extractEntries lib rest acc' = .ok p ∧ acc'.side rel = some o ∧
        ∀ r, r ≠ rel → acc'.side r = acc.side r := by
  rw [extractEntries] at h
  cases hp : parseEntry lib entry with
  | error e => rw [hp] at h; simp at h
  | ok ro =>
    obtain ⟨rel, o⟩ := ro
    rw [hp] at h
    cases rel with
    | next =>
      exact ⟨.next, o, rfl, _, h, rfl, fun r hr => by cases r <;> simp_all [Pagination.side]⟩
    | previous =>
      exact ⟨.previous, o, rfl, _, h, rfl, fun r hr => by cases r <;> simp_all [Pagination.side]⟩

/-- The cursor on a side of an accepted header comes from the last entry with that rel,
or is the one held before when no entry has that rel. -/
theorem extractEntries_side (lib : LinkLib) (rel : Rel) :
    ∀ (entries : List String) (acc p : Pagination) (o : ListOptions),
      extractEntries lib entries acc = .ok p → p.side rel = some o →
      (acc.side rel = some o ∧ ∀ x ∈ entries, ¬ hasRel lib rel x) ∨
      (∃ pre entry post, entries = pre ++ entry :: post ∧ carries lib entry rel o ∧
        ∀ x ∈ post, ¬ hasRel lib rel x) := by
  intro entries
  induction entries with
  | nil =>
    intro acc p o h ho
    simp only [extractEntries, Except.ok.injEq] at h
    subst h
    exact Or.inl ⟨ho, fun x hx => absurd hx (List.not_mem_nil x)⟩
  | cons e rest ih =>
    intro acc p o h ho
    obtain ⟨rel', o', hp, acc', hrest, hset, hkeep⟩ := extractEntries_cons_ok lib e rest acc p h
    have hcar := parseEntry_ok_inv lib e rel' o' hp
    rcases ih acc' p o hrest ho with ⟨hacc, hnone⟩ | ⟨pre, entry, post, hsplit, hc, hpost⟩
    · by_cases hr : rel = rel'
      · subst hr
        rw [hset] at hacc
        simp only [Option.some.injEq] at hacc
        subst hacc
        exact Or.inr ⟨[], e, rest, rfl, hcar, hnone⟩
      · refine Or.inl ⟨by rw [← hkeep rel hr]; exact hacc, ?_⟩
        intro x hx
        rcases List.mem_cons.mp hx with hxe | hxr
        · subst hxe
          exact fun hh => hr (hasRel_unique lib x rel rel' hh (hasRel_of_carries lib x rel' o' hcar))
        · exact hnone x hxr
    · exact Or.inr ⟨e :: pre, entry, post, by rw [hsplit]; rfl, hc, hpost⟩

/-- A side that is set, or for which an entry exists, is set in the result. -/
theorem extractEntries_isSome (lib : LinkLib) (rel : Rel) :
    ∀ (entries : List String) (acc p : Pagination),
      extractEntries lib entries acc = .ok p →
      ((acc.side rel).isSome = true ∨ ∃ x ∈ entries, hasRel lib rel x) →
      (p.side rel).isSome = true := by
  intro entries
  induction entries with
  | nil =>
    intro acc p h hor
    simp only [extractEntries, Except.ok.injEq] at h
    subst h
    rcases hor with h1 | ⟨x, hx, _⟩
    · exact h1
    · exact absurd hx (List.not_mem_nil x)
  | cons e rest ih =>
    intro acc p h hor
    obtain ⟨rel', o', hp, acc', hrest, hset, hkeep⟩ := extractEntries_cons_ok lib e rest acc p h
    have hcar := parseEntry_ok_inv lib e rel' o' hp
    apply ih acc' p hrest
    by_cases hr : rel = rel'
    · subst hr
      exact Or.inl (by rw [hset]; rfl)
    · rcases hor with h1 | ⟨x, hx, hxr⟩
      · exact Or.inl (by rw [hkeep rel hr]; exact h1)
      · rcases List.mem_cons.mp hx with hxe | hxrest
        · subst hxe
          exact absurd (hasRel_unique lib x rel rel' hxr (hasRel_of_carries lib x rel' o' hcar)) hr
        · exact Or.inr ⟨x, hxrest, hxr⟩

/-- The first malformed entry ends the parse with its error. -/
theorem extractEntries_error (lib : LinkLib) (entry : String) (post : List String)
    (e : GoError) (hbad : parseEntry lib entry = .error e) :
    ∀ (pre : List String) (acc : Pagination),
      (∀ x ∈ pre, ∃ r, parseEntry lib x = .ok r) →
      extractEntries lib (pre ++ entry :: post) acc = .error e := by
  intro pre
  induction pre with
  | nil => intro acc _; simp [extractEntries, hbad]
  | cons x pre ih =>
    intro acc hpre
    obtain ⟨r, hr⟩ := hpre x (List.mem_cons_self x pre)
    obtain ⟨rel, o⟩ := r
    have hrest := fun acc' => ih acc' (fun y hy => hpre y (List.mem_cons_of_mem x hy))
    cases rel with
    | next => simp only [List.cons_append, extractEntries, hr]; exact hrest _
    | previous => simp only [List.cons_append, extractEntries, hr]; exact hrest _

theorem extractPagination_nonempty (lib : LinkLib) (linkHeader : String)
    (hne : linkHeader ≠ "") :
    extractPagination lib linkHeader =
      extractEntries lib (lib.splitEntries linkHeader)
        { NextPageOptions := none, PreviousPageOptions := none } := by
  simp [extractPagination, hne]

theorem extractPagination_side (lib : LinkLib) (linkHeader : String) (p : Pagination)
    (hok : extractPagination lib linkHeader = .ok p) (rel : Rel) :
    ((p.side rel).isSome = true ↔
      linkHeader ≠ "" ∧ ∃ entry ∈ lib.splitEntries linkHeader, hasRel lib rel entry) ∧
    (∀ o, p.side rel = some o →
      ∃ pre entry post, lib.splitEntries linkHeader = pre ++ entry :: post ∧
        carries lib entry rel o ∧ ∀ x ∈ post, ¬ hasRel lib rel x) := by
  by_cases hne : linkHeader = ""
  · have hp : p = { NextPageOptions := none, PreviousPageOptions := none } := by
      simp only [extractPagination, hne, if_true, Except.ok.injEq] at hok
      exact hok.symm
    subst hp
    constructor
    · cases rel <;> simp [Pagination.side, hne]
    · intro o ho
      cases rel <;> simp [Pagination.side] at ho
  · rw [extractPagination_nonempty lib linkHeader hne] at hok
    have hacc : ∀ o, ({ NextPageOptions := none, PreviousPageOptions := none } :
        Pagination).side rel ≠ some o := by
      intro o; cases rel <;> simp [Pagination.side]
    have hdecomp : ∀ o, p.side rel = some o →
        ∃ pre entry post, lib.splitEntries linkHeader = pre ++ entry :: post ∧
          carries lib entry rel o ∧ ∀ x ∈ post, ¬ hasRel lib rel x := by
      intro o ho
      rcases extractEntries_side lib rel _ _ p o hok ho with ⟨h1, _⟩ | h2
      · exact absurd h1 (hacc o)
      · exact h2
    refine ⟨⟨fun hsome => ?_, fun hex => ?_⟩, hdecomp⟩
    · obtain ⟨o, ho⟩ := Option.isSome_iff_exists.mp hsome
      obtain ⟨pre, entry, post, hsplit, hc, _⟩ := hdecomp o ho
      exact ⟨hne, entry, by rw [hsplit]; simp, hasRel_of_carries lib entry rel o hc⟩
    · exact extractEntries_isSome lib rel _ _ p hok (Or.inr hex.2)

theorem rejected_of_error (lib : LinkLib) (linkHeader : String) (e : GoError)
    (h : extractPagination lib linkHeader = .error e) : rejected lib linkHeader e := by
  refine ⟨h, fun α resource => ?_⟩
  simp [Client.ListWithPagination, h, PayoutsServiceOp.ListWithPagination,
    OrderRiskServiceOp.ListWithPagination, PaymentsTransactionsServiceOp.ListWithPagination]

/-! ## The pagination parser -/

/-- C14: for every Link header the pagination parser accepts, the paginated entry point
returns a non-nil pagination and no error; `NextPageOptions` is set exactly when the
header has a `rel="next"` entry and `PreviousPageOptions` exactly when it has a
`rel="previous"` entry (an absent side stays nil); a cursor that is set carries the
page-info token of the last entry with its rel and that entry's limit when one is given,
0 otherwise; and the empty header gives the empty pagination. -/
theorem extractPagination_accepted (lib : LinkLib) (linkHeader : String) (p : Pagination)
    (hok : extractPagination lib linkHeader = .ok p) :
    (∀ (α : Type) (resource : Option (List α)),
      Client.ListWithPagination lib
          { resource := resource, linkHeader := linkHeader, err := none }
        = { resource := resource, pagination := some p, err := none }) ∧
    (p.NextPageOptions.isSome = true ↔
      linkHeader ≠ "" ∧ ∃ entry ∈ lib.splitEntries linkHeader, hasRel lib .next entry) ∧
    (p.PreviousPageOptions.isSome = true ↔
      linkHeader ≠ "" ∧ ∃ entry ∈ lib.splitEntries linkHeader, hasRel lib .previous entry) ∧
    (∀ o, p.NextPageOptions = some o →
      ∃ pre entry post, lib.splitEntries linkHeader = pre ++ entry :: post ∧
        carries lib entry .next o ∧ ∀ x ∈ post, ¬ hasRel lib .next x) ∧
    (∀ o, p.PreviousPageOptions = some o →
      ∃ pre entry post, lib.splitEntries linkHeader = pre ++ entry :: post ∧
        carries lib entry .previous o ∧ ∀ x ∈ post, ¬ hasRel lib .previous x) ∧
    (linkHeader = "" → p = { NextPageOptions := none, PreviousPageOptions := none }) ∧
    extractPagination lib "" = .ok { NextPageOptions := none, PreviousPageOptions := none } := by
  refine ⟨fun α resource => by simp [Client.ListWithPagination, hok],
    (extractPagination_side lib linkHeader p hok .next).1,
    (extractPagination_side lib linkHeader p hok .previous).1,
    (extractPagination_side lib linkHeader p hok .next).2,
    (extractPagination_side lib linkHeader p hok .previous).2, ?_, by simp [extractPagination]⟩
  intro hempty
  simp only [extractPagination, hempty, if_true, Except.ok.injEq] at hok
  exact hok.symm

/-- C14, on the headers of `TestPayoutsListWithPagination`: the header with one `next`
entry gives Next {foo, 2} and no Previous; the header with both entries populates both
sides (foo and bar, limit 0). -/
theorem extractPagination_accepted_witness :
    (∀ resource : Option (List Nat),
      Client.ListWithPagination testLib
          { resource := resource, linkHeader := headerNext, err := none }
        = { resource := resource,
            pagination := some { NextPageOptions := some { PageInfo := "foo", Limit := 2 },
                                 PreviousPageOptions := none },
            err := none }) ∧
    (∀ resource : Option (List Nat),
      Client.ListWithPagination testLib
          { resource := resource, linkHeader := headerBoth, err := none }
        = { resource := resource,
            pagination := some { NextPageOptions := some { PageInfo := "foo", Limit := 0 },
                                 PreviousPageOptions := some { PageInfo := "bar", Limit := 0 } },
            err := none }) :=
  ⟨fun resource => (extractPagination_accepted testLib headerNext
      { NextPageOptions := some { PageInfo := "foo", Limit := 2 },
        PreviousPageOptions := none } rfl).1 Nat resource,
   fun resource => (extractPagination_accepted testLib headerBoth
      { NextPageOptions := some { PageInfo := "foo", Limit := 0 },
        PreviousPageOptions := some { PageInfo := "bar", Limit := 0 } } rfl).1 Nat resource⟩

/-- C15: a non-empty Link header whose first malformed entry is `entry` is rejected with
the error of that entry, and no pagination and no list is returned: an entry without the
`<url>; rel=...` structure gives the decoding error "could not extract pagination link
header", a url that does not parse gives "pagination does not contain a valid URL", a
malformed query gives the library's error unchanged, a missing `page_info` gives
"page_info is missing", and a non-numeric limit gives the integer-parse error
unchanged. -/
theorem extractPagination_rejects (lib : LinkLib) (linkHeader : String)
    (pre post : List String) (entry : String)
    (hne : linkHeader ≠ "") (hsplit : lib.splitEntries linkHeader = pre ++ entry :: post)
    (hpre : ∀ x ∈ pre, ∃ r, parseEntry lib x = .ok r) :
    (lib.matchEntry entry = none →
      rejected lib linkHeader (.decoding ⟨"could not extract pagination link header"⟩)) ∧
    (∀ url rel, lib.matchEntry entry = some (url, rel) → lib.parseURL url = none →
      rejected lib linkHeader (.decoding ⟨"pagination does not contain a valid URL"⟩)) ∧
    (∀ url rel rawQuery e, lib.matchEntry entry = some (url, rel) →
      lib.parseURL url = some rawQuery → lib.parseQuery rawQuery = .error e →
      rejected lib linkHeader e) ∧
    (∀ url rel rawQuery params, lib.matchEntry entry = some (url, rel) →
      lib.parseURL url = some rawQuery → lib.parseQuery rawQuery = .ok params →
      params "page_info" = "" →
      rejected lib linkHeader (.decoding ⟨"page_info is missing"⟩)) ∧
    (∀ url rel rawQuery params e, lib.matchEntry entry = some (url, rel) →
      lib.parseURL url = some rawQuery → lib.parseQuery rawQuery = .ok params →
      params "page_info" ≠ "" → params "limit" ≠ "" →
      lib.atoi (params "limit") = .error e →
      rejected lib linkHeader e) := by
  have key : ∀ e, parseEntry lib entry = .error e → rejected lib linkHeader e := by
    intro e he
    apply rejected_of_error
    rw [extractPagination_nonempty lib linkHeader hne, hsplit]
    exact extractEntries_error lib entry post e he pre _ hpre
  refine ⟨fun hm => key _ ?_, fun url rel hm hu => key _ ?_,
    fun url rel rawQuery e hm hu hq => key _ ?_,
    fun url rel rawQuery params hm hu hq hp => key _ ?_,
    fun url rel rawQuery params e hm hu hq hp hl ha => key _ ?_⟩
  · simp [parseEntry, hm]
  · simp [parseEntry, hm, hu]
  · simp [parseEntry, hm, hu, hq]
  · simp [parseEntry, hm, hu, hq, hp]
  · simp [parseEntry, hm, hu, hq, hp, hl, ha]

/-- C15, on the malformed headers of `TestPayoutsListWithPagination`. -/
theorem extractPagination_rejects_witness :
    rejected testLib headerInvalid
      (.decoding ⟨"could not extract pagination link header"⟩) ∧
    rejected testLib headerBadURL
      (.decoding ⟨"pagination does not contain a valid URL"⟩) ∧
    rejected testLib headerNoPageInfo (.decoding ⟨"page_info is missing"⟩) ∧
    rejected testLib headerBadLimit atoiInvalid :=
  ⟨(extractPagination_rejects testLib headerInvalid [] [] headerInvalid (by decide) rfl
      (fun x hx => absurd hx (List.not_mem_nil x))).1 rfl,
   (extractPagination_rejects testLib headerBadURL [] [] headerBadURL (by decide) rfl
      (fun x hx => absurd hx (List.not_mem_nil x))).2.1 ":invalid.url" .next rfl rfl,
   (extractPagination_rejects testLib headerNoPageInfo [] [] headerNoPageInfo (by decide) rfl
      (fun x hx => absurd hx (List.not_mem_nil x))).2.2.2.1 "http://valid.url" .next ""
      (fun _ => "") rfl rfl rfl rfl,
   (extractPagination_rejects testLib headerBadLimit [] [] headerBadLimit (by decide) rfl
      (fun x hx => absurd hx (List.not_mem_nil x))).2.2.2.2
      "http://valid.url?page_info=foo&limit=invalid" .next "page_info=foo&limit=invalid"
      (fun key =>
        if key = "page_info" then "foo" else if key = "limit" then "invalid" else "")
      atoiInvalid rfl rfl rfl (by decide) (by decide) rfl⟩

/-! ## Errors of resource operations -/

/-- C16: a response with a 5xx status and an empty body is classified as an error whose
message is exactly "Unknown Error", and that is the error the caller of a resource
operation receives. -/
theorem unknown_error_on_empty_5xx (status : Int) (h500 : 500 ≤ status)
    (h600 : status < 600) (retryAfter : Option Int) :
    ∃ e, classifyResponse status [] retryAfter = some e ∧ e.Error = "Unknown Error" ∧
      ∀ (α : Type) (lib : LinkLib) (resource : Option (List α)) (linkHeader : String),
        PayoutsServiceOp.List (Client.ListWithPagination lib
          { resource := resource, linkHeader := linkHeader, err := some e })
          = (none, some e) ∧
        CollectServiceOp.List { resource := resource, err := some e } = (resource, some e) := by
  have h429 : status ≠ 429 := by omega
  have h400 : 400 ≤ status := by omega
  refine ⟨.response { Status := status, Message := "", Errors := [] }, ?_, ?_, ?_⟩
  · simp [classifyResponse, h400, h600, h429]
  · simp [GoError.Error, ResponseError.Error, h500, h600]
  · intro α lib resource linkHeader
    simp [Client.ListWithPagination, PayoutsServiceOp.List, PayoutsServiceOp.ListWithPagination,
      CollectServiceOp.List]

/-- C16, on `TestPayoutsListError`: status 500 with an empty body. -/
theorem unknown_error_on_empty_5xx_witness :
    ∃ e, classifyResponse 500 [] none = some e ∧ e.Error = "Unknown Error" ∧
      PayoutsServiceOp.List (Client.ListWithPagination testLib
        { resource := (none : Option (List Nat)), linkHeader := "", err := some e })
        = (none, some e) := by
  obtain ⟨e, h1, h2, h3⟩ := unknown_error_on_empty_5xx 500 (by decide) (by decide) none
  exact ⟨e, h1, h2, (h3 Nat testLib none "").1⟩

/-- C17: for `PayoutsServiceOp`, `OrderRiskServiceOp` and `PaymentsTransactionsServiceOp`,
when the client's paginated call returns an error, `ListWithPagination` returns a nil
list, a nil pagination and that error and `List` returns a nil list and that error,
whatever the call left in the resource; when the call succeeds, `List` returns the list
of `ListWithPagination` and a nil error. -/
theorem List_after_paginated_call (α : Type) (call : PaginatedCall α) :
    (∀ e, call.err = some e →
      PayoutsServiceOp.ListWithPagination call = (none, none, some e) ∧
      PayoutsServiceOp.List call = (none, some e) ∧
      OrderRiskServiceOp.ListWithPagination call = (none, none, some e) ∧
      OrderRiskServiceOp.List call = (none, some e) ∧
      PaymentsTransactionsServiceOp.ListWithPagination call = (none, none, some e) ∧
      PaymentsTransactionsServiceOp.List call = (none, some e)) ∧
    (call.err = none →
      PayoutsServiceOp.ListWithPagination call = (call.resource, call.pagination, none) ∧
      PayoutsServiceOp.List call = ((PayoutsServiceOp.ListWithPagination call).1, none) ∧
      OrderRiskServiceOp.ListWithPagination call = (call.resource, call.pagination, none) ∧
      OrderRiskServiceOp.List call = ((OrderRiskServiceOp.ListWithPagination call).1, none) ∧
      PaymentsTransactionsServiceOp.ListWithPagination call
        = (call.resource, call.pagination, none) ∧
      PaymentsTransactionsServiceOp.List call
        = ((PaymentsTransactionsServiceOp.ListWithPagination call).1, none)) := by
  constructor
  · intro e he
    simp [PayoutsServiceOp.ListWithPagination, PayoutsServiceOp.List,
      OrderRiskServiceOp.ListWithPagination, OrderRiskServiceOp.List,
      PaymentsTransactionsServiceOp.ListWithPagination, PaymentsTransactionsServiceOp.List, he]
  · intro he
    simp [PayoutsServiceOp.ListWithPagination, PayoutsServiceOp.List,
      OrderRiskServiceOp.ListWithPagination, OrderRiskServiceOp.List,
      PaymentsTransactionsServiceOp.ListWithPagination, PaymentsTransactionsServiceOp.List, he]

/-- C17, on a paginated call that fails after two items were decoded: no list and no
pagination are returned, only the error. -/
theorem List_after_paginated_call_witness :
    PayoutsServiceOp.ListWithPagination partialPaginatedCall
      = (none, none, partialPaginatedCall.err) ∧
    PayoutsServiceOp.List partialPaginatedCall = (none, partialPaginatedCall.err) := by
  have h := (List_after_paginated_call Nat partialPaginatedCall).1 _ rfl
  exact ⟨h.1, h.2.1⟩

/-- C18, as stated, fails for the operations built on the client's `Get`: when the client
call fails after it has written into the decode target, `CollectServiceOp.List` returns
the error together with the partly decoded list. -/
theorem CollectServiceOp_List_partial :
    CollectServiceOp.List partialGetCall = (some [1, 0], partialGetCall.err) ∧
    (CollectServiceOp.List partialGetCall).2 ≠ none ∧
    (CollectServiceOp.List partialGetCall).1 ≠ none := by
  decide

/-- C18, amended: `CollectServiceOp.List` and `Get`, `CarrierServiceOp.List`,
`GiftCardServiceOp.Get` and `MetafieldServiceOp.List` return the error of the client call
together with what the call left in the decode target; the returned value is nil when
the call wrote nothing. -/
theorem Get_operations_pass_through (α : Type) (list : GetCall (Option (List α)))
    (item : GetCall (Option α)) :
    CollectServiceOp.List list = (list.resource, list.err) ∧
    CollectServiceOp.Get item = (item.resource, item.err) ∧
    CarrierServiceOp.List list = (list.resource, list.err) ∧
    GiftCardServiceOp.Get item = (item.resource, item.err) ∧
    MetafieldServiceOp.List list = (list.resource, list.err) ∧
    (list.resource = none →
      (CollectServiceOp.List list).1 = none ∧ (CarrierServiceOp.List list).1 = none ∧
      (MetafieldServiceOp.List list).1 = none) ∧
    (item.resource = none →
      (CollectServiceOp.Get item).1 = none ∧ (GiftCardServiceOp.Get item).1 = none) := by
  refine ⟨rfl, rfl, rfl, rfl, rfl, fun h => ?_, fun h => ?_⟩
  · simp [CollectServiceOp.List, CarrierServiceOp.List, MetafieldServiceOp.List, h]
  · simp [CollectServiceOp.Get, GiftCardServiceOp.Get, h]

/-- C18, amended, on a client call that fails before anything is decoded (the error of a
500 response with an empty body). -/
theorem Get_operations_pass_through_witness :
    (CollectServiceOp.List
      ({ resource := none, err := some (.response { Status := 500, Message := "", Errors := [] }) } :
        GetCall (Option (List Nat)))).1 = none ∧
    (CollectServiceOp.Get
      ({ resource := none, err := some (.response { Status := 500, Message := "", Errors := [] }) } :
        GetCall (Option Nat))).1 = none :=
  ⟨((Get_operations_pass_through Nat
      { resource := none, err := some (.response { Status := 500, Message := "", Errors := [] }) }
      { resource := none, err := some (.response { Status := 500, Message := "", Errors := [] }) }
      ).2.2.2.2.2.1 rfl).1,
   ((Get_operations_pass_through Nat
      { resource := none, err := some (.response { Status := 500, Message := "", Errors := [] }) }
      { resource := none, err := some (.response { Status := 500, Message := "", Errors := [] }) }
      ).2.2.2.2.2.2 rfl).1⟩

/-! ## Auxiliary facts about short names -/

theorem no_straddle (m : List Char) (hm : m ≠ [])
    (hq : ¬ "myshopify.com".data <:+: m) : ¬ ".myshopify.com".data <+: m ++ ".myshopify.com".data := by
  intro hp
  by_cases hlen : ".myshopify.com".data.length ≤ m.length
  · have h1 : ".myshopify.com".data <+: m :=
      List.prefix_of_prefix_length_le hp (List.prefix_append m _) hlen
    apply hq
    obtain ⟨t, ht⟩ := h1
    exact ⟨['.'], t, by rw [← ht]; rfl⟩
  · have h1 : m <+: ".myshopify.com".data :=
      List.prefix_of_prefix_length_le (List.prefix_append m _) hp (by omega)
    have hk : m = ".myshopify.com".data.take m.length := (List.prefix_iff_eq_take.mp h1)
    have hpos : 0 < m.length := List.length_pos.mpr hm
    have hlt : m.length < 14 := by
      have : ".myshopify.com".data.length = 14 := by decide
      omega
    generalize hkk : m.length = k at hk hpos hlt
    rw [hk] at hp
    clear hk hkk hq hm h1 hlen
    interval_cases k <;> revert hp <;> decide

theorem replaceFrom_tail :
    ∀ n : List Char, ¬ "myshopify.com".data <:+: n →
      replaceFrom ".myshopify.com".data [] 0 (n ++ ".myshopify.com".data) = n := by
  intro n
  induction n with
  | nil => intro _; decide
  | cons c n ih =>
    intro hq
    have hstr := no_straddle (c :: n) (List.cons_ne_nil c n) hq
    have hq' : ¬ "myshopify.com".data <:+: n := fun h => hq (h.trans (List.infix_cons (List.infix_refl n)))
    simp only [List.cons_append] at hstr ⊢
    rw [replaceFrom]
    simp only [hstr, if_false]
    rw [ih hq']

theorem Contains_eq_false (s substr : String) :
    Contains s substr = false ↔ ¬ substr.data <:+: s.data := by
  unfold Contains
  exact decide_eq_false_iff_not

theorem ShopShortName_of_full (x n : String)
    (hfull : ShopFullName x = n ++ ".myshopify.com")
    (hc : Contains n "myshopify.com" = false) : ShopShortName x = n := by
  unfold ShopShortName Replace
  rw [hfull, String.data_append, replaceFrom_tail n.data ((Contains_eq_false _ _).mp hc)]

theorem not_Contains_dotted (n : String) (hc : Contains n "myshopify.com" = false) :
    Contains n ".myshopify.com" = false := by
  rw [Contains_eq_false] at hc ⊢
  intro h
  exact hc (List.IsInfix.trans ⟨['.'], [], by decide⟩ h)

theorem ShopFullName_clean (n : String) (hn : cleanEnds isSpaceOrDot n)
    (hc : Contains n "myshopify.com" = false) : ShopFullName n = n ++ ".myshopify.com" := by
  have h := ShopFullName_sandwich n "" "" "" "" hn hc (by simp) (by simp) (by simp) (by simp)
  simpa using h

theorem cleanEnds_full (n : String) (hne : n ≠ "") (hn : cleanEnds isSpaceOrDot n) :
    cleanEnds isSpaceOrDot (n ++ ".myshopify.com") := by
  have hdata : n.data ≠ [] := fun h => hne (String.ext h)
  constructor
  · intro c hc
    rw [String.data_append, List.head?_append_of_ne_nil _ hdata] at hc
    exact hn.1 c hc
  · intro c hc
    rw [String.data_append, List.getLast?_append] at hc
    have : ".myshopify.com".data.getLast? = some 'm' := by decide
    rw [this] at hc
    have hcm : c = 'm' := by simpa [Option.or] using hc.symm
    subst hcm
    decide

theorem Contains_full (n : String) : Contains (n ++ ".myshopify.com") "myshopify.com" = true := by
  unfold Contains
  rw [decide_eq_true_iff]
  exact ⟨n.data ++ ".".data, [], by simp [String.data_append]⟩

/-! ## Full and short shop names -/

/-- C21: the comment of line 10 promises the full shop name, including `.myshopify.com`,
but the guard of line 14 looks for `myshopify.com` without the dot: the input
"myshopify.com" is returned as it is, and the result does not contain
`.myshopify.com`. -/
theorem ShopFullName_without_dot :
    ShopFullName "myshopify.com" = "myshopify.com" ∧
    Contains (ShopFullName "myshopify.com") ".myshopify.com" = false := by
  decide

/-- For every input the result of `ShopFullName` contains `myshopify.com`; when the
trimmed input does not contain `myshopify.com`, the result is the trimmed input followed
by `.myshopify.com` and so contains `.myshopify.com`. -/
theorem ShopFullName_contains_domain (x : String) :
    Contains (ShopFullName x) "myshopify.com" = true ∧
    (Contains (Trim (TrimSpace x) ".") "myshopify.com" = false →
      ShopFullName x = Trim (TrimSpace x) "." ++ ".myshopify.com" ∧
      Contains (ShopFullName x) ".myshopify.com" = true) := by
  refine ⟨ShopFullName_contains x, fun h => ?_⟩
  have hfull : ShopFullName x = Trim (TrimSpace x) "." ++ ".myshopify.com" := by
    unfold ShopFullName
    simp only [h]
    rfl
  refine ⟨hfull, ?_⟩
  rw [hfull]
  unfold Contains
  rw [decide_eq_true_iff]
  exact ⟨(Trim (TrimSpace x) ".").data, [], by simp [String.data_append]⟩

/-- On `TestShopFullName`: "myshop" gives "myshop.myshopify.com". -/
theorem ShopFullName_contains_domain_witness :
    ShopFullName "myshop" = Trim (TrimSpace "myshop") "." ++ ".myshopify.com" ∧
    Contains (ShopFullName "myshop") ".myshopify.com" = true :=
  (ShopFullName_contains_domain "myshop").2 (by decide)

/-- C22: the comment of line 20 promises the short shop name, excluding
`.myshopify.com`, but `strings.Replace` passes over the string once, and removing an
occurrence of `.myshopify.com` can bring a new one together: the input
"a.myshopify.myshopify.com.com" gives "a.myshopify.com", which contains
`.myshopify.com`. -/
theorem ShopShortName_keeps_domain :
    ShopShortName "a.myshopify.myshopify.com.com" = "a.myshopify.com" ∧
    Contains (ShopShortName "a.myshopify.myshopify.com.com") ".myshopify.com" = true := by
  decide

/-- For every input whose full name is a name `n` without `myshopify.com` followed by
`.myshopify.com`, `ShopShortName` returns `n`, which does not contain
`.myshopify.com`. -/
theorem ShopShortName_excludes_domain (x n : String)
    (hfull : ShopFullName x = n ++ ".myshopify.com")
    (hc : Contains n "myshopify.com" = false) :
    ShopShortName x = n ∧ Contains (ShopShortName x) ".myshopify.com" = false := by
  have h := ShopShortName_of_full x n hfull hc
  exact ⟨h, by rw [h]; exact not_Contains_dotted n hc⟩

/-- On `TestShopShortName`: ".myshop.myshopify.com." gives "myshop". -/
theorem ShopShortName_excludes_domain_witness :
    ShopShortName ".myshop.myshopify.com." = "myshop" ∧
    Contains (ShopShortName ".myshop.myshopify.com.") ".myshopify.com" = false :=
  ShopShortName_excludes_domain ".myshop.myshopify.com." "myshop" (by decide) (by decide)

/-- C23: for every non-empty name `n` that neither begins nor ends with white space or a
dot and does not contain `myshopify.com`, `ShopShortName (ShopFullName n) = n` and
`ShopShortName n = n`. -/
theorem ShopShortName_undoes_ShopFullName (n : String) (hne : n ≠ "")
    (hn : cleanEnds isSpaceOrDot n) (hc : Contains n "myshopify.com" = false) :
    ShopShortName (ShopFullName n) = n ∧ ShopShortName n = n := by
  have hfull := ShopFullName_clean n hn hc
  have hfixed : ShopFullName (n ++ ".myshopify.com") = n ++ ".myshopify.com" :=
    ShopFullName_fixed _ (cleanEnds_full n hne hn) (Contains_full n)
  constructor
  · rw [hfull]
    exact ShopShortName_of_full _ n hfixed hc
  · exact ShopShortName_of_full n n hfull hc

/-- C23, on `TestShopShortName`: "myshop.myshopify.com" and "myshop" both give
"myshop". -/
theorem ShopShortName_undoes_ShopFullName_witness :
    ShopShortName (ShopFullName "myshop") = "myshop" ∧ ShopShortName "myshop" = "myshop" ∧
    ShopFullName "myshop" = "myshop.myshopify.com" ∧
    ShopShortName "myshop.myshopify.com" = "myshop" :=
  ⟨(ShopShortName_undoes_ShopFullName "myshop" (by decide)
      (cleanEnds_of_check _ _ (by decide) (by decide)) (by decide)).1,
   (ShopShortName_undoes_ShopFullName "myshop" (by decide)
      (cleanEnds_of_check _ _ (by decide) (by decide)) (by decide)).2,
   by decide, by decide⟩

/-! ## Auxiliary facts about dates -/

theorem digitVal_digitChar (k : Nat) (hk : k < 10) : digitVal (digitChar k) = some k := by
  interval_cases k <;> rfl

theorem digitVal_inv (c : Char) (k : Nat) (h : digitVal c = some k) :
    k < 10 ∧ c = digitChar k := by
  unfold digitVal at h
  by_cases h0 : c = '0'
  · rw [if_pos h0] at h
    cases h
    exact ⟨by decide, h0⟩
  rw [if_neg h0] at h
  by_cases h1 : c = '1'
  · rw [if_pos h1] at h
    cases h
    exact ⟨by decide, h1⟩
  rw [if_neg h1] at h
  by_cases h2 : c = '2'
  · rw [if_pos h2] at h
    cases h
    exact ⟨by decide, h2⟩
  rw [if_neg h2] at h
  by_cases h3 : c = '3'
  · rw [if_pos h3] at h
    cases h
    exact ⟨by decide, h3⟩
  rw [if_neg h3] at h
  by_cases h4 : c = '4'
  · rw [if_pos h4] at h
    cases h
    exact ⟨by decide, h4⟩
  rw [if_neg h4] at h
  by_cases h5 : c = '5'
  · rw [if_pos h5] at h
    cases h
    exact ⟨by decide, h5⟩
  rw [if_neg h5] at h
  by_cases h6 : c = '6'
  · rw [if_pos h6] at h
    cases h
    exact ⟨by decide, h6⟩
  rw [if_neg h6] at h
  by_cases h7 : c = '7'
  · rw [if_pos h7] at h
    cases h
    exact ⟨by decide, h7⟩
  rw [if_neg h7] at h
  by_cases h8 : c = '8'
  · rw [if_pos h8] at h
    cases h
    exact ⟨by decide, h8⟩
  rw [if_neg h8] at h
  by_cases h9 : c = '9'
  · rw [if_pos h9] at h
    cases h
    exact ⟨by decide, h9⟩
  rw [if_neg h9] at h
  cases h

theorem twoDigits_digitChar (x y : Nat) (hx : x < 10) (hy : y < 10) :
    twoDigits (digitChar x) (digitChar y) = some (10 * x + y) := by
  simp [twoDigits, digitVal_digitChar x hx, digitVal_digitChar y hy]

theorem twoDigits_inv (a b : Char) (n : Nat) (h : twoDigits a b = some n) :
    ∃ x y, x < 10 ∧ y < 10 ∧ a = digitChar x ∧ b = digitChar y ∧ n = 10 * x + y := by
  unfold twoDigits at h
  cases ha : digitVal a with
  | none => simp [ha] at h
  | some x =>
    cases hb : digitVal b with
    | none => simp [ha, hb] at h
    | some y =>
      simp only [ha, hb, Option.some.injEq] at h
      obtain ⟨hx, hax⟩ := digitVal_inv a x ha
      obtain ⟨hy, hby⟩ := digitVal_inv b y hb
      exact ⟨x, y, hx, hy, hax, hby, h.symm⟩

theorem digitChar_ne_quote (k : Nat) : (digitChar k == '"') = false := by
  unfold digitChar
  split <;> decide

theorem decimal_small (f n : Nat) (h : n < 10) : decimal (f + 1) n = [digitChar n] := by
  simp [decimal, h]

theorem decimal_big (f n : Nat) (h : 10 ≤ n) :
    decimal (f + 1) n = decimal f (n / 10) ++ [digitChar (n % 10)] := by
  simp [decimal, Nat.not_lt.mpr h]

theorem digitChar_zero : digitChar 0 = '0' := rfl

theorem appendInt_two (n : Nat) (hn : n < 100) :
    appendInt (n : Int) 2 = [digitChar (n / 10), digitChar (n % 10)] := by
  have hneg : ¬ ((n : Int) < 0) := by omega
  unfold appendInt
  simp only [hneg, if_false, Int.natAbs_ofNat, List.nil_append]
  by_cases h : n < 10
  · rw [show (20 : Nat) = 19 + 1 from rfl, decimal_small 19 n h]
    have h1 : n / 10 = 0 := by omega
    have h2 : n % 10 = n := by omega
    rw [h1, h2]
    rfl
  · rw [show (20 : Nat) = 19 + 1 from rfl, decimal_big 19 n (by omega),
      show (19 : Nat) = 18 + 1 from rfl, decimal_small 18 (n / 10) (by omega)]
    rfl

theorem appendInt_four (n : Nat) (hn : n < 10000) :
    appendInt (n : Int) 4 =
      [digitChar (n / 1000), digitChar (n / 100 % 10), digitChar (n / 10 % 10),
       digitChar (n % 10)] := by
  have hneg : ¬ ((n : Int) < 0) := by omega
  unfold appendInt
  simp only [hneg, if_false, Int.natAbs_ofNat, List.nil_append]
  by_cases h1 : n < 10
  · rw [show (20 : Nat) = 19 + 1 from rfl, decimal_small 19 n h1]
    rw [show n / 1000 = 0 by omega, show n / 100 % 10 = 0 by omega,
      show n / 10 % 10 = 0 by omega, show n % 10 = n by omega]
    rfl
  · by_cases h2 : n < 100
    · rw [show (20 : Nat) = 19 + 1 from rfl, decimal_big 19 n (by omega),
        show (19 : Nat) = 18 + 1 from rfl, decimal_small 18 (n / 10) (by omega)]
      rw [show n / 1000 = 0 by omega, show n / 100 % 10 = 0 by omega,
        show n / 10 % 10 = n / 10 by omega]
      rfl
    · by_cases h3 : n < 1000
      · rw [show (20 : Nat) = 19 + 1 from rfl, decimal_big 19 n (by omega),
          show (19 : Nat) = 18 + 1 from rfl, decimal_big 18 (n / 10) (by omega),
          show (18 : Nat) = 17 + 1 from rfl, decimal_small 17 (n / 10 / 10) (by omega)]
        rw [show n / 1000 = 0 by omega, show n / 100 % 10 = n / 10 / 10 by omega]
        rfl
      · rw [show (20 : Nat) = 19 + 1 from rfl, decimal_big 19 n (by omega),
          show (19 : Nat) = 18 + 1 from rfl, decimal_big 18 (n / 10) (by omega),
          show (18 : Nat) = 17 + 1 from rfl, decimal_big 17 (n / 10 / 10) (by omega),
          show (17 : Nat) = 16 + 1 from rfl, decimal_small 16 (n / 10 / 10 / 10) (by omega)]
        rw [show n / 1000 = n / 10 / 10 / 10 by omega,
          show n / 100 % 10 = n / 10 / 10 % 10 by omega]
        rfl

theorem daysIn_le (m : Nat) (y : Int) : daysIn m y ≤ 31 := by
  unfold daysIn
  split_ifs <;> omega

/-- The rendering of a date with a year of at most four digits. -/
theorem Format_eq_writtenDate (t : Time) (hv : t.valid) (y : Nat) (hy : t.Year = (y : Int))
    (h9999 : y ≤ 9999) : t.Format = writtenDate y t.Month t.Day := by
  obtain ⟨_, hm, _, hd⟩ := hv
  have hd31 := daysIn_le t.Month t.Year
  unfold Time.Format writtenDate
  rw [hy, appendInt_four y (by omega), appendInt_two t.Month (by omega),
    appendInt_two t.Day (by omega)]
  rfl

/-- Parsing a written date gives midnight UTC of that date. -/
theorem timeParse_writtenDate (y m d : Nat) (hy : y ≤ 9999) (hm1 : 1 ≤ m) (hm : m ≤ 12)
    (hd1 : 1 ≤ d) (hd : d ≤ daysIn m (y : Int)) :
    timeParse (writtenDate y m d) =
      .ok { Year := (y : Int), Month := m, Day := d, clock := 0, location := "UTC" } := by
  have hd31 := daysIn_le m (y : Int)
  have e1 : 100 * (10 * (y / 1000) + y / 100 % 10) + (10 * (y / 10 % 10) + y % 10) = y := by
    omega
  have e2 : 10 * (m / 10) + m % 10 = m := by omega
  have e3 : 10 * (d / 10) + d % 10 = d := by omega
  unfold timeParse writtenDate
  simp only [twoDigits_digitChar (y / 1000) (y / 100 % 10) (by omega) (by omega),
    twoDigits_digitChar (y / 10 % 10) (y % 10) (by omega) (by omega),
    twoDigits_digitChar (m / 10) (m % 10) (by omega) (by omega),
    twoDigits_digitChar (d / 10) (d % 10) (by omega) (by omega), e1, e2, e3]
  simp [hm1, hm, hd1, hd]

/-- What `time.Parse` accepts is a written date. -/
theorem timeParse_ok_inv (value : String) (t : Time) (h : timeParse value = .ok t) :
    ∃ y m d : Nat, y ≤ 9999 ∧ 1 ≤ m ∧ m ≤ 12 ∧ 1 ≤ d ∧ d ≤ daysIn m (y : Int) ∧
      value = writtenDate y m d ∧
      t = { Year := (y : Int), Month := m, Day := d, clock := 0, location := "UTC" } := by
  unfold timeParse at h
  split at h
  · rename_i y1 y2 y3 y4 s1 m1 m2 s2 d1 d2 hdata
    split at h
    · rename_i hi lo month day hhi hlo hmonth hday
      split_ifs at h with hc
      simp only [Except.ok.injEq] at h
      obtain ⟨hs1, hs2, hm1, hm12, hd1, hdmax⟩ := hc
      obtain ⟨a, b, ha, hb, ea, eb, ehi⟩ := twoDigits_inv _ _ _ hhi
      obtain ⟨c, d, hc', hd', ec, ed, elo⟩ := twoDigits_inv _ _ _ hlo
      obtain ⟨e, f, he, hf, ee, ef, emonth⟩ := twoDigits_inv _ _ _ hmonth
      obtain ⟨g, k, hg, hk, eg, ek, eday⟩ := twoDigits_inv _ _ _ hday
      refine ⟨100 * hi + lo, month, day, by omega, hm1, hm12, hd1, hdmax, ?_, h.symm⟩
      apply String.ext
      rw [hdata]
      unfold writtenDate
      simp only
      rw [show (100 * hi + lo) / 1000 = a by omega, show (100 * hi + lo) / 100 % 10 = b by omega,
        show (100 * hi + lo) / 10 % 10 = c by omega, show (100 * hi + lo) % 10 = d by omega,
        show month / 10 = e by omega, show month % 10 = f by omega,
        show day / 10 = g by omega, show day % 10 = k by omega,
        ea, eb, ec, ed, ee, ef, eg, ek, hs1, hs2]
    · simp at h
  · simp at h

theorem cutset_quote (c : Char) : ("\"".data.contains c) = (c == '"') := by
  cases h : c == '"' <;> simp [List.contains, List.elem, h]

theorem Trim_quoted (s : String)
    (hhead : ∀ c, s.data.head? = some c → (c == '"') = false)
    (hlast : ∀ c, s.data.getLast? = some c → (c == '"') = false) :
    Trim ("\"" ++ s ++ "\"") "\"" = s := by
  unfold Trim
  have h := trimBoth_sandwich (fun c => "\"".data.contains c) "\"".data s.data "\"".data
    (fun c hc => by
      show "\"".data.contains c = true
      have : c = '"' := by simpa using hc
      rw [cutset_quote, this]; rfl)
    (fun c hc => by
      show "\"".data.contains c = true
      have : c = '"' := by simpa using hc
      rw [cutset_quote, this]; rfl)
    (fun c hc => by
      show "\"".data.contains c = false
      rw [cutset_quote]; exact hhead c hc)
    (fun c hc => by
      show "\"".data.contains c = false
      rw [cutset_quote]; exact hlast c hc)
  simp only [String.data_append, h]

theorem Trim_quoted_writtenDate (y m d : Nat) :
    Trim ("\"" ++ writtenDate y m d ++ "\"") "\"" = writtenDate y m d := by
  apply Trim_quoted
  · intro c hc
    simp only [writtenDate, List.head?_cons, Option.some.injEq] at hc
    rw [← hc]; exact digitChar_ne_quote _
  · intro c hc
    simp only [writtenDate, List.getLast?_cons_cons, List.getLast?_singleton,
      Option.some.injEq] at hc
    rw [← hc]; exact digitChar_ne_quote _

theorem writtenDate_ne (y m d : Nat) :
    ¬ (writtenDate y m d = "" ∨ writtenDate y m d = "null") := by
  intro h
  rcases h with h | h
  · have := congrArg (fun s : String => s.data.length) h
    simp [writtenDate] at this
  · have := congrArg (fun s : String => s.data.length) h
    simp [writtenDate] at this

/-- Decoding a quoted written date gives midnight UTC of that date. -/
theorem UnmarshalJSON_written (c : OnlyDate) (y m d : Nat) (hy : y ≤ 9999) (hm1 : 1 ≤ m)
    (hm : m ≤ 12) (hd1 : 1 ≤ d) (hd : d ≤ daysIn m (y : Int)) :
    c.UnmarshalJSON ("\"" ++ writtenDate y m d ++ "\"") =
      (⟨{ Year := (y : Int), Month := m, Day := d, clock := 0, location := "UTC" }⟩, none) := by
  unfold OnlyDate.UnmarshalJSON
  simp only [Trim_quoted_writtenDate, writtenDate_ne, if_false,
    timeParse_writtenDate y m d hy hm1 hm hd1 hd]

theorem String_of_written (t : Time) (hv : t.valid) (y : Nat) (hy : t.Year = (y : Int))
    (h9999 : y ≤ 9999) :
    (OnlyDate.mk t).String = "\"" ++ writtenDate y t.Month t.Day ++ "\"" := by
  unfold OnlyDate.String
  rw [Format_eq_writtenDate t hv y hy h9999]

/-! ## `OnlyDate` -/

/-- C24: decoding undoes encoding: for every `OnlyDate` with a year of at most four
digits, `UnmarshalJSON` applied to the bytes of `MarshalJSON` returns nil and leaves a
value with the same `String()`; and for every valid calendar date written `YYYY-MM-DD`
between double quotes, the value `UnmarshalJSON` decodes renders back to exactly that
input. -/
theorem OnlyDate_decoding_undoes_encoding :
    (∀ (d c : OnlyDate), d.Time.valid → 0 ≤ d.Time.Year → d.Time.Year ≤ 9999 →
      (c.UnmarshalJSON d.MarshalJSON.1).2 = none ∧
      (c.UnmarshalJSON d.MarshalJSON.1).1.String = d.String) ∧
    (∀ (c : OnlyDate) (y m d : Nat), y ≤ 9999 → 1 ≤ m → m ≤ 12 → 1 ≤ d →
      d ≤ daysIn m (y : Int) →
      (c.UnmarshalJSON ("\"" ++ writtenDate y m d ++ "\"")).2 = none ∧
      (c.UnmarshalJSON ("\"" ++ writtenDate y m d ++ "\"")).1.String
        = "\"" ++ writtenDate y m d ++ "\"") := by
  have second : ∀ (c : OnlyDate) (y m d : Nat), y ≤ 9999 → 1 ≤ m → m ≤ 12 → 1 ≤ d →
      d ≤ daysIn m (y : Int) →
      (c.UnmarshalJSON ("\"" ++ writtenDate y m d ++ "\"")).2 = none ∧
      (c.UnmarshalJSON ("\"" ++ writtenDate y m d ++ "\"")).1.String
        = "\"" ++ writtenDate y m d ++ "\"" := by
    intro c y m d hy hm1 hm hd1 hd
    rw [UnmarshalJSON_written c y m d hy hm1 hm hd1 hd]
    exact ⟨rfl, String_of_written _ ⟨hm1, hm, hd1, hd⟩ y rfl hy⟩
  refine ⟨?_, second⟩
  intro d c hv h0 h9999
  obtain ⟨y, hy⟩ : ∃ y : Nat, d.Time.Year = (y : Int) := ⟨d.Time.Year.toNat, by omega⟩
  have hstr : d.String = "\"" ++ writtenDate y d.Time.Month d.Time.Day ++ "\"" :=
    String_of_written d.Time hv y hy (by omega)
  have hv' : 1 ≤ d.Time.Month ∧ d.Time.Month ≤ 12 ∧ 1 ≤ d.Time.Day ∧
      d.Time.Day ≤ daysIn d.Time.Month (y : Int) := by rw [← hy]; exact hv
  show (c.UnmarshalJSON d.String).2 = none ∧ (c.UnmarshalJSON d.String).1.String = d.String
  rw [hstr]
  exact second c y d.Time.Month d.Time.Day (by omega) hv'.1 hv'.2.1 hv'.2.2.1 hv'.2.2.2

/-- C24, on `TestOnlyDateUnmarshal` and `TestOnlyDateMarshal`: March 31, 2023 and the
zero date. -/
theorem OnlyDate_decoding_undoes_encoding_witness :
    ((OnlyDate.mk zeroTime).UnmarshalJSON march31.MarshalJSON.1).1.String = march31.String ∧
    march31.String = "\"2023-03-31\"" ∧
    (march31.UnmarshalJSON ("\"" ++ writtenDate 1 1 1 ++ "\"")).1.String
      = "\"" ++ writtenDate 1 1 1 ++ "\"" ∧
    "\"" ++ writtenDate 1 1 1 ++ "\"" = "\"0001-01-01\"" :=
  ⟨(OnlyDate_decoding_undoes_encoding.1 march31 ⟨zeroTime⟩
      (by unfold Time.valid; decide) (by decide) (by decide)).2,
   by decide,
   (OnlyDate_decoding_undoes_encoding.2 march31 1 1 1 (by decide) (by decide) (by decide)
      (by decide) (by decide)).2,
   by decide⟩

/-- C25: both encodings of an `OnlyDate` produce its `String()`, the calendar day between
double quotes: `MarshalJSON` returns exactly the bytes of `String()` and a nil error;
`EncodeValues` returns nil and appends `String()` to the values of the key, leaving every
other key unchanged; for a year of at most four digits `String()` is the day written
`YYYY-MM-DD` between double quotes. -/
theorem OnlyDate_wire_form (d : OnlyDate) (key : String) (v : Values) :
    d.MarshalJSON = (d.String, none) ∧
    (d.EncodeValues key v).2 = none ∧
    (d.EncodeValues key v).1 key = v key ++ [d.String] ∧
    (∀ k, k ≠ key → (d.EncodeValues key v).1 k = v k) ∧
    d.String = "\"" ++ d.Time.Format ++ "\"" ∧
    (∀ y : Nat, d.Time.valid → d.Time.Year = (y : Int) → y ≤ 9999 →
      d.String = "\"" ++ writtenDate y d.Time.Month d.Time.Day ++ "\"") := by
  refine ⟨rfl, rfl, ?_, ?_, rfl, fun y hv hy h9999 => String_of_written d.Time hv y hy h9999⟩
  · simp [OnlyDate.EncodeValues, Values.Add]
  · intro k hk
    simp [OnlyDate.EncodeValues, Values.Add, hk]

/-- C25, on `TestOnlyDateMarshal` and `TestOnlyDateEncode`: March 31, 2023 gives
`"2023-03-31"` and the zero value gives `"0001-01-01"`, quotes included. -/
theorem OnlyDate_wire_form_witness :
    march31.MarshalJSON = ("\"2023-03-31\"", none) ∧
    (OnlyDate.mk zeroTime).MarshalJSON = ("\"0001-01-01\"", none) ∧
    (march31.EncodeValues "date" (fun _ => [])).1 "date" = ["\"2023-03-31\""] ∧
    march31.String = "\"" ++ writtenDate 2023 3 31 ++ "\"" :=
  ⟨by decide, by decide, by decide,
   (OnlyDate_wire_form march31 "date" (fun _ => [])).2.2.2.2.2 2023
      (by unfold Time.valid; decide) rfl (by decide)⟩

/-- C26: when the input without its surrounding double quotes is empty or the text
`null`, `UnmarshalJSON` returns nil and sets the receiver to the zero date, which renders
as `"0001-01-01"`, whatever the receiver held before. -/
theorem UnmarshalJSON_empty_or_null (c : OnlyDate) (b : String)
    (h : Trim b "\"" = "" ∨ Trim b "\"" = "null") :
    c.UnmarshalJSON b = (⟨zeroTime⟩, none) ∧
    (c.UnmarshalJSON b).1.String = "\"0001-01-01\"" := by
  have hres : c.UnmarshalJSON b = (⟨zeroTime⟩, none) := by
    unfold OnlyDate.UnmarshalJSON
    simp only [h, if_true]
  refine ⟨hres, ?_⟩
  rw [hres]
  decide

/-- C26, on the inputs `""` (two quotes) and `null`, with March 31, 2023 held before. -/
theorem UnmarshalJSON_empty_or_null_witness :
    march31.UnmarshalJSON "\"\"" = (⟨zeroTime⟩, none) ∧
    march31.UnmarshalJSON "null" = (⟨zeroTime⟩, none) :=
  ⟨(UnmarshalJSON_empty_or_null march31 "\"\"" (Or.inl (by decide))).1,
   (UnmarshalJSON_empty_or_null march31 "null" (Or.inr (by decide))).1⟩

/-- The error of `UnmarshalJSON` is non-nil exactly on a bad date, whatever the receiver
holds. -/
theorem UnmarshalJSON_error_iff (c : OnlyDate) (b : String) :
    (c.UnmarshalJSON b).2 ≠ none ↔ badDate b := by
  unfold badDate
  by_cases hzero : Trim b "\"" = "" ∨ Trim b "\"" = "null"
  · have hres : c.UnmarshalJSON b = (⟨zeroTime⟩, none) := by
      unfold OnlyDate.UnmarshalJSON
      simp only [hzero, if_true]
    rw [hres]
    constructor
    · intro h; exact absurd rfl h
    · intro h
      rcases hzero with h0 | h0
      · exact absurd h0 h.1
      · exact absurd h0 h.2.1
  · have hne : Trim b "\"" ≠ "" ∧ Trim b "\"" ≠ "null" := by
      constructor
      · exact fun h => hzero (Or.inl h)
      · exact fun h => hzero (Or.inr h)
    cases hp : timeParse (Trim b "\"") with
    | error err =>
      have hres : c.UnmarshalJSON b = (c, some err) := by
        unfold OnlyDate.UnmarshalJSON
        simp only [hzero, if_false, hp]
      rw [hres]
      refine ⟨fun _ => ⟨hne.1, hne.2, ?_⟩, fun _ => by simp⟩
      rintro ⟨y, m, d, hy, hm1, hm, hd1, hd, hval⟩
      rw [hval, timeParse_writtenDate y m d hy hm1 hm hd1 hd] at hp
      cases hp
    | ok t =>
      have hres : c.UnmarshalJSON b = (⟨t⟩, none) := by
        unfold OnlyDate.UnmarshalJSON
        simp only [hzero, if_false, hp]
      rw [hres]
      obtain ⟨y, m, d, hy, hm1, hm, hd1, hd, hval, _⟩ := timeParse_ok_inv _ t hp
      refine ⟨fun h => absurd rfl h, fun h => ?_⟩
      exact absurd ⟨y, m, d, hy, hm1, hm, hd1, hd, hval⟩ h.2.2

/-- Decoding the dates of a list fails as soon as one of them is bad. -/
theorem decodeDates_error (dates : List String) :
    (∃ b, b ∈ dates ∧ badDate b) → ∃ err, decodeDates dates = .error err := by
  induction dates with
  | nil => rintro ⟨b, hb, _⟩; cases hb
  | cons a rest ih =>
    rintro ⟨b, hb, hbad⟩
    rw [decodeDates]
    generalize hu : (OnlyDate.mk zeroTime).UnmarshalJSON a = u
    obtain ⟨date, e⟩ := u
    cases e with
    | some err => exact ⟨err, rfl⟩
    | none =>
      have hgood : ¬ badDate a := by
        intro ha
        have := (UnmarshalJSON_error_iff ⟨zeroTime⟩ a).mpr ha
        rw [hu] at this
        exact this rfl
      have hrest : ∃ b, b ∈ rest ∧ badDate b := by
        rcases List.mem_cons.mp hb with h | h
        · subst h; exact absurd hbad hgood
        · exact ⟨b, h, hbad⟩
      obtain ⟨err, herr⟩ := ih hrest
      exact ⟨err, by simp only [herr]⟩

/-- A list response with a bad date makes both list operations return an error and no
items. -/
theorem List_of_bad_date (dates : List String) (lib : LinkLib) (linkHeader : String)
    (h : ∃ b, b ∈ dates ∧ badDate b) :
    ∃ err,
      PayoutsServiceOp.List (Client.ListWithPagination lib (decodedListCall dates linkHeader))
        = (none, some err) ∧
      PaymentsTransactionsServiceOp.List
        (Client.ListWithPagination lib (decodedListCall dates linkHeader)) = (none, some err) := by
  obtain ⟨err, herr⟩ := decodeDates_error dates h
  refine ⟨err, ?_, ?_⟩
  · simp [PayoutsServiceOp.List, PayoutsServiceOp.ListWithPagination,
      Client.ListWithPagination, decodedListCall, herr]
  · simp [PaymentsTransactionsServiceOp.List, PaymentsTransactionsServiceOp.ListWithPagination,
      Client.ListWithPagination, decodedListCall, herr]

/-- C27: `UnmarshalJSON` returns a non-nil error exactly when the input without its
surrounding double quotes is neither empty, nor the text `null`, nor a valid calendar
date written `YYYY-MM-DD`; and a list response in which the date of some item is such an
input makes `List` of the payouts and of the payments transactions return a non-nil
error and no items, whatever the other items and the Link header are. -/
theorem UnmarshalJSON_rejects_bad_date (c : OnlyDate) (b : String) :
    ((c.UnmarshalJSON b).2 ≠ none ↔
      (Trim b "\"" ≠ "" ∧ Trim b "\"" ≠ "null" ∧ ¬ isWrittenDate (Trim b "\""))) ∧
    ((c.UnmarshalJSON b).2 ≠ none →
      ∀ (dates : List String) (lib : LinkLib) (linkHeader : String), b ∈ dates →
        ∃ err,
          PayoutsServiceOp.List
            (Client.ListWithPagination lib (decodedListCall dates linkHeader))
            = (none, some err) ∧
          PaymentsTransactionsServiceOp.List
            (Client.ListWithPagination lib (decodedListCall dates linkHeader))
            = (none, some err)) :=
  ⟨UnmarshalJSON_error_iff c b, fun herr dates lib linkHeader hb =>
    List_of_bad_date dates lib linkHeader ⟨b, hb, (UnmarshalJSON_error_iff c b).mp herr⟩⟩

/-- C27, on the response of `TestPayoutsListIncorrectDate`, one item with the date
`20-02-2`: the error of `UnmarshalJSON` is non-nil, the text is not a valid calendar date
written `YYYY-MM-DD`, and `List` returns an error and no items. -/
theorem UnmarshalJSON_rejects_bad_date_witness :
    (march31.UnmarshalJSON "\"20-02-2\"").2 ≠ none ∧
    ¬ isWrittenDate (Trim "\"20-02-2\"" "\"") ∧
    ∃ err,
      PayoutsServiceOp.List
        (Client.ListWithPagination testLib (decodedListCall ["\"20-02-2\""] ""))
        = (none, some err) ∧
      PaymentsTransactionsServiceOp.List
        (Client.ListWithPagination testLib (decodedListCall ["\"20-02-2\""] ""))
        = (none, some err) :=
  ⟨by decide,
   (((UnmarshalJSON_rejects_bad_date march31 "\"20-02-2\"").1).mp (by decide)).2.2,
   (UnmarshalJSON_rejects_bad_date march31 "\"20-02-2\"").2 (by decide)
     ["\"20-02-2\""] testLib "" (List.mem_singleton.mpr rfl)⟩

/-- C30: `UnmarshalJSON` is atomic on failure: whenever it returns a non-nil error, the
receiver is exactly what it was before the call. -/
theorem UnmarshalJSON_atomic (c : OnlyDate) (b : String)
    (herr : (c.UnmarshalJSON b).2 ≠ none) : (c.UnmarshalJSON b).1 = c := by
  unfold OnlyDate.UnmarshalJSON at herr ⊢
  by_cases hzero : Trim b "\"" = "" ∨ Trim b "\"" = "null"
  · simp only [hzero, if_true] at herr
    exact absurd rfl herr
  · cases hp : timeParse (Trim b "\"") with
    | error err => simp only [hzero, if_false, hp]
    | ok t =>
      simp only [hzero, if_false, hp] at herr
      exact absurd rfl herr

/-- C30, on the bad date `20-02-2` with March 31, 2023 held before. -/
theorem UnmarshalJSON_atomic_witness :
    (march31.UnmarshalJSON "\"20-02-2\"").1 = march31 :=
  UnmarshalJSON_atomic march31 "\"20-02-2\"" (by decide)

/-! ## Sign of the wait and bound of the attempts -/

theorem RetryAfterSeconds_cases (c : GraphQLCost) :
    c.RetryAfterSeconds =
      if c.ThrottleStatus.CurrentlyAvailable - specCost c < 0 then
        (specCost c - c.ThrottleStatus.CurrentlyAvailable) / c.ThrottleStatus.RestoreRate
      else 0 := by
  unfold GraphQLCost.RetryAfterSeconds specCost
  cases c.ActualQueryCost <;> simp

theorem longWaitCost_secs : longWaitCost.RetryAfterSeconds = 10000000000 := by
  norm_num [GraphQLCost.RetryAfterSeconds, longWaitCost]

/-- C28, as stated, fails for the hint and for the sleep. With restore rate one half and
a computed wait of `10^19` seconds the `RetryAfter` hint is the smallest `int`, a
negative number; with restore rate 1 and a computed wait of ten billion seconds the
duration handed to `time.Sleep` is negative. -/
theorem sleep_negative_on_long_wait :
    (0 < hugeWaitCost.ThrottleStatus.RestoreRate ∧
      hugeWaitCost.RetryAfterSeconds = 10000000000000000000 ∧
      ceilSeconds hugeWaitCost.RetryAfterSeconds = -9223372036854775808 ∧
      ceilSeconds hugeWaitCost.RetryAfterSeconds < 0) ∧
    (0 < longWaitCost.ThrottleStatus.RestoreRate ∧
      longWaitCost.RetryAfterSeconds = 10000000000 ∧
      waitDuration longWaitCost.RetryAfterSeconds = -8446744073709551616 ∧
      waitDuration longWaitCost.RetryAfterSeconds < 0) := by
  refine ⟨⟨by norm_num [hugeWaitCost], hugeWaitCost_secs, ?_, ?_⟩,
    ⟨by norm_num [longWaitCost], longWaitCost_secs, ?_, ?_⟩⟩
  · rw [hugeWaitCost_secs, ceilSeconds_huge]
  · rw [hugeWaitCost_secs, ceilSeconds_huge]; decide
  · rw [longWaitCost_secs, waitDuration_long]
  · rw [longWaitCost_secs, waitDuration_long]; decide

/-- C28, amended: with a positive restore rate `RetryAfterSeconds` is never negative, it
is 0 exactly when the currently available points cover the effective cost and positive
otherwise; the `RetryAfter` hint is non-negative and not below the computed wait whenever
the ceiling of the wait is representable as an `int`, and so is the sleep whenever
`ceil(wait)` seconds fit a `time.Duration`. -/
theorem RetryAfterSeconds_nonneg (c : GraphQLCost)
    (hrate : 0 < c.ThrottleStatus.RestoreRate) :
    0 ≤ c.RetryAfterSeconds ∧
    (c.RetryAfterSeconds = 0 ↔ specCost c ≤ c.ThrottleStatus.CurrentlyAvailable) ∧
    (¬ specCost c ≤ c.ThrottleStatus.CurrentlyAvailable → 0 < c.RetryAfterSeconds) ∧
    (intFits c.RetryAfterSeconds →
      0 ≤ ceilSeconds c.RetryAfterSeconds ∧
      c.RetryAfterSeconds ≤ (ceilSeconds c.RetryAfterSeconds : ℚ)) ∧
    (durationFits c.RetryAfterSeconds →
      0 ≤ waitDuration c.RetryAfterSeconds ∧
      c.RetryAfterSeconds * 1000000000 ≤ (waitDuration c.RetryAfterSeconds : ℚ)) := by
  have hpos : ¬ specCost c ≤ c.ThrottleStatus.CurrentlyAvailable → 0 < c.RetryAfterSeconds := by
    intro h
    rw [RetryAfterSeconds_cases, if_pos (by linarith [not_le.mp h])]
    exact div_pos (by linarith [not_le.mp h]) hrate
  have hzero : specCost c ≤ c.ThrottleStatus.CurrentlyAvailable → c.RetryAfterSeconds = 0 := by
    intro h
    rw [RetryAfterSeconds_cases, if_neg (by linarith)]
  have hnonneg : 0 ≤ c.RetryAfterSeconds := by
    by_cases h : specCost c ≤ c.ThrottleStatus.CurrentlyAvailable
    · rw [hzero h]
    · exact le_of_lt (hpos h)
  have hceil : (0 : Int) ≤ ⌈c.RetryAfterSeconds⌉ := Int.ceil_nonneg hnonneg
  have hle : c.RetryAfterSeconds ≤ ((⌈c.RetryAfterSeconds⌉ : Int) : ℚ) := Int.le_ceil _
  refine ⟨hnonneg, ⟨fun h => ?_, hzero⟩, hpos, fun hfit => ?_, fun hfit => ?_⟩
  · by_contra hn
    exact absurd h (ne_of_gt (hpos hn))
  · rw [ceilSeconds_of_fits _ hfit]
    exact ⟨hceil, hle⟩
  · rw [waitDuration_of_fits _ hfit]
    constructor
    · exact mul_nonneg hceil (by decide)
    · have : ((⌈c.RetryAfterSeconds⌉ * timeSecond : Int) : ℚ)
          = ((⌈c.RetryAfterSeconds⌉ : Int) : ℚ) * 1000000000 := by
        simp [timeSecond]
      rw [this]
      exact mul_le_mul_of_nonneg_right hle (by norm_num)

/-- C28, amended, on the cost of the throttled test response: a wait of 2 seconds, a hint
of 2 and a sleep of two seconds. -/
theorem RetryAfterSeconds_nonneg_witness :
    0 ≤ testCost.RetryAfterSeconds ∧ 0 < testCost.RetryAfterSeconds ∧
    0 ≤ ceilSeconds testCost.RetryAfterSeconds ∧
    0 ≤ waitDuration testCost.RetryAfterSeconds := by
  have h := RetryAfterSeconds_nonneg testCost (by norm_num [testCost])
  have hceil : (⌈(2 : ℚ)⌉ : Int) = 2 := by simp
  refine ⟨h.1, h.2.2.1 (by norm_num [specCost, testCost]), (h.2.2.2.1 ?_).1,
    (h.2.2.2.2 ?_).1⟩
  · rw [testCost_retryAfterSeconds]
    unfold intFits
    rw [hceil]
    decide
  · rw [testCost_retryAfterSeconds]
    exact durationFits_two

/-- C29: `Query` always returns, after at least one and at most `max(1, retries)`
executor calls and at most `max(0, retries - 1)` sleeps, for every configured retries
value and every sequence of executor responses; with `retries <= 1` a throttled first
response is returned as a `RateLimitError` at once, without a sleep. -/
theorem Query_bounded (retries : Int) (exec : Nat → PostResult) (limits : RateLimitInfo) :
    ∃ o, Query retries exec limits = some o ∧
      1 ≤ o.attempts ∧ (o.attempts : Int) ≤ max 1 retries ∧
      o.trace.countP Effect.isPost = o.attempts ∧
      ((o.trace.countP Effect.isSleep : Nat) : Int) ≤ max 0 (retries - 1) ∧
      (retries ≤ 1 → (exec 0).gr.throttled = true →
        o.attempts = 1 ∧ o.trace = [.post 0] ∧ ∃ rle, o.err = some (.rateLimit rle)) := by
  obtain ⟨o, hQ⟩ := Query_total retries exec limits
  obtain ⟨k, hk1, hk2, hk3, hk4⟩ := queryLoop_decompose retries exec _ 0 limits [] o hQ
  have hklt : k = 0 ∨ (k : Int) < retries := by
    rcases Nat.eq_zero_or_pos k with h0 | hpos
    · exact Or.inl h0
    · have := (hk2 (k - 1) (by omega)).2
      exact Or.inr (by push_cast at this; omega)
  have hposts : o.trace.countP Effect.isPost = k + 1 := by
    rw [hk3]
    simp only [List.nil_append, List.countP_append, countP_isPost_retrySteps]
    simp [List.countP_cons, Effect.isPost]
  have hsleeps : o.trace.countP Effect.isSleep = k := by
    rw [hk3]
    simp only [List.nil_append, List.countP_append, countP_isSleep_retrySteps]
    simp [List.countP_cons, Effect.isSleep]
  have hm1 : (1 : Int) ≤ max 1 retries := le_max_left _ _
  have hm2 : retries ≤ max 1 retries := le_max_right _ _
  have hm3 : (0 : Int) ≤ max 0 (retries - 1) := le_max_left _ _
  have hm4 : retries - 1 ≤ max 0 (retries - 1) := le_max_right _ _
  refine ⟨o, hQ, by omega, ?_, by omega, ?_, ?_⟩
  · generalize max 1 retries = M at hm1 hm2 ⊢
    omega
  · rw [hsleeps]
    generalize max 0 (retries - 1) = M at hm3 hm4 ⊢
    omega
  · intro hle hthr
    have hk0 : k = 0 := by
      rcases hklt with h0 | hlt
      · exact h0
      · omega
    subst hk0
    have hthr' : (exec (0 + 0)).gr.throttled = true := hthr
    obtain ⟨_, e, _, herr⟩ := queryAttempt_done_throttled_inv _ _ _ _ _ _ hk4 hthr'
    exact ⟨by omega, by rw [hk3]; simp [retrySteps], _, herr⟩

/-- C29, with zero and with negative retries on the throttled test response: one call,
no sleep, a `RateLimitError`. -/
theorem Query_bounded_witness :
    (∃ o, Query 0 (fun _ => throttledResponse) freshLimits = some o ∧
      o.attempts = 1 ∧ o.trace = [.post 0] ∧ ∃ rle, o.err = some (.rateLimit rle)) ∧
    (∃ o, Query (-5) (fun _ => throttledResponse) freshLimits = some o ∧
      o.attempts = 1 ∧ o.trace = [.post 0] ∧ ∃ rle, o.err = some (.rateLimit rle)) := by
  obtain ⟨o, hQ, _, _, _, _, h⟩ := Query_bounded 0 (fun _ => throttledResponse) freshLimits
  obtain ⟨o', hQ', _, _, _, _, h'⟩ :=
    Query_bounded (-5) (fun _ => throttledResponse) freshLimits
  exact ⟨⟨o, hQ, h (by decide) (show throttledResponse.gr.throttled = true by decide)⟩,
    ⟨o', hQ', h' (by decide) (show throttledResponse.gr.throttled = true by decide)⟩⟩

end GoShopify
